import Mathlib

/-!
# ecell4 core: barycentric edge crossing, triangle geometry and the off-lattice occupancy store

A shallow embedding of

* `ecell4/core/Barycentric.hpp`, `ecell4/core/Barycentric.cpp`
* `ecell4/egfrd/TriangleOperation.hpp`
* `ecell4/core/OffLatticeSpace.cpp`

The C++ type `Real` is embedded as an arbitrary linearly ordered field `K`
(every definition runs on `ℚ`); arithmetic is exact.  `std::sqrt` is passed
to the functions that call it as the parameter `sqrt`.  Exceptions are
embedded as `Except Error _`.
-/

namespace Ecell4

/-- The exception classes thrown by the embedded code. -/
inductive Error where
  | InvalidArgument
  | LogicError
  | IllegalState
  | NotSupported
  | AlreadyExists
  | OutOfRange
  deriving DecidableEq

/-! ## `Barycentric.hpp` -/

/-- The C++ `struct Barycentric<realT>`: the array `val` of three reals. -/
@[ext]
structure Barycentric (K : Type) where
  v0 : K
  v1 : K
  v2 : K
  deriving DecidableEq

section Bary

variable {K : Type} [LinearOrderedField K]

/-- The C++ `Barycentric::operator[]` (indices above 2 are outside the array; they
read the last slot here). -/
def Barycentric.val (b : Barycentric K) (i : Nat) : K :=
  if i = 0 then b.v0 else if i = 1 then b.v1 else b.v2

/-- The C++ `Barycentric::operator[]` as an lvalue: `b[i] = x`. -/
def Barycentric.set (b : Barycentric K) (i : Nat) (x : K) : Barycentric K :=
  if i = 0 then { b with v0 := x } else if i = 1 then { b with v1 := x } else { b with v2 := x }

/-- The C++ `operator+(Barycentric, Barycentric)`. -/
def Barycentric.add (lhs rhs : Barycentric K) : Barycentric K :=
  ⟨lhs.val 0 + rhs.val 0, lhs.val 1 + rhs.val 1, lhs.val 2 + rhs.val 2⟩

/-- The C++ `operator-(Barycentric, Barycentric)`. -/
def Barycentric.sub (lhs rhs : Barycentric K) : Barycentric K :=
  ⟨lhs.val 0 - rhs.val 0, lhs.val 1 - rhs.val 1, lhs.val 2 - rhs.val 2⟩

/-- The default tolerance `1e-10` of `on_plane`. -/
def default_tolerance : K := 1 / 10 ^ 10

/-- The C++ `on_plane(bary, tolerance)`. -/
def on_plane (bary : Barycentric K) (tolerance : K) : Bool :=
  decide (|bary.val 0 + bary.val 1 + bary.val 2 - 1| < tolerance)

/-- The C++ `is_inside(bary)` (the overload without a tolerance). -/
def is_inside (bary : Barycentric K) : Bool :=
  on_plane bary default_tolerance &&
  (decide (0 ≤ bary.val 0) && decide (bary.val 0 ≤ 1)) &&
  (decide (0 ≤ bary.val 1) && decide (bary.val 1 ≤ 1)) &&
  (decide (0 ≤ bary.val 2) && decide (bary.val 2 ≤ 1))

/-- The C++ `is_inside(bary, tolerance)`. -/
def is_inside_tol (bary : Barycentric K) (tolerance : K) : Bool :=
  on_plane bary default_tolerance &&
  (decide (0 - tolerance ≤ bary.val 0) && decide (bary.val 0 ≤ 1 + tolerance)) &&
  (decide (0 - tolerance ≤ bary.val 1) && decide (bary.val 1 ≤ 1 + tolerance)) &&
  (decide (0 - tolerance ≤ bary.val 2) && decide (bary.val 2 ≤ 1 + tolerance))

/-- The index of the component opposite to edge `edge_idx`:
`(edge_idx==0) ? 2 : edge_idx-1`. -/
def opposite_index (edge_idx : Nat) : Nat :=
  if edge_idx = 0 then 2 else edge_idx - 1

/-- The C++ `cross_section(pos, displacement, edge_idx)`.  The quotient is the
C++ one for a non-zero divisor `displacement[idx]`; for a zero divisor IEEE
arithmetic gives an infinity or a NaN, no number of the field (the field's
`x / 0` is 0), and the theorems that state or compare fractions assume or derive
a non-zero divisor. -/
def cross_section (pos displacement : Barycentric K) (edge_idx : Nat) : K :=
  let idx := opposite_index edge_idx;
  -(pos.val idx) / displacement.val idx

/-- The C++ `first_cross_edge(pos, disp)`; the template of `Barycentric.hpp` and the
function of `Barycentric.cpp` have the same body. -/
def first_cross_edge (pos disp : Barycentric K) : Except Error (Nat × K) :=
  let npos := pos.add disp
  if npos.val 0 * npos.val 1 * npos.val 2 < 0 then
    if npos.val 0 < 0 then .ok (1, cross_section pos disp 1)
    else if npos.val 1 < 0 then .ok (2, cross_section pos disp 2)
    else if npos.val 2 < 0 then .ok (0, cross_section pos disp 0)
    else .error .LogicError
  else
    if npos.val 0 > 0 ∧ npos.val 1 > 0 ∧ npos.val 2 > 0 then
      .error .InvalidArgument
    else if npos.val 0 > 0 then
      let ab := cross_section pos disp 0
      let ca := cross_section pos disp 2
      if ab > ca then .ok (2, ca) else .ok (0, ab)
    else if npos.val 1 > 0 then
      let ab := cross_section pos disp 0
      let bc := cross_section pos disp 1
      if bc > ab then .ok (0, ab) else .ok (1, bc)
    else
      let bc := cross_section pos disp 1
      let ca := cross_section pos disp 2
      if ca > bc then .ok (1, bc) else .ok (2, ca)

/-- One round of the clamping loop of `force_put_inside`: component `i` of
`retval` is clamped to `[0, 1]` and `over[i]` records whether it was. -/
def clamp_step (st : Barycentric K × (Nat → Bool)) (i : Nat) :
    Barycentric K × (Nat → Bool) :=
  let retval := st.1
  let over := st.2
  if retval.val i < 0 then
    (retval.set i 0, Function.update over i true)
  else if retval.val i > 1 then
    (retval.set i 1, Function.update over i true)
  else (retval, over)

/-- The C++ `force_put_inside(bary)`. -/
def force_put_inside (bary : Barycentric K) : Except Error (Barycentric K) :=
  if !on_plane bary default_tolerance then .error .InvalidArgument
  else if is_inside bary then .ok bary
  else
    let st := (List.range 3).foldl clamp_step (bary, fun _ => false)
    let retval := st.1
    let over := st.2
    if !over 0 then .ok (retval.set 0 (1 - retval.val 1 - retval.val 2))
    else if !over 1 then .ok (retval.set 1 (1 - retval.val 0 - retval.val 2))
    else if !over 2 then .ok (retval.set 2 (1 - retval.val 0 - retval.val 1))
    else .error .InvalidArgument

/-- The position of the worked example: (0.5, 0.3, 0.2). -/
def example_pos : Barycentric ℚ := ⟨1 / 2, 3 / 10, 1 / 5⟩

/-- The displacement of the worked example: (0.6, -0.1, -0.5). -/
def example_disp : Barycentric ℚ := ⟨3 / 5, -1 / 10, -1 / 2⟩

/-- An on-plane point with one component slightly negative (ε = 1e-6). -/
def example_outside : Barycentric ℚ := ⟨-1 / 10 ^ 6, 1 / 2 + 1 / 10 ^ 6, 1 / 2⟩

/-- A point inside the triangle. -/
def example_inside : Barycentric ℚ := ⟨1 / 2, 3 / 10, 1 / 5⟩

end Bary

/-! ## Vectors and triangles (`Real3.hpp`, `Triangle.hpp`, `Vector3Operation.hpp`) -/

/-- Modelled from the spec: `Real3` (`Real3.hpp` is not among the sources), a
point or vector of 3D space with its three Cartesian components. -/
@[ext]
structure Real3 (K : Type) where
  x : K
  y : K
  z : K
  deriving DecidableEq

/-- Modelled from the spec: `Triangle` (`Triangle.hpp` is not among the
sources), "three ordered vertices in 3D space"; it is also the
`boost::array<coordT, 3> vertices` of `TriangleOperation.hpp`. -/
@[ext]
structure Triangle (K : Type) where
  a : Real3 K
  b : Real3 K
  c : Real3 K
  deriving DecidableEq

section Geometry

variable {K : Type} [LinearOrderedField K]

/-- Modelled from the spec: `Real3::operator[]`. -/
def Real3.get (v : Real3 K) (i : Nat) : K :=
  if i = 0 then v.x else if i = 1 then v.y else v.z

/-- Modelled from the spec: componentwise `operator+` of `Real3`. -/
def Real3.add (u v : Real3 K) : Real3 K := ⟨u.x + v.x, u.y + v.y, u.z + v.z⟩

/-- Modelled from the spec: componentwise `operator-` of `Real3`. -/
def Real3.sub (u v : Real3 K) : Real3 K := ⟨u.x - v.x, u.y - v.y, u.z - v.z⟩

/-- Modelled from the spec: `operator*(Real3, Real)`, the scalar multiple. -/
def Real3.smul (v : Real3 K) (k : K) : Real3 K := ⟨v.x * k, v.y * k, v.z * k⟩

/-- Modelled from the spec: `dot_product` of `Real3.hpp` and
`Vector3Operation.hpp`. -/
def dot_product (u v : Real3 K) : K := u.x * v.x + u.y * v.y + u.z * v.z

/-- Modelled from the spec: `cross_product` of `Real3.hpp` and
`Vector3Operation.hpp`. -/
def cross_product (u v : Real3 K) : Real3 K :=
  ⟨u.y * v.z - u.z * v.y, u.z * v.x - u.x * v.z, u.x * v.y - u.y * v.x⟩

/-- Modelled from the spec: `length_sq`, the squared Euclidean norm. -/
def length_sq (v : Real3 K) : K := dot_product v v

/-- Modelled from the spec: `length`, the Euclidean norm `std::sqrt(length_sq(v))`;
the square root is the parameter `sqrt`. -/
def length (sqrt : K → K) (v : Real3 K) : K := sqrt (length_sq v)

/-- Modelled from the spec: `Triangle::vertex_at(i)`. -/
def Triangle.vertex_at (t : Triangle K) (i : Nat) : Real3 K :=
  if i = 0 then t.a else if i = 1 then t.b else t.c

/-- Modelled from the spec: `Triangle::edge_at(i)`, "derived edges
(vertex[i+1]-vertex[i] mod 3)". -/
def Triangle.edge_at (t : Triangle K) (i : Nat) : Real3 K :=
  (t.vertex_at ((i + 1) % 3)).sub (t.vertex_at i)

/-- The C++ `to_absolute(bary, tri)`. -/
def to_absolute (bary : Barycentric K) (tri : Triangle K) : Real3 K :=
  (((tri.vertex_at 0).smul (bary.val 0)).add ((tri.vertex_at 1).smul (bary.val 1))).add
    ((tri.vertex_at 2).smul (bary.val 2))

/-- The C++ `detail::triangle_area_2D(x1, y1, x2, y2, x3, y3)`. -/
def triangle_area_2D (x1 y1 x2 y2 x3 y3 : K) : K :=
  (x1 - x2) * (y2 - y3) - (x2 - x3) * (y1 - y2)

/-- The vector `m` of `to_barycentric`:
`cross_product(face.edge_at(0), face.edge_at(2)) * (-1.)`. -/
def to_barycentric_m (face : Triangle K) : Real3 K :=
  (cross_product (face.edge_at 0) (face.edge_at 2)).smul (-1)

/-- The triple `(nu, nv, ood)` that the three branches of `to_barycentric`
assign. -/
def to_barycentric_branch (pos : Real3 K) (face : Triangle K) : K × K × K :=
  let a := face.vertex_at 0
  let b := face.vertex_at 1
  let c := face.vertex_at 2
  let m := to_barycentric_m face
  let x := |m.get 0|
  let y := |m.get 1|
  let z := |m.get 2|
  if x ≥ y ∧ x ≥ z then
    (triangle_area_2D (pos.get 1) (pos.get 2) (b.get 1) (b.get 2) (c.get 1) (c.get 2),
     triangle_area_2D (pos.get 1) (pos.get 2) (c.get 1) (c.get 2) (a.get 1) (a.get 2),
     1 / m.get 0)
  else if y ≥ x ∧ y ≥ z then
    (triangle_area_2D (pos.get 0) (pos.get 2) (b.get 0) (b.get 2) (c.get 0) (c.get 2),
     triangle_area_2D (pos.get 0) (pos.get 2) (c.get 0) (c.get 2) (a.get 0) (a.get 2),
     1 / -(m.get 1))
  else
    (triangle_area_2D (pos.get 0) (pos.get 1) (b.get 0) (b.get 1) (c.get 0) (c.get 1),
     triangle_area_2D (pos.get 0) (pos.get 1) (c.get 0) (c.get 1) (a.get 0) (a.get 1),
     1 / m.get 2)

/-- The C++ `to_barycentric(pos, face)`. -/
def to_barycentric (pos : Real3 K) (face : Triangle K) : Barycentric K :=
  let r := to_barycentric_branch pos face
  let nu := r.1
  let nv := r.2.1
  let ood := r.2.2
  let bary0 := nu * ood
  let bary1 := nv * ood
  ⟨bary0, bary1, 1 - bary0 - bary1⟩

/-! ## `TriangleOperation.hpp` -/

/-- The point of the triangle whose distance to `pos` the function `distance`
returns: in every branch the argument of `length` is this point minus `pos`
(or `pos` minus this point). -/
def closest_point (pos : Real3 K) (vertices : Triangle K) : Real3 K :=
  let a := vertices.a
  let b := vertices.b
  let c := vertices.c
  let ab := b.sub a
  let ac := c.sub a
  let ap := pos.sub a
  let d1 := dot_product ab ap
  let d2 := dot_product ac ap
  if d1 ≤ 0 ∧ d2 ≤ 0 then a
  else
    let bp := pos.sub b
    let d3 := dot_product ab bp
    let d4 := dot_product ac bp
    if d3 ≥ 0 ∧ d4 ≤ d3 then b
    else
      let vc := d1 * d4 - d3 * d2
      if vc ≤ 0 ∧ d1 ≥ 0 ∧ d3 ≤ 0 then
        let v := d1 / (d1 - d3)
        a.add (ab.smul v)
      else
        let cp := pos.sub c
        let d5 := dot_product ab cp
        let d6 := dot_product ac cp
        if d6 ≥ 0 ∧ d5 ≤ d6 then c
        else
          let vb := d5 * d2 - d1 * d6
          if vb ≤ 0 ∧ d2 ≥ 0 ∧ d6 ≤ 0 then
            let w := d2 / (d2 - d6)
            a.add (ac.smul w)
          else
            let va := d3 * d6 - d5 * d4
            if va ≤ 0 ∧ (d4 - d3) ≥ 0 ∧ (d5 - d6) ≥ 0 then
              let w := (d4 - d3) / ((d4 - d3) + (d5 - d6))
              b.add ((c.sub b).smul w)
            else
              let denom := 1 / (va + vb + vc)
              let v := vb * denom
              let w := vc * denom
              (a.add (ab.smul v)).add (ac.smul w)

/-- The C++ `distance(pos, vertices)`: the pair (distance, 0.0). -/
def distance (sqrt : K → K) (pos : Real3 K) (vertices : Triangle K) : K × K :=
  let a := vertices.a
  let b := vertices.b
  let c := vertices.c
  let ab := b.sub a
  let ac := c.sub a
  let ap := pos.sub a
  let d1 := dot_product ab ap
  let d2 := dot_product ac ap
  if d1 ≤ 0 ∧ d2 ≤ 0 then (length sqrt (pos.sub a), 0)
  else
    let bp := pos.sub b
    let d3 := dot_product ab bp
    let d4 := dot_product ac bp
    if d3 ≥ 0 ∧ d4 ≤ d3 then (length sqrt (pos.sub b), 0)
    else
      let vc := d1 * d4 - d3 * d2
      if vc ≤ 0 ∧ d1 ≥ 0 ∧ d3 ≤ 0 then
        let v := d1 / (d1 - d3)
        (length sqrt ((a.add (ab.smul v)).sub pos), 0)
      else
        let cp := pos.sub c
        let d5 := dot_product ab cp
        let d6 := dot_product ac cp
        if d6 ≥ 0 ∧ d5 ≤ d6 then (length sqrt (c.sub pos), 0)
        else
          let vb := d5 * d2 - d1 * d6
          if vb ≤ 0 ∧ d2 ≥ 0 ∧ d6 ≤ 0 then
            let w := d2 / (d2 - d6)
            (length sqrt ((a.add (ac.smul w)).sub pos), 0)
          else
            let va := d3 * d6 - d5 * d4
            if va ≤ 0 ∧ (d4 - d3) ≥ 0 ∧ (d5 - d6) ≥ 0 then
              let w := (d4 - d3) / ((d4 - d3) + (d5 - d6))
              (length sqrt ((b.add ((c.sub b).smul w)).sub pos), 0)
            else
              let denom := 1 / (va + vb + vc)
              let v := vb * denom
              let w := vc * denom
              (length sqrt (((a.add (ab.smul v)).add (ac.smul w)).sub pos), 0)

/-- Modelled from the spec: `barycentric_to_absolute(bary, vertices)` (its
header is not among the sources), the point `u*a + v*b + w*c`. -/
def barycentric_to_absolute (bary : K × K × K) (vertices : Triangle K) : Real3 K :=
  ((vertices.a.smul bary.1).add (vertices.b.smul bary.2.1)).add (vertices.c.smul bary.2.2)

/-- The C++ `is_pierce(begin, end, vertices)`: the pair (whether pierce, pierce
point).  The point is `none` where the C++ has no real point to return: for
`d = 0` the function gets past the four rejections only with `v = w = 0`, and
then `ood = 1. / d` is infinite and `v *= ood` is `0 * inf`, not a number, so
every component of `intersect` is a NaN. -/
def is_pierce (begin_ end_ : Real3 K) (vertices : Triangle K) : Bool × Option (Real3 K) :=
  let line := begin_.sub end_
  let ab := vertices.b.sub vertices.a
  let ac := vertices.c.sub vertices.a
  let normal := cross_product ab ac
  let d := dot_product line normal
  if d < 0 then (false, some ⟨0, 0, 0⟩)
  else
    let ap := begin_.sub vertices.a
    let t := dot_product ap normal
    if t < 0 ∨ d < t then (false, some ⟨0, 0, 0⟩)
    else
      let e := cross_product line ap
      let v := dot_product ac e
      if v < 0 ∨ d < v then (false, some ⟨0, 0, 0⟩)
      else
        let w := -1 * dot_product ab e
        if w < 0 ∨ d < v + w then (false, some ⟨0, 0, 0⟩)
        else if d = 0 then (true, none)
        else
          let ood := 1 / d
          let v1 := v * ood
          let w1 := w * ood
          let u := 1 - v1 - w1
          (true, some (barycentric_to_absolute (u, v1, w1) vertices))

/-- The vector `cross_product(b - a, c - a)`, normal to the plane of the
triangle (the `normal` of `is_pierce`). -/
def Triangle.normal_vec (t : Triangle K) : Real3 K :=
  cross_product (t.b.sub t.a) (t.c.sub t.a)

/-- A triangle is non-degenerate when its vertices are not collinear. -/
def Triangle.nondegenerate (t : Triangle K) : Prop :=
  t.normal_vec ≠ ⟨0, 0, 0⟩

/-- The point `p` lies in the plane through the three vertices. -/
def Triangle.in_plane (t : Triangle K) (p : Real3 K) : Prop :=
  dot_product (p.sub t.a) t.normal_vec = 0

/-- The point `q` belongs to the closed triangle: `q = u*a + v*b + w*c` with
`u, v, w ≥ 0` and `u + v + w = 1`. -/
def Triangle.mem (t : Triangle K) (q : Real3 K) : Prop :=
  ∃ u v w : K, 0 ≤ u ∧ 0 ≤ v ∧ 0 ≤ w ∧ u + v + w = 1 ∧
    q = ((t.a.smul u).add (t.b.smul v)).add (t.c.smul w)

/-- Proof device for `distance`: with `A = |b-a|²`, `B = (b-a)·(c-a)`,
`C = |c-a|²`, `d1 = (b-a)·(p-a)`, `d2 = (c-a)·(p-a)`, the point
`q = a + v*(b-a) + w*(c-a)` lies in the closed triangle and the residual `p - q`
has a non-positive dot product with the direction from `q` to each vertex. -/
def closest_cond (A B C d1 d2 v w : K) : Prop :=
  0 ≤ v ∧ 0 ≤ w ∧ v + w ≤ 1 ∧
  0 ≤ v * (d1 - v * A - w * B) + w * (d2 - v * B - w * C) ∧
  (1 - v) * (d1 - v * A - w * B) - w * (d2 - v * B - w * C) ≤ 0 ∧
  (1 - w) * (d2 - v * B - w * C) - v * (d1 - v * A - w * B) ≤ 0

/-- The triangle with vertices (1,0,0), (0,1,0), (0,0,1). -/
def example_triangle : Triangle ℚ := ⟨⟨1, 0, 0⟩, ⟨0, 1, 0⟩, ⟨0, 0, 1⟩⟩

/-- A point strictly inside `example_triangle`. -/
def example_point : Real3 ℚ := ⟨1 / 2, 1 / 4, 1 / 4⟩

end Geometry

/-- The parameter `sqrt` is the square root: on every `x ≥ 0` it returns the
non-negative number whose square is `x`. -/
def IsSqrt {K : Type} [LinearOrderedField K] (sqrt : K → K) : Prop :=
  ∀ x, 0 ≤ x → 0 ≤ sqrt x ∧ sqrt x * sqrt x = x

/-- The triangle with vertices (0,0,0), (1,0,0), (0,1,0), over any field. -/
def flat_triangle {K : Type} [LinearOrderedField K] : Triangle K :=
  ⟨⟨0, 0, 0⟩, ⟨1, 0, 0⟩, ⟨0, 1, 0⟩⟩

/-- The point (1/4, 1/4, 0) of `flat_triangle`. -/
def flat_inner_point {K : Type} [LinearOrderedField K] : Real3 K := ⟨1 / 4, 1 / 4, 0⟩

/-- The point (1/4, 1/4, 3) above `flat_triangle`. -/
def flat_outer_point {K : Type} [LinearOrderedField K] : Real3 K := ⟨1 / 4, 1 / 4, 3⟩

/-- Begin of a segment lying in the plane of `flat_triangle`, away from it. -/
def pierce_begin : Real3 ℚ := ⟨2, 2, 0⟩

/-- End of a segment lying in the plane of `flat_triangle`, away from it. -/
def pierce_end : Real3 ℚ := ⟨3, 2, 0⟩


/-! ## The occupancy store (`OffLatticeSpace.cpp`)

Pools are kept in an arena and referenced by handles (`PoolRef`): a pool is
never destroyed and its key never changes, so two handles are equal exactly
when the C++ pointers are. -/

/-- Modelled from the spec: `Species` (`Species.hpp` is not among the sources),
identified by its serial. -/
abbrev Species := String

/-- Modelled from the spec: `ParticleID` (`Identifier.hpp` is not among the
sources), a particle identity; `0` is the default-constructed `ParticleID()`.
A coordinate (`coordinate_type`, the signed `Integer`) is an `Int`, and an entry
of an occupant list (`coordinate_id_pair_type`) is a pair of a particle identity
and a coordinate. -/
abbrev ParticleID := Nat

/-- A `VoxelPool*`: the vacant pool `vacant_`, a value of the map
`voxel_pools_` (a structural, non-molecular pool) or a value of the map
`molecule_pools_`. -/
inductive PoolRef where
  | vacant
  | structural (sp : Species)
  | molecular (sp : Species)
  deriving DecidableEq

/-- Modelled from the spec: `Voxel` (`Voxel.hpp` is not among the sources):
species, coordinate, radius, diffusion coefficient and location name. -/
structure Voxel (K : Type) where
  species : Species
  coordinate : Int
  radius : K
  D : K
  loc : String
  deriving DecidableEq

/-- Modelled from the spec: a value of `voxel_pools_`, a structural pool "with
no voxels" (`VoxelPool.hpp` is not among the sources): its location and its
physical metadata. -/
structure StructurePool (K : Type) where
  location : PoolRef
  radius : K
  D : K
  deriving DecidableEq

/-- Modelled from the spec: a value of `molecule_pools_` (`MoleculePool`,
`MolecularType`; their headers are not among the sources): location,
radius, diffusion coefficient and the occupant list. -/
structure MoleculePool (K : Type) where
  location : PoolRef
  radius : K
  D : K
  voxels : List (ParticleID × Int)
  deriving DecidableEq

/-- The members of `OffLatticeSpace` and of its base class that the embedded
functions use.  The maps are association lists in registration order (the map
type is declared in a header that is not among the sources); a key occurs at
most once because an entry is added only after a failed lookup. -/
structure OffLatticeSpace (K : Type) where
  voxel_radius : K
  voxels : List PoolRef
  positions : List (Real3 K)
  adjoinings : List (List Int)
  voxel_pools : List (Species × StructurePool K)
  molecule_pools : List (Species × MoleculePool K)
  deriving DecidableEq

section Store

variable {K : Type} [LinearOrderedField K]

/-- The C++ `map.find(sp)` on an association list. -/
def map_find {β : Type} : List (Species × β) → Species → Option β
  | [], _ => none
  | (k, v) :: rest, sp => if k = sp then some v else map_find rest sp

/-- In-place modification of the value stored under `sp` (a member function
called through the stored pointer). -/
def map_modify {β : Type} (l : List (Species × β)) (sp : Species) (f : β → β) :
    List (Species × β) :=
  l.map (fun e => if e.1 = sp then (e.1, f e.2) else e)

/-- Modelled from the spec: `MoleculePool::remove_voxel_if_exists` on the
occupant list: the first entry at `coord` is removed. -/
def erase_coord : List (ParticleID × Int) → Int → List (ParticleID × Int)
  | [], _ => []
  | e :: rest, coord => if e.2 = coord then rest else e :: erase_coord rest coord

/-- Modelled from the spec: `MoleculePool::replace_voxel` on the occupant list:
the first entry at `from_coord` is re-pointed to `to_coord`; the spec names no
failure for a pool without such an entry, and the list is then unchanged. -/
def replace_coord : List (ParticleID × Int) → Int → Int →
    List (ParticleID × Int)
  | [], _, _ => []
  | e :: rest, from_coord, to_coord =>
    if e.2 = from_coord then (e.1, to_coord) :: rest
    else e :: replace_coord rest from_coord to_coord

/-- Modelled from the spec: the lookup of an entry of an occupant list by
particle identity (`MoleculePool::find(pid)`): the coordinate of the first
entry with that identity. -/
def find_pid : List (ParticleID × Int) → ParticleID → Option Int
  | [], _ => none
  | e :: rest, pid => if e.1 = pid then some e.2 else find_pid rest pid

/-- The number of entries of an occupant list at `coord`. -/
def count_at : List (ParticleID × Int) → Int → Nat
  | [], _ => 0
  | e :: rest, coord => (if e.2 = coord then 1 else 0) + count_at rest coord

namespace OffLatticeSpace

/-- Modelled from the spec: `size()`, the number of coordinates. -/
def size (s : OffLatticeSpace K) : Nat := s.voxels.length

/-- Modelled from the spec: `is_in_range(coord)`, "valid range [0, N)". -/
def is_in_range (s : OffLatticeSpace K) (coord : Int) : Bool :=
  decide (0 ≤ coord) && decide (coord < (s.size : Int))

/-- Modelled from the spec: `get_voxel_pool_at(coord)`, the pool claiming an
in-range coordinate (`voxels_[coord]`). -/
def get_voxel_pool_at (s : OffLatticeSpace K) (coord : Int) : PoolRef :=
  s.voxels.getD coord.toNat PoolRef.vacant

/-- The assignment `voxels_[coord] = vp` through an iterator. -/
def set_voxel (s : OffLatticeSpace K) (coord : Int) (vp : PoolRef) :
    OffLatticeSpace K :=
  { s with voxels := s.voxels.set coord.toNat vp }

/-- Modelled from the spec: `VoxelPool::is_vacant()`. -/
def is_vacant (vp : PoolRef) : Bool :=
  match vp with
  | PoolRef.vacant => true
  | _ => false

/-- Modelled from the spec: `VoxelPool::location()`, the declared location pool
("self-referential for the vacant pool"). -/
def location (s : OffLatticeSpace K) (vp : PoolRef) : PoolRef :=
  match vp with
  | PoolRef.vacant => PoolRef.vacant
  | PoolRef.structural sp =>
    match map_find s.voxel_pools sp with
    | some p => p.location
    | none => PoolRef.vacant
  | PoolRef.molecular sp =>
    match map_find s.molecule_pools sp with
    | some p => p.location
    | none => PoolRef.vacant

/-- The occupant list of a pool; only molecular pools hold one. -/
def pool_voxels (s : OffLatticeSpace K) (vp : PoolRef) : List (ParticleID × Int) :=
  match vp with
  | PoolRef.molecular sp =>
    match map_find s.molecule_pools sp with
    | some p => p.voxels
    | none => []
  | _ => []

/-- The occupant list of the molecular pool `sp` becomes `f` of itself (a
member function of the pool called through a pointer). -/
def modify_occupants (s : OffLatticeSpace K) (sp : Species)
    (f : List (ParticleID × Int) → List (ParticleID × Int)) : OffLatticeSpace K :=
  { s with molecule_pools := map_modify s.molecule_pools sp (fun p => { p with voxels := f p.voxels }) }

/-- Modelled from the spec: `VoxelPool::add_voxel(info)`: "add ... of a
(identity, coordinate) pair" (`push_back`); the vacant pool and the structural
pools hold no occupant list. -/
def add_voxel (s : OffLatticeSpace K) (vp : PoolRef) (info : (ParticleID × Int)) :
    OffLatticeSpace K :=
  match vp with
  | PoolRef.molecular sp => s.modify_occupants sp (fun l => l ++ [info])
  | _ => s

/-- Modelled from the spec: `VoxelPool::remove_voxel_if_exists(coord)`:
"remove of a (identity, coordinate) pair", answering whether an entry was
there; a pool without occupant list answers `true`. -/
def remove_voxel_if_exists (s : OffLatticeSpace K) (vp : PoolRef) (coord : Int) :
    Bool × OffLatticeSpace K :=
  match vp with
  | PoolRef.molecular sp =>
    if (s.pool_voxels vp).any (fun e => decide (e.2 = coord)) then
      (true, s.modify_occupants sp (fun l => erase_coord l coord))
    else (false, s)
  | _ => (true, s)

/-- Modelled from the spec: `VoxelPool::replace_voxel(from_coord, to_coord,
candidate)`: the pool's entry at `from_coord` now sits at `to_coord`; the
candidate index is a search hint. -/
def replace_voxel (s : OffLatticeSpace K) (vp : PoolRef) (from_coord to_coord : Int)
    (_candidate : Nat) : OffLatticeSpace K :=
  match vp with
  | PoolRef.molecular sp => s.modify_occupants sp (fun l => replace_coord l from_coord to_coord)
  | _ => s

/-- The store right after construction by `OffLatticeSpace(voxel_radius)`. -/
def empty (voxel_radius : K) : OffLatticeSpace K :=
  ⟨voxel_radius, [], [], [], [], []⟩

/-- The C++ `adjoinings_.at(coord).push_back(other)`. -/
def push_adjoining (s : OffLatticeSpace K) (coord other : Int) : OffLatticeSpace K :=
  { s with adjoinings := s.adjoinings.modify (fun l => l ++ [other]) coord.toNat }

/-- The loop of `reset` over the adjoining pairs. -/
def reset_pairs (s : OffLatticeSpace K) :
    List (Int × Int) → Except Error Unit × OffLatticeSpace K
  | [] => (.ok (), s)
  | (coord0, coord1) :: rest =>
    if s.is_in_range coord0 && s.is_in_range coord1 then
      reset_pairs ((s.push_adjoining coord0 coord1).push_adjoining coord1 coord0) rest
    else (.error Error.IllegalState, s)

/-- The C++ `OffLatticeSpace::reset(positions, adjoining_pairs)`; the second component
is the store the call leaves behind, also when it throws. -/
def reset (s : OffLatticeSpace K) (positions : List (Real3 K))
    (adjoining_pairs : List (Int × Int)) :
    Except Error Unit × OffLatticeSpace K :=
  let size := positions.length
  let cleared : OffLatticeSpace K :=
    { s with voxels := List.replicate size PoolRef.vacant, positions := positions,
             adjoinings := List.replicate size [] }
  reset_pairs cleared adjoining_pairs

/-- Modelled from the spec: `find_voxel_pool(sp)` of the base class: "a named
substrate resolves to an existing pool for that name"; `none` is the exception
`NotFound`. -/
def find_voxel_pool (s : OffLatticeSpace K) (sp : Species) : Option PoolRef :=
  match map_find s.voxel_pools sp with
  | some _ => some (PoolRef.structural sp)
  | none =>
    match map_find s.molecule_pools sp with
    | some _ => some (PoolRef.molecular sp)
    | none => none

/-- The C++ `molecule_pools_.insert(value_type(sp, pool))`: whether the pair was
inserted, and the map. -/
def insert_molecule_pool (s : OffLatticeSpace K) (sp : Species) (pool : MoleculePool K) :
    Bool × OffLatticeSpace K :=
  match map_find s.molecule_pools sp with
  | some _ => (false, s)
  | none => (true, { s with molecule_pools := s.molecule_pools ++ [(sp, pool)] })

/-- The C++ `OffLatticeSpace::make_molecular_pool(sp, radius, D, loc)`. -/
def make_molecular_pool (s : OffLatticeSpace K) (sp : Species) (radius D : K) (loc : String) :
    Except Error Bool × OffLatticeSpace K :=
  if (map_find s.molecule_pools sp).isSome then (.ok false, s)
  else if (map_find s.voxel_pools sp).isSome then (.error Error.IllegalState, s)
  else
    let located : Except Error PoolRef × OffLatticeSpace K :=
      if loc = "" then (.ok PoolRef.vacant, s)
      else
        match s.find_voxel_pool loc with
        | some location => (.ok location, s)
        | none =>
          let locval := s.insert_molecule_pool loc ⟨PoolRef.vacant, s.voxel_radius, 0, []⟩
          if !locval.1 then (.error Error.AlreadyExists, locval.2)
          else (.ok (PoolRef.molecular loc), locval.2)
    match located with
    | (.error e, s1) => (.error e, s1)
    | (.ok location, s1) =>
      let retval := s1.insert_molecule_pool sp ⟨location, radius, D, []⟩
      if !retval.1 then (.error Error.AlreadyExists, retval.2)
      else (.ok retval.1, retval.2)

/-- The C++ `OffLatticeSpace::get_voxel_pool(v)`. -/
def get_voxel_pool (s : OffLatticeSpace K) (v : Voxel K) :
    Except Error PoolRef × OffLatticeSpace K :=
  let sp := v.species
  if (map_find s.voxel_pools sp).isSome then (.ok (PoolRef.structural sp), s)
  else if (map_find s.molecule_pools sp).isSome then (.ok (PoolRef.molecular sp), s)
  else
    match s.make_molecular_pool sp v.radius v.D v.loc with
    | (.error e, s1) => (.error e, s1)
    | (.ok suc, s1) =>
      if !suc then (.error Error.IllegalState, s1)
      else if (map_find s1.molecule_pools sp).isNone then (.error Error.IllegalState, s1)
      else (.ok (PoolRef.molecular sp), s1)

/-- The scan of `get_coord` over the pools of `molecule_pools_`. -/
def get_coord_scan : List (Species × MoleculePool K) → ParticleID → Option Int
  | [], _ => none
  | (_, vp) :: rest, pid =>
    match find_pid vp.voxels pid with
    | some coord => some coord
    | none => get_coord_scan rest pid

/-- The C++ `OffLatticeSpace::get_coord(pid)`; `none` is `boost::none`. -/
def get_coord (s : OffLatticeSpace K) (pid : ParticleID) : Option Int :=
  if pid = 0 then none else get_coord_scan s.molecule_pools pid

/-- The C++ `OffLatticeSpace::update_voxel(pid, v)`; the second component is the store
the call leaves behind, also when it throws. -/
def update_voxel (s : OffLatticeSpace K) (pid : ParticleID) (v : Voxel K) :
    Except Error Bool × OffLatticeSpace K :=
  let to_coord := v.coordinate
  if !s.is_in_range to_coord then (.error Error.NotSupported, s)
  else
    match s.get_voxel_pool v with
    | (.error e, s1) => (.error e, s1)
    | (.ok new_vp, s1) =>
      let dest_vp := s1.get_voxel_pool_at to_coord
      if dest_vp ≠ s1.location new_vp then (.error Error.NotSupported, s1)
      else
        match s1.get_coord pid with
        | some from_coord =>
          if !s1.is_in_range from_coord then (.error Error.OutOfRange, s1)
          else
            let src_vp := s1.get_voxel_pool_at from_coord
            let s2 := (s1.remove_voxel_if_exists src_vp from_coord).2
            let s3 := s2.replace_voxel dest_vp to_coord from_coord 0
            let s4 := s3.set_voxel from_coord dest_vp
            let s5 := s4.add_voxel new_vp (pid, to_coord)
            let s6 := s5.set_voxel to_coord new_vp
            (.ok false, s6)
        | none =>
          let s2 := (s1.remove_voxel_if_exists dest_vp to_coord).2
          let s3 := s2.add_voxel new_vp (pid, to_coord)
          let s4 := s3.set_voxel to_coord new_vp
          (.ok true, s4)

/-- The loop of `remove_voxel(pid)` over the pools of `molecule_pools_`; `keys`
are the keys still to visit. -/
def remove_voxel_scan (s : OffLatticeSpace K) (pid : ParticleID) :
    List Species → Bool × OffLatticeSpace K
  | [] => (false, s)
  | sp :: rest =>
    let vp := PoolRef.molecular sp
    match find_pid (s.pool_voxels vp) pid with
    | some coord =>
      let r := s.remove_voxel_if_exists vp coord
      if !r.1 then (false, r.2)
      else
        let s2 := r.2.set_voxel coord (r.2.location vp)
        (true, s2.add_voxel (s2.location vp) (0, coord))
    | none => remove_voxel_scan s pid rest

/-- The C++ `OffLatticeSpace::remove_voxel(const ParticleID& pid)`. -/
def remove_voxel_pid (s : OffLatticeSpace K) (pid : ParticleID) : Bool × OffLatticeSpace K :=
  s.remove_voxel_scan pid (s.molecule_pools.map Prod.fst)

/-- The C++ `OffLatticeSpace::remove_voxel(const coordinate_type& coord)`.  The C++
dereferences `voxels_.begin() + coord` without a bounds check; outside the
range the behaviour is undefined and the embedding answers `OutOfRange`. -/
def remove_voxel_coord (s : OffLatticeSpace K) (coord : Int) :
    Except Error Bool × OffLatticeSpace K :=
  if !s.is_in_range coord then (.error Error.OutOfRange, s)
  else
    let vp := s.get_voxel_pool_at coord
    if is_vacant vp then (.ok false, s)
    else
      let r := s.remove_voxel_if_exists vp coord
      if r.1 then
        let s2 := r.2.set_voxel coord (r.2.location vp)
        (.ok true, s2.add_voxel (s2.location vp) (0, coord))
      else (.ok false, r.2)

/-- The C++ `OffLatticeSpace::can_move(src, dest)`; `voxels_.at` throws
`std::out_of_range`. -/
def can_move (s : OffLatticeSpace K) (src dest : Int) : Except Error Bool :=
  if src = dest then .ok false
  else if !s.is_in_range src then .error Error.OutOfRange
  else
    let src_vp := s.get_voxel_pool_at src
    if is_vacant src_vp then .ok false
    else if !s.is_in_range dest then .error Error.OutOfRange
    else .ok (decide (s.get_voxel_pool_at dest = s.location src_vp))

/-- The C++ `OffLatticeSpace::move(src, dest, candidate)`. -/
def move (s : OffLatticeSpace K) (src dest : Int) (candidate : Nat) :
    Except Error Bool × OffLatticeSpace K :=
  if src = dest then (.ok false, s)
  else if !s.is_in_range src then (.error Error.OutOfRange, s)
  else
    let src_vp := s.get_voxel_pool_at src
    if is_vacant src_vp then (.ok true, s)
    else if !s.is_in_range dest then (.error Error.OutOfRange, s)
    else
      let dest_vp := s.get_voxel_pool_at dest
      if dest_vp ≠ s.location src_vp then (.ok false, s)
      else
        let s1 := s.replace_voxel src_vp src dest candidate
        let s2 := s1.set_voxel src dest_vp
        let s3 := s2.replace_voxel dest_vp dest src 0
        let s4 := s3.set_voxel dest src_vp
        (.ok true, s4)

end OffLatticeSpace

/-- A call of one of the mutators of the store. -/
inductive StoreCall (K : Type) where
  | update (pid : ParticleID) (v : Voxel K)
  | remove_pid (pid : ParticleID)
  | remove_coord (coord : Int)
  | move (src dest : Int) (candidate : Nat)

/-- The store after a call, whether the call succeeded, was rejected or threw. -/
def StoreCall.run (s : OffLatticeSpace K) : StoreCall K → OffLatticeSpace K
  | .update pid v => (s.update_voxel pid v).2
  | .remove_pid pid => (s.remove_voxel_pid pid).2
  | .remove_coord coord => (s.remove_voxel_coord coord).2
  | .move src dest candidate => (s.move src dest candidate).2

/-- The store after a sequence of calls. -/
def run_calls (s : OffLatticeSpace K) (calls : List (StoreCall K)) : OffLatticeSpace K :=
  calls.foldl StoreCall.run s

/-- A call inside the domain of its function: `remove_voxel(coord)` is only
defined on in-range coordinates. -/
def StoreCall.defined (s : OffLatticeSpace K) : StoreCall K → Prop
  | .remove_coord coord => s.is_in_range coord = true
  | _ => True

/-- Every call of the sequence is inside the domain of its function in the
store it is made on. -/
def calls_defined (s : OffLatticeSpace K) : List (StoreCall K) → Prop
  | [] => True
  | call :: rest => call.defined s ∧ calls_defined (call.run s) rest

/-- The number of entries of the occupant list of `vp` at `coord`. -/
def occupant_count (s : OffLatticeSpace K) (vp : PoolRef) (coord : Int) : Nat :=
  count_at (s.pool_voxels vp) coord

/-- A pool handle refers to a pool of the store. -/
def pool_registered (s : OffLatticeSpace K) : PoolRef → Prop
  | PoolRef.vacant => True
  | PoolRef.structural sp => (map_find s.voxel_pools sp).isSome = true
  | PoolRef.molecular sp => (map_find s.molecule_pools sp).isSome = true

/-- The occupancy invariant: every coordinate is claimed by exactly one pool,
a registered one; every entry of a non-vacant pool's occupant list sits at an in-range
coordinate claimed by that pool; every coordinate claimed by a non-vacant pool
has exactly one entry in that pool's occupant list. -/
def occupancy_invariant (s : OffLatticeSpace K) : Prop :=
  (∀ coord, s.is_in_range coord = true →
    ∃! vp, s.voxels.get? coord.toNat = some vp ∧ pool_registered s vp) ∧
  (∀ sp pool, (sp, pool) ∈ s.molecule_pools → ∀ e, e ∈ pool.voxels →
    s.is_in_range e.2 = true ∧ s.get_voxel_pool_at e.2 = PoolRef.molecular sp) ∧
  (∀ coord vp, s.is_in_range coord = true → s.get_voxel_pool_at coord = vp →
    vp ≠ PoolRef.vacant → occupant_count s vp coord = 1)

/-- Proof device: `t` has the registered pools of `s`, with the same locations,
and as many coordinates. -/
def same_frame (s t : OffLatticeSpace K) : Prop :=
  t.voxel_pools = s.voxel_pools ∧
  t.molecule_pools.map Prod.fst = s.molecule_pools.map Prod.fst ∧
  (∀ sp, (map_find t.molecule_pools sp).map (fun p => p.location) =
    (map_find s.molecule_pools sp).map (fun p => p.location)) ∧
  t.voxels.length = s.voxels.length

/-- Proof device: the facts about a reachable store from which the occupancy
invariant follows and which every call preserves: no structural pool is
registered, the keys of `molecule_pools_` are distinct, no pool is its own
location and every location is the vacant pool or a registered molecular pool,
no coordinate is claimed by a structural pool, and the number of entries of a
list at a coordinate is 1 when the pool claims the coordinate and 0 otherwise. -/
def store_wf (s : OffLatticeSpace K) : Prop :=
  s.voxel_pools = [] ∧
  (s.molecule_pools.map Prod.fst).Nodup ∧
  (∀ sp pool, map_find s.molecule_pools sp = some pool →
    pool.location ≠ PoolRef.molecular sp ∧ (∀ x, pool.location ≠ PoolRef.structural x) ∧
    ∀ lsp, pool.location = PoolRef.molecular lsp → (map_find s.molecule_pools lsp).isSome = true) ∧
  (∀ i x, s.voxels.get? i ≠ some (PoolRef.structural x)) ∧
  (∀ sp coord, occupant_count s (PoolRef.molecular sp) coord =
    if s.is_in_range coord = true ∧ s.get_voxel_pool_at coord = PoolRef.molecular sp then 1 else 0)

end Store

/-- A freshly reset store: the result of a successful `reset` on a newly
constructed store (what the constructor `OffLatticeSpace(voxel_radius,
positions, adjoining_pairs)` builds). -/
def freshly_reset {K : Type} (s : OffLatticeSpace K) : Prop :=
  ∃ voxel_radius positions adjoining_pairs,
    (OffLatticeSpace.empty voxel_radius).reset positions adjoining_pairs = (.ok (), s)

/-- The store of the scenario: four coordinates at the corners of the unit
square, adjacency 0-1, 1-2, 2-3, 3-0. -/
def square_store : OffLatticeSpace ℚ :=
  ((OffLatticeSpace.empty (1 / 2 : ℚ)).reset
    [⟨0, 0, 0⟩, ⟨1, 0, 0⟩, ⟨1, 1, 0⟩, ⟨0, 1, 0⟩] [(0, 1), (1, 2), (2, 3), (3, 0)]).2

/-- A sequence of calls on `square_store`: insert particle 1 of species "A" at
0, move it to 1, a rejected move, insert particle 2 at 3, remove it by
coordinate, and a rejected update (location mismatch). -/
def square_calls : List (StoreCall ℚ) :=
  [StoreCall.update 1 ⟨"A", 0, 1 / 2, 1, ""⟩, StoreCall.move 0 1 0, StoreCall.move 1 1 0,
   StoreCall.update 2 ⟨"A", 3, 1 / 2, 1, ""⟩, StoreCall.remove_coord 3,
   StoreCall.update 3 ⟨"M", 2, 1 / 2, 1, "membrane"⟩]

/-! ## The contracts of the store -/

section Lookup

variable {K : Type} [LinearOrderedField K]

namespace OffLatticeSpace

/-- The loop of `position2coordinate` over the coordinates still to visit; the
state is the closest coordinate so far with its distance.  `positions_.at`
throws `std::out_of_range`. -/
def position2coordinate_loop (sqrt : K → K) (positions : List (Real3 K)) (pos : Real3 K) :
    List Nat → Int × K → Except Error Int
  | [], st => .ok st.1
  | coord :: rest, st =>
    match positions.get? coord with
    | none => .error Error.OutOfRange
    | some p =>
      let len := length sqrt (p.sub pos)
      if len < st.2 then position2coordinate_loop sqrt positions pos rest ((coord : Int), len)
      else position2coordinate_loop sqrt positions pos rest st

/-- The C++ `OffLatticeSpace::position2coordinate(pos)`: the scan starts from
coordinate 0 and visits the coordinates `1, ..., size() - 1` in order. -/
def position2coordinate (sqrt : K → K) (s : OffLatticeSpace K) (pos : Real3 K) :
    Except Error Int :=
  match s.positions.get? 0 with
  | none => .error Error.OutOfRange
  | some p0 =>
    position2coordinate_loop sqrt s.positions pos (List.range' 1 (s.size - 1))
      (0, length sqrt (p0.sub pos))

end OffLatticeSpace

/-- A store state the program can be in: the state after a sequence of calls,
each inside the domain of its function, on a freshly reset store. -/
def reachable (s : OffLatticeSpace K) : Prop :=
  ∃ s0 calls, freshly_reset s0 ∧ calls_defined s0 calls ∧ run_calls s0 calls = s

/-- Particle `pid` is listed at `coord` by the occupant list of a molecular
pool. -/
def listed (s : OffLatticeSpace K) (pid : ParticleID) (coord : Int) : Prop :=
  ∃ sp, (pid, coord) ∈ s.pool_voxels (PoolRef.molecular sp)

/-- No non-null particle identity is listed twice: the coordinates at which the
occupant lists hold it are one coordinate. -/
def pids_unique (s : OffLatticeSpace K) : Prop :=
  ∀ pid c1 c2, pid ≠ 0 → listed s pid c1 → listed s pid c2 → c1 = c2

/-- The pool registry as `get_voxel_pool` builds it: no structural pool is
registered, the keys of `molecule_pools_` (a map) are distinct, no pool is its
own location and the location of every pool is the vacant pool or a registered
molecular pool. -/
def registry_built (s : OffLatticeSpace K) : Prop :=
  s.voxel_pools = [] ∧
  (s.molecule_pools.map Prod.fst).Nodup ∧
  (∀ sp pool, map_find s.molecule_pools sp = some pool →
    pool.location ≠ PoolRef.molecular sp ∧ (∀ x, pool.location ≠ PoolRef.structural x) ∧
    ∀ lsp, pool.location = PoolRef.molecular lsp → (map_find s.molecule_pools lsp).isSome = true)

/-- The neighbour list `adjoinings_.at(coord)` of a coordinate. -/
def adjoinings_at (s : OffLatticeSpace K) (coord : Int) : List Int :=
  s.adjoinings.getD coord.toNat []

/-- Proof device: `t` differs from `s` at most by newly registered molecular
pools without occupants: the coordinate tables and the structural map are the
same, every molecular pool of `s` is a pool of `t`, unchanged, and the occupant
lists are the same. -/
def pools_extended (s t : OffLatticeSpace K) : Prop :=
  t.voxels = s.voxels ∧ t.positions = s.positions ∧ t.adjoinings = s.adjoinings ∧
  t.voxel_pools = s.voxel_pools ∧
  (∀ sp pool, map_find s.molecule_pools sp = some pool →
    map_find t.molecule_pools sp = some pool) ∧
  ∀ sp, t.pool_voxels (PoolRef.molecular sp) = s.pool_voxels (PoolRef.molecular sp)

end Lookup

/-- The four-coordinate cycle of `square_store` over any field. -/
def cycle_store (K : Type) [LinearOrderedField K] : OffLatticeSpace K :=
  ((OffLatticeSpace.empty (1 / 2 : K)).reset
    [⟨0, 0, 0⟩, ⟨1, 0, 0⟩, ⟨1, 1, 0⟩, ⟨0, 1, 0⟩] [(0, 1), (1, 2), (2, 3), (3, 0)]).2

/-- The store `square_store` after particle 1 of species "A" was inserted at
coordinate 0. -/
def occupied_store : OffLatticeSpace ℚ :=
  (square_store.update_voxel 1 ⟨"A", 0, 1 / 2, 1, ""⟩).2

/-- A store in which the species "S" is registered in the structural map
`voxel_pools_`. -/
def structured_store : OffLatticeSpace ℚ :=
  { square_store with voxel_pools := [("S", ⟨PoolRef.vacant, 1 / 2, 0⟩)] }

/-! ## Further examples and proof devices -/

section Clamping

variable {K : Type} [LinearOrderedField K]

/-- Proof device: what the loop of `force_put_inside` leaves in a component. -/
def clamped (x : K) : K := if x < 0 then 0 else if x > 1 then 1 else x

/-- Proof device: whether the loop of `force_put_inside` clamps a component,
that is, whether it lies outside `[0, 1]`. -/
def is_over (x : K) : Bool := decide (x < 0) || decide (x > 1)

end Clamping

/-- An on-plane point (within the tolerance) with the component 0 above 1 by
4e-11 and the component 2 equal to 3e-11. -/
def example_above : Barycentric ℚ := ⟨1 + 4 / 10 ^ 11, 0, 3 / 10 ^ 11⟩

/-- The store `square_store` after particle 1 of species "A" was inserted at
coordinate 0 and particle 2 of species "membrane" at coordinate 2. -/
def membrane_store : OffLatticeSpace ℚ :=
  run_calls square_store
    [StoreCall.update 1 ⟨"A", 0, 1 / 2, 1, ""⟩, StoreCall.update 2 ⟨"membrane", 2, 1 / 2, 0, ""⟩]

/-- A store state that satisfies the occupancy invariant and lists particle 1
twice: the coordinates 1 and 2 of the square are claimed by the pool "A", whose
occupant list is (1, 1), (1, 2).  It is the state after `update_voxel(1, A@0)`,
a `reset` with the positions of the square, `update_voxel(1, A@1)`,
`update_voxel(1, A@2)` and `remove_voxel(1)` on `square_store`. -/
def duplicate_store : OffLatticeSpace ℚ :=
  { square_store with
    voxels := [PoolRef.vacant, PoolRef.molecular "A", PoolRef.molecular "A", PoolRef.vacant],
    molecule_pools := [("A", ⟨PoolRef.vacant, 1 / 2, 1, [(1, 1), (1, 2)]⟩)] }

/-! # Theorems -/

theorem val_zero {K : Type} (b : Barycentric K) : b.val 0 = b.v0 := rfl

theorem val_one {K : Type} (b : Barycentric K) : b.val 1 = b.v1 := rfl

theorem val_two {K : Type} (b : Barycentric K) : b.val 2 = b.v2 := rfl

section BaryTheorems

variable {K : Type} [LinearOrderedField K]

theorem val_add (p q : Barycentric K) (i : Nat) :
    (p.add q).val i = p.val i + q.val i := by
  by_cases h0 : i = 0
  · subst h0; rfl
  · by_cases h1 : i = 1
    · subst h1; rfl
    · simp [Barycentric.val, Barycentric.add, h0, h1]

theorem three_cases {i : Nat} (h : i < 3) : i = 0 ∨ i = 1 ∨ i = 2 := by omega

theorem opposite_index_zero : opposite_index 0 = 2 := rfl

theorem opposite_index_one : opposite_index 1 = 0 := rfl

theorem opposite_index_two : opposite_index 2 = 1 := rfl

/-- C4. `first_cross_edge` fails exactly when the three components of
`pos + disp` are all strictly positive; every failure is `InvalidArgument`, so
the `LogicError` branch ("never reach here") is never taken. -/
theorem first_cross_edge_fails_iff (pos disp : Barycentric K) :
    ((∃ err, first_cross_edge pos disp = .error err) ↔
      (0 < (pos.add disp).val 0 ∧ 0 < (pos.add disp).val 1 ∧ 0 < (pos.add disp).val 2)) ∧
    (∀ err, first_cross_edge pos disp = .error err → err = Error.InvalidArgument) ∧
    first_cross_edge pos disp ≠ .error Error.LogicError := by
  have key : ∀ err, first_cross_edge pos disp = .error err →
      err = Error.InvalidArgument ∧
      (0 < (pos.add disp).val 0 ∧ 0 < (pos.add disp).val 1 ∧ 0 < (pos.add disp).val 2) := by
    intro err h
    unfold first_cross_edge at h
    simp only [] at h
    split_ifs at h with hp h0 h1 h2 hall
    · exfalso
      have a0 := not_lt.mp h0
      have a1 := not_lt.mp h1
      have a2 := not_lt.mp h2
      have := mul_nonneg (mul_nonneg a0 a1) a2
      linarith
    · injection h with h
      exact ⟨h.symm, hall⟩
  refine ⟨⟨fun ⟨err, h⟩ => (key err h).2, fun hall => ⟨Error.InvalidArgument, ?_⟩⟩,
    fun err h => (key err h).1, fun h => ?_⟩
  · have hprod : ¬ ((pos.add disp).val 0 * (pos.add disp).val 1 * (pos.add disp).val 2 < 0) :=
      not_lt.mpr (mul_pos (mul_pos hall.1 hall.2.1) hall.2.2).le
    simp only [first_cross_edge, if_neg hprod]
    rw [if_pos hall]
  · have := (key _ h).1
    exact absurd this (by decide)

theorem clamp_fold (b : Barycentric K) :
    (List.range 3).foldl clamp_step (b, fun _ => false) =
      clamp_step (clamp_step (clamp_step (b, fun _ => false) 0) 1) 2 := rfl

/-- C5. A barycentric point that is on the plane with its three components in
`[0, 1]` is returned unchanged by `force_put_inside`. -/
theorem force_put_inside_inside (b : Barycentric K)
    (hplane : on_plane b default_tolerance = true)
    (h0 : 0 ≤ b.val 0 ∧ b.val 0 ≤ 1) (h1 : 0 ≤ b.val 1 ∧ b.val 1 ≤ 1)
    (h2 : 0 ≤ b.val 2 ∧ b.val 2 ≤ 1) :
    force_put_inside b = .ok b := by
  have hin : is_inside b = true := by
    simp [is_inside, hplane, h0.1, h0.2, h1.1, h1.2, h2.1, h2.2]
  simp [force_put_inside, hplane, hin]

/-- An instance of C5 at the point (0.5, 0.3, 0.2). -/
theorem force_put_inside_inside_witness :
    on_plane example_inside default_tolerance = true ∧
    force_put_inside example_inside = .ok example_inside :=
  ⟨by norm_num [on_plane, default_tolerance, example_inside, Barycentric.val],
   force_put_inside_inside example_inside
    (by norm_num [on_plane, default_tolerance, example_inside, Barycentric.val])
    (by norm_num [example_inside, Barycentric.val])
    (by norm_num [example_inside, Barycentric.val])
    (by norm_num [example_inside, Barycentric.val])⟩

/-- C6. An on-plane point with exactly one negative component and the other
two in `[0, 1]` is mapped by `force_put_inside` to a point (no failure) whose
components all lie in `[0, 1]` and sum to exactly 1. -/
theorem force_put_inside_one_negative (b : Barycentric K)
    (hplane : |b.val 0 + b.val 1 + b.val 2 - 1| < 1 / 10 ^ 10)
    (i : Nat) (hi : i < 3) (hneg : b.val i < 0)
    (hrest : ∀ j, j < 3 → j ≠ i → 0 ≤ b.val j ∧ b.val j ≤ 1) :
    ∃ r, force_put_inside b = .ok r ∧ (∀ j, j < 3 → 0 ≤ r.val j ∧ r.val j ≤ 1) ∧
      r.val 0 + r.val 1 + r.val 2 = 1 := by
  have hon : on_plane b default_tolerance = true := by
    simpa [on_plane, default_tolerance] using hplane
  rcases three_cases hi with rfl | rfl | rfl
  · have h1 := hrest 1 (by norm_num) (by norm_num)
    have h2 := hrest 2 (by norm_num) (by norm_num)
    simp only [val_zero, val_one, val_two] at hneg h1 h2
    have hin : is_inside b = false := by
      simp only [is_inside, val_zero, val_one, val_two, not_le.mpr hneg, decide_False,
        Bool.false_and, Bool.and_false]
    refine ⟨⟨0, 1 - 0 - b.v2, b.v2⟩, ?_, ?_, ?_⟩
    · simp [force_put_inside, hon, hin, clamp_fold, clamp_step, Barycentric.set,
        Barycentric.val, Function.update, hneg, not_lt.mpr h1.1, not_lt.mpr h1.2,
        not_lt.mpr h2.1, not_lt.mpr h2.2]
    · intro j hj
      rcases three_cases hj with rfl | rfl | rfl <;> simp only [val_zero, val_one, val_two] <;>
        constructor <;> linarith [h2.1, h2.2]
    · simp only [val_zero, val_one, val_two]; ring
  · have h0 := hrest 0 (by norm_num) (by norm_num)
    have h2 := hrest 2 (by norm_num) (by norm_num)
    simp only [val_zero, val_one, val_two] at hneg h0 h2
    have hin : is_inside b = false := by
      simp only [is_inside, val_zero, val_one, val_two, not_le.mpr hneg, decide_False,
        Bool.false_and, Bool.and_false]
    refine ⟨⟨1 - 0 - b.v2, 0, b.v2⟩, ?_, ?_, ?_⟩
    · simp [force_put_inside, hon, hin, clamp_fold, clamp_step, Barycentric.set,
        Barycentric.val, Function.update, hneg, not_lt.mpr h0.1, not_lt.mpr h0.2,
        not_lt.mpr h2.1, not_lt.mpr h2.2]
    · intro j hj
      rcases three_cases hj with rfl | rfl | rfl <;> simp only [val_zero, val_one, val_two] <;>
        constructor <;> linarith [h2.1, h2.2]
    · simp only [val_zero, val_one, val_two]; ring
  · have h0 := hrest 0 (by norm_num) (by norm_num)
    have h1 := hrest 1 (by norm_num) (by norm_num)
    simp only [val_zero, val_one, val_two] at hneg h0 h1
    have hin : is_inside b = false := by
      simp only [is_inside, val_zero, val_one, val_two, not_le.mpr hneg, decide_False,
        Bool.false_and, Bool.and_false]
    refine ⟨⟨1 - b.v1 - 0, b.v1, 0⟩, ?_, ?_, ?_⟩
    · simp [force_put_inside, hon, hin, clamp_fold, clamp_step, Barycentric.set,
        Barycentric.val, Function.update, hneg, not_lt.mpr h0.1, not_lt.mpr h0.2,
        not_lt.mpr h1.1, not_lt.mpr h1.2]
    · intro j hj
      rcases three_cases hj with rfl | rfl | rfl <;> simp only [val_zero, val_one, val_two] <;>
        constructor <;> linarith [h1.1, h1.2]
    · simp only [val_zero, val_one, val_two]; ring

/-- An instance of C6 at (-1e-6, 0.5 + 1e-6, 0.5): the result is (0, 0.5, 0.5). -/
theorem force_put_inside_one_negative_witness :
    force_put_inside example_outside = .ok ⟨0, 1 / 2, 1 / 2⟩ ∧
    ∃ r, force_put_inside example_outside = .ok r ∧
      (∀ j, j < 3 → 0 ≤ r.val j ∧ r.val j ≤ 1) ∧ r.val 0 + r.val 1 + r.val 2 = 1 :=
  ⟨by norm_num [force_put_inside, on_plane, default_tolerance, is_inside, clamp_fold,
      clamp_step, Barycentric.set, Barycentric.val, Function.update, example_outside],
   force_put_inside_one_negative example_outside
    (by norm_num [example_outside, Barycentric.val]) 0 (by norm_num)
    (by norm_num [example_outside, Barycentric.val])
    (by
      intro j hj hne
      rcases three_cases hj with rfl | rfl | rfl
      · exact absurd rfl hne
      · norm_num [example_outside, Barycentric.val]
      · norm_num [example_outside, Barycentric.val])⟩

end BaryTheorems

section GeometryTheorems
variable {K : Type} [LinearOrderedField K]

theorem to_barycentric_m_eq (T : Triangle K) : to_barycentric_m T = T.normal_vec := by
  simp only [to_barycentric_m, Triangle.normal_vec, Triangle.edge_at, Triangle.vertex_at,
    cross_product, Real3.sub, Real3.smul]
  norm_num
  refine ⟨?_, ?_, ?_⟩ <;> ring

/-- C7. For a non-degenerate triangle `T` and a point `p` in the plane of `T`,
rebuilding the Cartesian point from `to_barycentric p T` gives back `p`, in each
of the three axis-projection branches. -/
theorem to_absolute_to_barycentric (T : Triangle K) (p : Real3 K)
    (hnd : T.nondegenerate) (hp : T.in_plane p) :
    to_absolute (to_barycentric p T) T = p := by
  obtain ⟨⟨ax, ay, az⟩, ⟨bx, by_, bz⟩, ⟨cx, cy, cz⟩⟩ := T
  obtain ⟨px, py, pz⟩ := p
  have hm := to_barycentric_m_eq (⟨⟨ax, ay, az⟩, ⟨bx, by_, bz⟩, ⟨cx, cy, cz⟩⟩ : Triangle K)
  simp only [Triangle.nondegenerate, Triangle.normal_vec, cross_product, Real3.sub, ne_eq,
    Real3.mk.injEq] at hnd
  simp only [Triangle.in_plane, Triangle.normal_vec, cross_product, Real3.sub, dot_product] at hp
  simp only [Triangle.normal_vec, cross_product, Real3.sub] at hm
  simp only [to_absolute, to_barycentric, to_barycentric_branch, hm, Real3.get,
    Triangle.vertex_at, triangle_area_2D, Real3.smul, Real3.add, val_zero, val_one, val_two,
    if_true, one_ne_zero, zero_ne_one, if_false, OfNat.ofNat_ne_zero, OfNat.ofNat_ne_one,
    ge_iff_le]
  split_ifs with h1 h2
  · have hx : (by_ - ay) * (cz - az) - (bz - az) * (cy - ay) ≠ 0 := by
      intro h0
      rw [h0, abs_zero] at h1
      have e1 := abs_nonpos_iff.mp h1.1
      have e2 := abs_nonpos_iff.mp h1.2
      exact hnd ⟨h0, e1, e2⟩
    simp only [Real3.mk.injEq]
    refine ⟨?_, ?_, ?_⟩
    · field_simp
      linear_combination -hp
    · field_simp
      ring
    · field_simp
      ring
  · have hy : (bz - az) * (cx - ax) - (bx - ax) * (cz - az) ≠ 0 := by
      intro h0
      rw [h0, abs_zero] at h2
      have e1 := abs_nonpos_iff.mp h2.1
      have e2 := abs_nonpos_iff.mp h2.2
      exact hnd ⟨e1, h0, e2⟩
    have hy2 : (bx - ax) * (cz - az) - (bz - az) * (cx - ax) ≠ 0 := by
      intro h0
      apply hy
      linear_combination -h0
    simp only [Real3.mk.injEq]
    refine ⟨?_, ?_, ?_⟩
    · field_simp
      ring
    · field_simp
      linear_combination hp
    · field_simp
      ring
  · have hz : (bx - ax) * (cy - ay) - (by_ - ay) * (cx - ax) ≠ 0 := by
      intro h0
      rw [h0, abs_zero] at h1 h2
      apply hnd
      by_contra hcon
      rcases le_total (|(bz - az) * (cx - ax) - (bx - ax) * (cz - az)|)
        (|(by_ - ay) * (cz - az) - (bz - az) * (cy - ay)|) with hle | hle
      · have e1 : (by_ - ay) * (cz - az) - (bz - az) * (cy - ay) = 0 := by
          by_contra hne
          exact h1 ⟨hle, abs_nonneg _⟩
        rw [e1, abs_zero] at hle
        exact hcon ⟨e1, abs_nonpos_iff.mp hle, h0⟩
      · have e1 : (bz - az) * (cx - ax) - (bx - ax) * (cz - az) = 0 := by
          by_contra hne
          exact h2 ⟨hle, abs_nonneg _⟩
        rw [e1, abs_zero] at hle
        exact hcon ⟨abs_nonpos_iff.mp hle, e1, h0⟩
    simp only [Real3.mk.injEq]
    refine ⟨?_, ?_, ?_⟩
    · field_simp
      ring
    · field_simp
      ring
    · field_simp
      linear_combination -hp


/-- An instance of C7: the point (1/2, 1/4, 1/4) of the triangle with vertices
(1,0,0), (0,1,0), (0,0,1) has barycentric coordinates (1/2, 1/4, 1/4). -/
theorem to_absolute_to_barycentric_witness :
    example_triangle.nondegenerate ∧ example_triangle.in_plane example_point ∧
    to_barycentric example_point example_triangle = ⟨1 / 2, 1 / 4, 1 / 4⟩ ∧
    to_absolute (to_barycentric example_point example_triangle) example_triangle =
      example_point :=
  ⟨by norm_num [Triangle.nondegenerate, Triangle.normal_vec, cross_product, Real3.sub,
      example_triangle],
   by norm_num [Triangle.in_plane, Triangle.normal_vec, cross_product, Real3.sub, dot_product,
      example_triangle, example_point],
   by norm_num [to_barycentric, to_barycentric_branch, to_barycentric_m, Triangle.edge_at,
      Triangle.vertex_at, cross_product, Real3.sub, Real3.smul, Real3.get, triangle_area_2D,
      example_triangle, example_point],
   to_absolute_to_barycentric example_triangle example_point
    (by norm_num [Triangle.nondegenerate, Triangle.normal_vec, cross_product, Real3.sub,
      example_triangle])
    (by norm_num [Triangle.in_plane, Triangle.normal_vec, cross_product, Real3.sub, dot_product,
      example_triangle, example_point])⟩

end GeometryTheorems

section DistanceTheorems
variable {K : Type} [LinearOrderedField K]

theorem face_leaf (A B C v w : K) (hA : 0 < A) (hC : 0 < C) (hdet : B * B < A * C)
    (hw : w ≤ 0) (h1 : v * A + w * B < 0) (h2 : 0 < v * B + w * C)
    (h3 : v < 0 → C < v * B + w * C ∧ (v * B + w * C) - C < (v * A + w * B) - B) :
    False := by
  rcases le_or_lt 0 v with hv | hv
  · have hB : 0 < B := by
      by_contra hB
      push_neg at hB
      nlinarith [mul_nonneg hv hA.le, mul_nonneg_of_nonpos_of_nonpos hw hB]
    nlinarith [mul_pos (sub_pos.mpr h1) hC, mul_pos h2 hB, mul_nonneg hv (sub_pos.mpr hdet).le]
  · obtain ⟨h4, h5⟩ := h3 hv
    have hB : B < 0 := by
      by_contra hB
      push_neg at hB
      nlinarith [mul_nonneg (neg_nonneg.mpr hv.le) hB, mul_nonneg (neg_nonneg.mpr hw) hC.le]
    have hBC : 0 < -B + C := by linarith
    nlinarith [mul_pos (sub_pos.mpr h4) hBC, mul_pos (sub_pos.mpr h5) hC,
      mul_pos (neg_pos.mpr hv) (sub_pos.mpr hdet)]

theorem face_w_pos (A B C v w : K) (hA : 0 < A) (hC : 0 < C) (hdet : B * B < A * C)
    (n1 : ¬(v * A + w * B ≤ 0 ∧ v * B + w * C ≤ 0))
    (n2 : ¬(v * A + w * B - A ≥ 0 ∧ v * B + w * C - B ≤ v * A + w * B - A))
    (n3 : ¬(w ≤ 0 ∧ v * A + w * B ≥ 0 ∧ v * A + w * B - A ≤ 0))
    (n4 : ¬(v * B + w * C - C ≥ 0 ∧ v * A + w * B - B ≤ v * B + w * C - C))
    (n5 : ¬(v ≤ 0 ∧ v * B + w * C ≥ 0 ∧ v * B + w * C - C ≤ 0))
    (n6 : ¬(1 - v - w ≤ 0 ∧ (v * B + w * C - B) - (v * A + w * B - A) ≥ 0 ∧
        (v * A + w * B - B) - (v * B + w * C - C) ≥ 0)) :
    0 < w := by
  by_contra hw
  push_neg at hw
  simp only [not_and_or, not_le, ge_iff_le] at n1 n2 n3 n4 n5 n6
  have hE : 0 < A - 2 * B + C := by nlinarith [sq_nonneg (A - C), sq_nonneg (A + C - 2 * B)]
  rcases n3 with h | h | h
  · linarith
  · -- d1 < 0
    rcases n1 with h1 | h1
    · linarith
    · refine face_leaf A B C v w hA hC hdet hw h h1 (fun hv => ?_)
      rcases n5 with h5 | h5 | h5
      · linarith
      · linarith
      · rcases n4 with h4 | h4
        · linarith
        · exact ⟨by linarith, by linarith⟩
  · -- d3 > 0
    rcases n2 with h2 | h2
    · linarith
    · refine face_leaf A (A - B) (A - 2 * B + C) (1 - v - w) w hA hE (by nlinarith) hw
        (by nlinarith) (by nlinarith) (fun hu => ?_)
      rcases n6 with h6 | h6 | h6
      · linarith
      · linarith
      · rcases n4 with h4 | h4
        · exact ⟨by nlinarith, by nlinarith⟩
        · linarith

theorem face_pos (A B C v w : K) (hA : 0 < A) (hC : 0 < C) (hdet : B * B < A * C)
    (n1 : ¬(v * A + w * B ≤ 0 ∧ v * B + w * C ≤ 0))
    (n2 : ¬(v * A + w * B - A ≥ 0 ∧ v * B + w * C - B ≤ v * A + w * B - A))
    (n3 : ¬(w ≤ 0 ∧ v * A + w * B ≥ 0 ∧ v * A + w * B - A ≤ 0))
    (n4 : ¬(v * B + w * C - C ≥ 0 ∧ v * A + w * B - B ≤ v * B + w * C - C))
    (n5 : ¬(v ≤ 0 ∧ v * B + w * C ≥ 0 ∧ v * B + w * C - C ≤ 0))
    (n6 : ¬(1 - v - w ≤ 0 ∧ (v * B + w * C - B) - (v * A + w * B - A) ≥ 0 ∧
        (v * A + w * B - B) - (v * B + w * C - C) ≥ 0)) :
    0 < v ∧ 0 < w ∧ 0 < 1 - v - w := by
  have hE : 0 < A - 2 * B + C := by nlinarith [sq_nonneg (A - C), sq_nonneg (A + C - 2 * B)]
  refine ⟨?_, face_w_pos A B C v w hA hC hdet n1 n2 n3 n4 n5 n6, ?_⟩
  · refine face_w_pos C B A w v hC hA (by linarith) ?_ ?_ ?_ ?_ ?_ ?_
    · rintro ⟨a1, a2⟩; exact n1 ⟨by linarith, by linarith⟩
    · rintro ⟨a1, a2⟩; exact n4 ⟨by linarith, by linarith⟩
    · rintro ⟨a1, a2, a3⟩; exact n5 ⟨by linarith, by linarith, by linarith⟩
    · rintro ⟨a1, a2⟩; exact n2 ⟨by linarith, by linarith⟩
    · rintro ⟨a1, a2, a3⟩; exact n3 ⟨by linarith, by linarith, by linarith⟩
    · rintro ⟨a1, a2, a3⟩; exact n6 ⟨by linarith, by linarith, by linarith⟩
  · refine face_w_pos (A - 2 * B + C) (A - B) A w (1 - v - w) hE hA (by nlinarith) ?_ ?_ ?_ ?_ ?_ ?_
    · rintro ⟨a1, a2⟩; exact n2 ⟨by linarith, by linarith⟩
    · rintro ⟨a1, a2⟩; exact n4 ⟨by linarith, by linarith⟩
    · rintro ⟨a1, a2, a3⟩; exact n6 ⟨by linarith, by linarith, by linarith⟩
    · rintro ⟨a1, a2⟩; exact n1 ⟨by linarith, by linarith⟩
    · rintro ⟨a1, a2, a3⟩; exact n3 ⟨by linarith, by linarith, by linarith⟩
    · rintro ⟨a1, a2, a3⟩; exact n5 ⟨by linarith, by linarith, by linarith⟩

theorem face_pos_d (A B C d1 d2 : K) (hA : 0 < A) (hC : 0 < C) (hdet : B * B < A * C)
    (n1 : ¬(d1 ≤ 0 ∧ d2 ≤ 0))
    (n2 : ¬(d1 - A ≥ 0 ∧ d2 - B ≤ d1 - A))
    (n3 : ¬(d1 * (d2 - B) - (d1 - A) * d2 ≤ 0 ∧ d1 ≥ 0 ∧ d1 - A ≤ 0))
    (n4 : ¬(d2 - C ≥ 0 ∧ d1 - B ≤ d2 - C))
    (n5 : ¬((d1 - B) * d2 - d1 * (d2 - C) ≤ 0 ∧ d2 ≥ 0 ∧ d2 - C ≤ 0))
    (n6 : ¬((d1 - A) * (d2 - C) - (d1 - B) * (d2 - B) ≤ 0 ∧ (d2 - B) - (d1 - A) ≥ 0 ∧
        (d1 - B) - (d2 - C) ≥ 0)) :
    0 < (d1 - B) * d2 - d1 * (d2 - C) ∧ 0 < d1 * (d2 - B) - (d1 - A) * d2 ∧
      0 < (d1 - A) * (d2 - C) - (d1 - B) * (d2 - B) := by
  have hden : 0 < A * C - B * B := by linarith
  have hne : A * C - B * B ≠ 0 := ne_of_gt hden
  have e1 : d1 = ((d1 - B) * d2 - d1 * (d2 - C)) / (A * C - B * B) * A +
      (d1 * (d2 - B) - (d1 - A) * d2) / (A * C - B * B) * B := by
    field_simp
    ring
  have e2 : d2 = ((d1 - B) * d2 - d1 * (d2 - C)) / (A * C - B * B) * B +
      (d1 * (d2 - B) - (d1 - A) * d2) / (A * C - B * B) * C := by
    field_simp
    ring
  have eu : 1 - ((d1 - B) * d2 - d1 * (d2 - C)) / (A * C - B * B) -
      (d1 * (d2 - B) - (d1 - A) * d2) / (A * C - B * B) =
      ((d1 - A) * (d2 - C) - (d1 - B) * (d2 - B)) / (A * C - B * B) := by
    field_simp
    ring
  have key := face_pos A B C (((d1 - B) * d2 - d1 * (d2 - C)) / (A * C - B * B))
    ((d1 * (d2 - B) - (d1 - A) * d2) / (A * C - B * B)) hA hC hdet
    (by rw [← e1, ← e2]; exact n1) (by rw [← e1, ← e2]; exact n2)
    (by
      rw [← e1]
      rintro ⟨a1, a2, a3⟩
      exact n3 ⟨by
        have := (div_le_iff₀ hden).mp a1
        linarith, a2, a3⟩)
    (by rw [← e1, ← e2]; exact n4)
    (by
      rw [← e2]
      rintro ⟨a1, a2, a3⟩
      exact n5 ⟨by
        have := (div_le_iff₀ hden).mp a1
        linarith, a2, a3⟩)
    (by
      rw [← e1, ← e2, eu]
      rintro ⟨a1, a2, a3⟩
      exact n6 ⟨by
        have := (div_le_iff₀ hden).mp a1
        linarith, a2, a3⟩)
  rw [eu] at key
  obtain ⟨k1, k2, k3⟩ := key
  exact ⟨by have := (lt_div_iff₀ hden).mp k1; linarith,
    by have := (lt_div_iff₀ hden).mp k2; linarith,
    by have := (lt_div_iff₀ hden).mp k3; linarith⟩

theorem branch_a (A B C d1 d2 : K) (h : d1 ≤ 0 ∧ d2 ≤ 0) : closest_cond A B C d1 d2 0 0 := by
  refine ⟨le_refl _, le_refl _, by norm_num, by norm_num, ?_, ?_⟩
  · linarith [h.1]
  · linarith [h.2]

theorem branch_b (A B C d1 d2 : K) (h : d1 - A ≥ 0 ∧ d2 - B ≤ d1 - A) :
    closest_cond A B C d1 d2 1 0 := by
  refine ⟨by norm_num, le_refl _, by norm_num, ?_, ?_, ?_⟩
  · linarith [h.1]
  · linarith
  · linarith [h.2]

theorem branch_c (A B C d1 d2 : K) (h : d2 - C ≥ 0 ∧ d1 - B ≤ d2 - C) :
    closest_cond A B C d1 d2 0 1 := by
  refine ⟨le_refl _, by norm_num, by norm_num, ?_, ?_, ?_⟩
  · linarith [h.1]
  · linarith [h.2]
  · linarith

theorem branch_ab (A B C d1 d2 : K) (hA : 0 < A)
    (h : d1 * (d2 - B) - (d1 - A) * d2 ≤ 0 ∧ d1 ≥ 0 ∧ d1 - A ≤ 0) :
    closest_cond A B C d1 d2 (d1 / (d1 - (d1 - A))) 0 := by
  have e : d1 - (d1 - A) = A := by ring
  rw [e]
  have hvA : d1 / A * A = d1 := div_mul_cancel₀ d1 (ne_of_gt hA)
  have hv0 : 0 ≤ d1 / A := div_nonneg h.2.1 hA.le
  have hv1 : d1 / A ≤ 1 := (div_le_one hA).mpr (by linarith [h.2.2])
  have hr : (d2 - d1 / A * B) * A ≤ 0 := by
    have : (d2 - d1 / A * B) * A = d2 * A - d1 / A * A * B := by ring
    rw [this, hvA]
    linarith [h.1]
  have hr2 : d2 - d1 / A * B ≤ 0 := by
    by_contra hcon
    push_neg at hcon
    have := mul_pos hcon hA
    linarith
  refine ⟨hv0, le_refl _, by linarith, ?_, ?_, ?_⟩
  · have : d1 / A * (d1 - d1 / A * A - 0 * B) + 0 * (d2 - d1 / A * B - 0 * C) = 0 := by
      rw [hvA]; ring
    rw [this]
  · have : (1 - d1 / A) * (d1 - d1 / A * A - 0 * B) - 0 * (d2 - d1 / A * B - 0 * C) = 0 := by
      rw [hvA]; ring
    rw [this]
  · have : (1 - 0) * (d2 - d1 / A * B - 0 * C) - d1 / A * (d1 - d1 / A * A - 0 * B) =
        d2 - d1 / A * B := by
      rw [hvA]; ring
    rw [this]
    exact hr2

theorem branch_ac (A B C d1 d2 : K) (hC : 0 < C)
    (h : (d1 - B) * d2 - d1 * (d2 - C) ≤ 0 ∧ d2 ≥ 0 ∧ d2 - C ≤ 0) :
    closest_cond A B C d1 d2 0 (d2 / (d2 - (d2 - C))) := by
  have e : d2 - (d2 - C) = C := by ring
  rw [e]
  have hwC : d2 / C * C = d2 := div_mul_cancel₀ d2 (ne_of_gt hC)
  have hw0 : 0 ≤ d2 / C := div_nonneg h.2.1 hC.le
  have hw1 : d2 / C ≤ 1 := (div_le_one hC).mpr (by linarith [h.2.2])
  have hr : (d1 - d2 / C * B) * C ≤ 0 := by
    have : (d1 - d2 / C * B) * C = d1 * C - d2 / C * C * B := by ring
    rw [this, hwC]
    linarith [h.1]
  have hr2 : d1 - d2 / C * B ≤ 0 := by
    by_contra hcon
    push_neg at hcon
    have := mul_pos hcon hC
    linarith
  refine ⟨le_refl _, hw0, by linarith, ?_, ?_, ?_⟩
  · have : 0 * (d1 - 0 * A - d2 / C * B) + d2 / C * (d2 - 0 * B - d2 / C * C) = 0 := by
      rw [hwC]; ring
    rw [this]
  · have : (1 - 0) * (d1 - 0 * A - d2 / C * B) - d2 / C * (d2 - 0 * B - d2 / C * C) =
        d1 - d2 / C * B := by
      rw [hwC]; ring
    rw [this]
    exact hr2
  · have : (1 - d2 / C) * (d2 - 0 * B - d2 / C * C) - 0 * (d1 - 0 * A - d2 / C * B) = 0 := by
      rw [hwC]; ring
    rw [this]

theorem branch_bc (A B C d1 d2 : K) (hA : 0 < A) (hC : 0 < C) (hdet : B * B < A * C)
    (h : (d1 - A) * (d2 - C) - (d1 - B) * (d2 - B) ≤ 0 ∧ (d2 - B) - (d1 - A) ≥ 0 ∧
      (d1 - B) - (d2 - C) ≥ 0) :
    closest_cond A B C d1 d2
      (1 - ((d2 - B) - (d1 - A)) / (((d2 - B) - (d1 - A)) + ((d1 - B) - (d2 - C))))
      (((d2 - B) - (d1 - A)) / (((d2 - B) - (d1 - A)) + ((d1 - B) - (d2 - C)))) := by
  have hE : 0 < A - 2 * B + C := by nlinarith [sq_nonneg (A - C), sq_nonneg (A + C - 2 * B)]
  have e : ((d2 - B) - (d1 - A)) + ((d1 - B) - (d2 - C)) = A - 2 * B + C := by ring
  rw [e]
  set w := ((d2 - B) - (d1 - A)) / (A - 2 * B + C) with hwdef
  have hwE : w * (A - 2 * B + C) = (d2 - B) - (d1 - A) := div_mul_cancel₀ _ (ne_of_gt hE)
  have hw0 : 0 ≤ w := div_nonneg h.2.1 hE.le
  have hw1 : w ≤ 1 := (div_le_one hE).mpr (by linarith [h.2.2])
  have hr12 : d2 - (1 - w) * B - w * C = d1 - (1 - w) * A - w * B := by
    linear_combination -hwE
  have hrE : (d1 - (1 - w) * A - w * B) * (A - 2 * B + C) =
      -((d1 - A) * (d2 - C) - (d1 - B) * (d2 - B)) := by
    linear_combination (A - B) * hwE
  have hr : 0 ≤ d1 - (1 - w) * A - w * B := by
    by_contra hcon
    push_neg at hcon
    have := mul_neg_of_neg_of_pos hcon hE
    linarith [h.1]
  refine ⟨by linarith, hw0, by linarith, ?_, ?_, ?_⟩
  · rw [hr12]
    have : (1 - w) * (d1 - (1 - w) * A - w * B) + w * (d1 - (1 - w) * A - w * B) =
        d1 - (1 - w) * A - w * B := by ring
    rw [this]
    exact hr
  · rw [hr12]
    have : (1 - (1 - w)) * (d1 - (1 - w) * A - w * B) - w * (d1 - (1 - w) * A - w * B) = 0 := by
      ring
    rw [this]
  · rw [hr12]
    have : (1 - w) * (d1 - (1 - w) * A - w * B) - (1 - w) * (d1 - (1 - w) * A - w * B) = 0 := by
      ring
    rw [this]

theorem branch_face (A B C d1 d2 : K) (hA : 0 < A) (hC : 0 < C) (hdet : B * B < A * C)
    (n1 : ¬(d1 ≤ 0 ∧ d2 ≤ 0))
    (n2 : ¬(d1 - A ≥ 0 ∧ d2 - B ≤ d1 - A))
    (n3 : ¬(d1 * (d2 - B) - (d1 - A) * d2 ≤ 0 ∧ d1 ≥ 0 ∧ d1 - A ≤ 0))
    (n4 : ¬(d2 - C ≥ 0 ∧ d1 - B ≤ d2 - C))
    (n5 : ¬((d1 - B) * d2 - d1 * (d2 - C) ≤ 0 ∧ d2 ≥ 0 ∧ d2 - C ≤ 0))
    (n6 : ¬((d1 - A) * (d2 - C) - (d1 - B) * (d2 - B) ≤ 0 ∧ (d2 - B) - (d1 - A) ≥ 0 ∧
        (d1 - B) - (d2 - C) ≥ 0)) :
    closest_cond A B C d1 d2
      (((d1 - B) * d2 - d1 * (d2 - C)) *
        (1 / (((d1 - A) * (d2 - C) - (d1 - B) * (d2 - B)) + ((d1 - B) * d2 - d1 * (d2 - C)) +
          (d1 * (d2 - B) - (d1 - A) * d2))))
      ((d1 * (d2 - B) - (d1 - A) * d2) *
        (1 / (((d1 - A) * (d2 - C) - (d1 - B) * (d2 - B)) + ((d1 - B) * d2 - d1 * (d2 - C)) +
          (d1 * (d2 - B) - (d1 - A) * d2)))) := by
  obtain ⟨hvb, hvc, hva⟩ := face_pos_d A B C d1 d2 hA hC hdet n1 n2 n3 n4 n5 n6
  have e : ((d1 - A) * (d2 - C) - (d1 - B) * (d2 - B)) + ((d1 - B) * d2 - d1 * (d2 - C)) +
      (d1 * (d2 - B) - (d1 - A) * d2) = A * C - B * B := by ring
  have hden : 0 < A * C - B * B := by linarith
  have hne : A * C - B * B ≠ 0 := ne_of_gt hden
  rw [e]
  set v := ((d1 - B) * d2 - d1 * (d2 - C)) * (1 / (A * C - B * B)) with hv
  set w := (d1 * (d2 - B) - (d1 - A) * d2) * (1 / (A * C - B * B)) with hw
  have hinv : 0 < 1 / (A * C - B * B) := one_div_pos.mpr hden
  have e1 : d1 - v * A - w * B = 0 := by
    rw [hv, hw]
    field_simp
    ring
  have e2 : d2 - v * B - w * C = 0 := by
    rw [hv, hw]
    field_simp
    ring
  have eu : 1 - v - w = ((d1 - A) * (d2 - C) - (d1 - B) * (d2 - B)) * (1 / (A * C - B * B)) := by
    rw [hv, hw]
    field_simp
    ring
  have hu0 : 0 < 1 - v - w := by rw [eu]; exact mul_pos hva hinv
  refine ⟨(mul_pos hvb hinv).le, (mul_pos hvc hinv).le, by linarith, ?_, ?_, ?_⟩
  · rw [e1, e2]; simp
  · rw [e1, e2]; simp
  · rw [e1, e2]; simp

theorem length_sq_nonneg (v : Real3 K) : 0 ≤ length_sq v := by
  simp only [length_sq, dot_product]
  nlinarith [mul_self_nonneg v.x, mul_self_nonneg v.y, mul_self_nonneg v.z]

theorem length_sq_pos_of_ne (v : Real3 K) (h : v ≠ ⟨0, 0, 0⟩) : 0 < length_sq v := by
  rcases v with ⟨x, y, z⟩
  simp only [length_sq, dot_product]
  have hne : ¬(x = 0 ∧ y = 0 ∧ z = 0) := by
    rintro ⟨rfl, rfl, rfl⟩
    exact h rfl
  by_contra hle
  push_neg at hle
  have hx : x = 0 := by nlinarith [mul_self_nonneg x, mul_self_nonneg y, mul_self_nonneg z]
  have hy : y = 0 := by nlinarith [mul_self_nonneg x, mul_self_nonneg y, mul_self_nonneg z]
  have hz : z = 0 := by nlinarith [mul_self_nonneg x, mul_self_nonneg y, mul_self_nonneg z]
  exact hne ⟨hx, hy, hz⟩

theorem length_sq_sub_comm (u v : Real3 K) : length_sq (u.sub v) = length_sq (v.sub u) := by
  simp only [length_sq, dot_product, Real3.sub]
  ring

/-- Lagrange's identity for the two edge vectors at vertex `a`. -/
theorem gram_pos (T : Triangle K) (h : T.nondegenerate) :
    0 < dot_product (T.b.sub T.a) (T.b.sub T.a) ∧ 0 < dot_product (T.c.sub T.a) (T.c.sub T.a) ∧
    dot_product (T.b.sub T.a) (T.c.sub T.a) * dot_product (T.b.sub T.a) (T.c.sub T.a) <
      dot_product (T.b.sub T.a) (T.b.sub T.a) * dot_product (T.c.sub T.a) (T.c.sub T.a) := by
  have hpos := length_sq_pos_of_ne _ h
  have hlag : length_sq T.normal_vec =
      dot_product (T.b.sub T.a) (T.b.sub T.a) * dot_product (T.c.sub T.a) (T.c.sub T.a) -
      dot_product (T.b.sub T.a) (T.c.sub T.a) * dot_product (T.b.sub T.a) (T.c.sub T.a) := by
    simp only [length_sq, Triangle.normal_vec, cross_product, dot_product, Real3.sub]
    ring
  rw [hlag] at hpos
  have hA := length_sq_nonneg (T.b.sub T.a)
  have hC := length_sq_nonneg (T.c.sub T.a)
  simp only [length_sq] at hA hC
  have hBB := mul_self_nonneg (dot_product (T.b.sub T.a) (T.c.sub T.a))
  refine ⟨?_, ?_, by linarith⟩
  · rcases hA.lt_or_eq with h1 | h1
    · exact h1
    · rw [← h1] at hpos; nlinarith
  · rcases hC.lt_or_eq with h1 | h1
    · exact h1
    · rw [← h1] at hpos; nlinarith

/-- The point `a + v*(b - a) + w*(c - a)` is the point of the closed triangle
nearest to `p` as soon as `v, w ≥ 0`, `v + w ≤ 1` and the residual `p - q` makes
a non-acute angle with the direction from `q` to each vertex. -/
theorem closest_of_coords (T : Triangle K) (p q : Real3 K) (v w : K)
    (hq : q = (T.a.add ((T.b.sub T.a).smul v)).add ((T.c.sub T.a).smul w))
    (hcond : closest_cond (dot_product (T.b.sub T.a) (T.b.sub T.a))
      (dot_product (T.b.sub T.a) (T.c.sub T.a)) (dot_product (T.c.sub T.a) (T.c.sub T.a))
      (dot_product (T.b.sub T.a) (p.sub T.a)) (dot_product (T.c.sub T.a) (p.sub T.a)) v w) :
    T.mem q ∧ ∀ x, T.mem x → length_sq (q.sub p) ≤ length_sq (x.sub p) := by
  obtain ⟨hv, hw, hvw, ha, hb, hc⟩ := hcond
  obtain ⟨⟨ax, ay, az⟩, ⟨bx, by_, bz⟩, ⟨cx, cy, cz⟩⟩ := T
  obtain ⟨px, py, pz⟩ := p
  subst hq
  simp only [dot_product, Real3.sub, Real3.add, Real3.smul] at ha hb hc
  constructor
  · refine ⟨1 - v - w, v, w, by linarith, hv, hw, by ring, ?_⟩
    simp only [Real3.sub, Real3.add, Real3.smul, Real3.mk.injEq]
    refine ⟨?_, ?_, ?_⟩ <;> ring
  · rintro x ⟨u2, v2, w2, hu2, hv2, hw2, hsum, rfl⟩
    have hu2e : u2 = 1 - v2 - w2 := by linarith
    subst hu2e
    simp only [length_sq, dot_product, Real3.sub, Real3.add, Real3.smul]
    have t1 := mul_nonneg hu2 ha
    have t2 := mul_nonneg hv2 (neg_nonneg.mpr hb)
    have t3 := mul_nonneg hw2 (neg_nonneg.mpr hc)
    have hsq := add_nonneg (add_nonneg
      (mul_self_nonneg (ax * (1 - v2 - w2) + bx * v2 + cx * w2 - (ax + (bx - ax) * v + (cx - ax) * w)))
      (mul_self_nonneg (ay * (1 - v2 - w2) + by_ * v2 + cy * w2 - (ay + (by_ - ay) * v + (cy - ay) * w))))
      (mul_self_nonneg (az * (1 - v2 - w2) + bz * v2 + cz * w2 - (az + (bz - az) * v + (cz - az) * w)))
    have hsum := add_nonneg hsq
      (add_nonneg (add_nonneg (add_nonneg t1 t1) (add_nonneg t2 t2)) (add_nonneg t3 t3))
    refine le_of_sub_nonneg (le_of_le_of_eq hsum ?_)
    ring

theorem zero_coords (a u v : Real3 K) : a = (a.add (u.smul 0)).add (v.smul 0) := by
  ext <;> simp [Real3.add, Real3.smul]

theorem closest_point_spec (T : Triangle K) (p : Real3 K) (hnd : T.nondegenerate) :
    T.mem (closest_point p T) ∧
      ∀ x, T.mem x → length_sq ((closest_point p T).sub p) ≤ length_sq (x.sub p) := by
  obtain ⟨hA, hC, hdet⟩ := gram_pos T hnd
  have e3 : dot_product (T.b.sub T.a) (p.sub T.b) =
      dot_product (T.b.sub T.a) (p.sub T.a) - dot_product (T.b.sub T.a) (T.b.sub T.a) := by
    simp only [dot_product, Real3.sub]; ring
  have e4 : dot_product (T.c.sub T.a) (p.sub T.b) =
      dot_product (T.c.sub T.a) (p.sub T.a) - dot_product (T.b.sub T.a) (T.c.sub T.a) := by
    simp only [dot_product, Real3.sub]; ring
  have e5 : dot_product (T.b.sub T.a) (p.sub T.c) =
      dot_product (T.b.sub T.a) (p.sub T.a) - dot_product (T.b.sub T.a) (T.c.sub T.a) := by
    simp only [dot_product, Real3.sub]; ring
  have e6 : dot_product (T.c.sub T.a) (p.sub T.c) =
      dot_product (T.c.sub T.a) (p.sub T.a) - dot_product (T.c.sub T.a) (T.c.sub T.a) := by
    simp only [dot_product, Real3.sub]; ring
  unfold closest_point
  simp only [e3, e4, e5, e6]
  split_ifs with h1 h2 h3 h4 h5 h6
  · exact closest_of_coords T p _ 0 0 (by ext <;> simp [Real3.add, Real3.smul])
      (branch_a _ _ _ _ _ h1)
  · exact closest_of_coords T p _ 1 0 (by ext <;> simp [Real3.add, Real3.smul, Real3.sub])
      (branch_b _ _ _ _ _ h2)
  · exact closest_of_coords T p _ _ 0 (by ext <;> simp [Real3.add, Real3.smul])
      (branch_ab _ _ _ _ _ hA h3)
  · exact closest_of_coords T p _ 0 1 (by ext <;> simp [Real3.add, Real3.smul, Real3.sub])
      (branch_c _ _ _ _ _ h4)
  · exact closest_of_coords T p _ 0 _ (by ext <;> simp [Real3.add, Real3.smul])
      (branch_ac _ _ _ _ _ hC h5)
  · exact closest_of_coords T p _ _ _ (by ext <;> simp [Real3.add, Real3.smul, Real3.sub] <;> ring)
      (branch_bc _ _ _ _ _ hA hC hdet h6)
  · exact closest_of_coords T p _ _ _ rfl
      (branch_face _ _ _ _ _ hA hC hdet h1 h2 h3 h4 h5 h6)

theorem distance_eq (sqrt : K → K) (p : Real3 K) (T : Triangle K) :
    (distance sqrt p T).1 = sqrt (length_sq ((closest_point p T).sub p)) := by
  unfold distance closest_point
  simp only []
  split_ifs <;> simp only [length, length_sq_sub_comm p]


theorem sqrt_mono (sqrt : K → K) (hs : IsSqrt sqrt) {x y : K} (hx : 0 ≤ x) (hxy : x ≤ y) :
    sqrt x ≤ sqrt y := by
  obtain ⟨a0, a1⟩ := hs x hx
  obtain ⟨b0, b1⟩ := hs y (le_trans hx hxy)
  by_contra hcon
  push_neg at hcon
  nlinarith [mul_pos (lt_of_le_of_lt b0 hcon) (sub_pos.mpr hcon)]

theorem sqrt_zero_eq (sqrt : K → K) (hs : IsSqrt sqrt) : sqrt 0 = 0 := by
  obtain ⟨_, a1⟩ := hs 0 (le_refl _)
  exact mul_self_eq_zero.mp a1

theorem real_sqrt_is_sqrt : IsSqrt Real.sqrt :=
  fun x hx => ⟨Real.sqrt_nonneg x, Real.mul_self_sqrt hx⟩

/-- C8. For a non-degenerate triangle and any point `p`, the first component of
`distance` is the least of the Euclidean distances `|p - q|` from `p` to the
points `q = u*a + v*b + w*c` (`u, v, w ≥ 0`, `u + v + w = 1`) of the closed
triangle. -/
theorem distance_is_least (sqrt : K → K) (hs : IsSqrt sqrt) (T : Triangle K)
    (hnd : T.nondegenerate) (p : Real3 K) :
    IsLeast {d | ∃ q, T.mem q ∧ d = length sqrt (p.sub q)} (distance sqrt p T).1 := by
  obtain ⟨hmem, hmin⟩ := closest_point_spec T p hnd
  rw [distance_eq]
  constructor
  · exact ⟨closest_point p T, hmem, by rw [length, length_sq_sub_comm]⟩
  · rintro d ⟨q, hq, rfl⟩
    rw [length, length_sq_sub_comm p q]
    exact sqrt_mono sqrt hs (length_sq_nonneg _) (hmin q hq)

/-- C9. For a non-degenerate triangle, `distance` is 0 at every point of the
closed triangle (vertex, edge or interior point). -/
theorem distance_zero_of_mem (sqrt : K → K) (hs : IsSqrt sqrt) (T : Triangle K)
    (hnd : T.nondegenerate) (p : Real3 K) (hp : T.mem p) :
    (distance sqrt p T).1 = 0 := by
  obtain ⟨_, hmin⟩ := closest_point_spec T p hnd
  have h := hmin p hp
  have h0 : length_sq (p.sub p) = 0 := by
    simp [length_sq, dot_product, Real3.sub]
  rw [h0] at h
  have h1 : length_sq ((closest_point p T).sub p) = 0 :=
    le_antisymm h (length_sq_nonneg _)
  rw [distance_eq, h1]
  exact sqrt_zero_eq sqrt hs

theorem flat_triangle_nondegenerate : (flat_triangle : Triangle K).nondegenerate := by
  simp [Triangle.nondegenerate, Triangle.normal_vec, cross_product, Real3.sub, flat_triangle]

/-- An instance of C8 over the reals with `Real.sqrt`: the point (1/4, 1/4, 3)
above the triangle (0,0,0), (1,0,0), (0,1,0). -/
theorem distance_is_least_witness :
    IsSqrt Real.sqrt ∧ (flat_triangle : Triangle ℝ).nondegenerate ∧
    IsLeast {d | ∃ q, (flat_triangle : Triangle ℝ).mem q ∧
        d = length Real.sqrt ((flat_outer_point : Real3 ℝ).sub q)}
      (distance Real.sqrt (flat_outer_point : Real3 ℝ) flat_triangle).1 :=
  ⟨real_sqrt_is_sqrt, flat_triangle_nondegenerate,
   distance_is_least Real.sqrt real_sqrt_is_sqrt flat_triangle flat_triangle_nondegenerate
    flat_outer_point⟩

/-- An instance of C9 over the reals with `Real.sqrt`: the interior point
(1/4, 1/4, 0) of the triangle (0,0,0), (1,0,0), (0,1,0). -/
theorem distance_zero_of_mem_witness :
    (flat_triangle : Triangle ℝ).mem flat_inner_point ∧
    (distance Real.sqrt (flat_inner_point : Real3 ℝ) flat_triangle).1 = 0 :=
  ⟨⟨1 / 2, 1 / 4, 1 / 4, by norm_num, by norm_num, by norm_num, by norm_num,
      by ext <;> norm_num [flat_inner_point, flat_triangle, Real3.add, Real3.smul]⟩,
   distance_zero_of_mem Real.sqrt real_sqrt_is_sqrt flat_triangle flat_triangle_nondegenerate
    flat_inner_point
    ⟨1 / 2, 1 / 4, 1 / 4, by norm_num, by norm_num, by norm_num, by norm_num,
      by ext <;> norm_num [flat_inner_point, flat_triangle, Real3.add, Real3.smul]⟩⟩

/-- C10 at its failing input: the segment from (2,2,0) to (3,2,0) lies in the
plane of the triangle (0,0,0), (1,0,0), (0,1,0) and does not meet it, yet
`is_pierce` answers `true`, and it has no point to return (`d = 0`). -/
theorem is_pierce_in_plane_segment :
    is_pierce pierce_begin pierce_end (flat_triangle : Triangle ℚ) = (true, none) ∧
    ¬ (flat_triangle : Triangle ℚ).mem pierce_begin ∧
    ¬ (flat_triangle : Triangle ℚ).mem pierce_end := by
  refine ⟨?_, ?_, ?_⟩
  · norm_num [is_pierce, pierce_begin, pierce_end, flat_triangle, Real3.sub, cross_product,
      dot_product]
  · rintro ⟨u, v, w, hu, hv, hw, hsum, h⟩
    simp only [pierce_begin, flat_triangle, Real3.add, Real3.smul, Real3.mk.injEq] at h
    linarith [h.1, h.2.1]
  · rintro ⟨u, v, w, hu, hv, hw, hsum, h⟩
    simp only [pierce_end, flat_triangle, Real3.add, Real3.smul, Real3.mk.injEq] at h
    linarith [h.1, h.2.1]

/-- Away from `d = 0` the answer `true` of `is_pierce` is sound: the returned
point lies on the segment and in the closed triangle. -/
theorem is_pierce_sound (begin_ end_ : Real3 K) (T : Triangle K) (q : Real3 K)
    (h : is_pierce begin_ end_ T = (true, some q)) :
    (∃ s, 0 ≤ s ∧ s ≤ 1 ∧ q = begin_.add ((end_.sub begin_).smul s)) ∧ T.mem q := by
  unfold is_pierce at h
  simp only [] at h
  split_ifs at h with h1 h2 h3 h4 h5
  · simp at h
  · simp at h
  · simp at h
  · simp at h
  · simp at h
  · simp only [Prod.mk.injEq, Option.some.injEq, true_and] at h
    push_neg at h1 h2 h3 h4
    have hd : 0 < dot_product (begin_.sub end_) (cross_product (T.b.sub T.a) (T.c.sub T.a)) :=
      lt_of_le_of_ne h1 (Ne.symm h5)
    revert h h1 h2 h3 h4 h5 hd
    generalize hdd : dot_product (begin_.sub end_) (cross_product (T.b.sub T.a) (T.c.sub T.a)) = d
    generalize htt : dot_product (begin_.sub T.a) (cross_product (T.b.sub T.a) (T.c.sub T.a)) = t
    generalize hvv : dot_product (T.c.sub T.a) (cross_product (begin_.sub end_) (begin_.sub T.a)) = v
    generalize hww : dot_product (T.b.sub T.a) (cross_product (begin_.sub end_) (begin_.sub T.a)) = w
    intro h5 h h1 h2 h3 h4 hd
    have hdne : d ≠ 0 := ne_of_gt hd
    constructor
    · refine ⟨t / d, div_nonneg h2.1 hd.le, (div_le_one hd).mpr h2.2, ?_⟩
      rw [← h]
      obtain ⟨⟨ax, ay, az⟩, ⟨bx, by_, bz⟩, ⟨cx, cy, cz⟩⟩ := T
      obtain ⟨px, py, pz⟩ := begin_
      obtain ⟨qx, qy, qz⟩ := end_
      simp only [dot_product, cross_product, Real3.sub] at hdd htt hvv hww
      simp only [barycentric_to_absolute, Real3.add, Real3.smul, Real3.sub, Real3.mk.injEq]
      subst hdd htt hvv hww
      refine ⟨?_, ?_, ?_⟩ <;> field_simp <;> ring
    · refine ⟨1 - v * (1 / d) - -1 * w * (1 / d), v * (1 / d), -1 * w * (1 / d), ?_, ?_, ?_, by ring,
        by rw [← h]; rfl⟩
      · have : 1 - v * (1 / d) - -1 * w * (1 / d) = (d - (v + -1 * w)) / d := by
          field_simp
          ring
        rw [this]
        exact div_nonneg (by linarith [h4.2]) hd.le
      · exact mul_nonneg h3.1 (one_div_pos.mpr hd).le
      · exact mul_nonneg h4.1 (one_div_pos.mpr hd).le

end DistanceTheorems

section StoreTheorems

variable {K : Type}

open OffLatticeSpace

/-! ### Association lists -/

theorem map_modify_cons {β : Type} (k : Species) (v : β) (rest : List (Species × β))
    (sp : Species) (f : β → β) :
    map_modify ((k, v) :: rest) sp f =
      (if k = sp then (k, f v) else (k, v)) :: map_modify rest sp f := rfl

theorem map_find_modify {β : Type} (l : List (Species × β)) (sp sp2 : Species) (f : β → β) :
    map_find (map_modify l sp f) sp2 =
      (map_find l sp2).map (fun p => if sp2 = sp then f p else p) := by
  induction l with
  | nil => rfl
  | cons e rest ih =>
    obtain ⟨k, v⟩ := e
    rw [map_modify_cons]
    by_cases hk : k = sp
    · rw [if_pos hk]
      by_cases hk2 : k = sp2
      · simp only [map_find, if_pos hk2, Option.map_some', if_pos (hk2.symm.trans hk)]
      · simp only [map_find, if_neg hk2, ih]
    · rw [if_neg hk]
      by_cases hk2 : k = sp2
      · have : ¬ sp2 = sp := fun h => hk (hk2.trans h)
        simp only [map_find, if_pos hk2, Option.map_some', if_neg this]
      · simp only [map_find, if_neg hk2, ih]

theorem map_keys_modify {β : Type} (l : List (Species × β)) (sp : Species) (f : β → β) :
    (map_modify l sp f).map Prod.fst = l.map Prod.fst := by
  induction l with
  | nil => rfl
  | cons e rest ih =>
    simp only [map_modify, List.map_cons] at ih ⊢
    rw [ih]
    by_cases hk : e.1 = sp <;> simp [hk]

theorem map_find_append {β : Type} (l : List (Species × β)) (sp sp2 : Species) (v : β) :
    map_find (l ++ [(sp, v)]) sp2 =
      match map_find l sp2 with
      | some p => some p
      | none => if sp = sp2 then some v else none := by
  induction l with
  | nil => simp [map_find]
  | cons e rest ih =>
    obtain ⟨k, w⟩ := e
    by_cases hk : k = sp2
    · simp [map_find, hk]
    · simp [map_find, hk, ih]

theorem map_find_none_iff {β : Type} (l : List (Species × β)) (sp : Species) :
    map_find l sp = none ↔ sp ∉ l.map Prod.fst := by
  induction l with
  | nil => simp [map_find]
  | cons e rest ih =>
    obtain ⟨k, w⟩ := e
    by_cases hk : k = sp
    · simp [map_find, hk]
    · simp only [map_find, hk, if_false, ih, List.map_cons, List.mem_cons]
      constructor
      · rintro h (h1 | h1)
        · exact hk h1.symm
        · exact h h1
      · intro h h1
        exact h (Or.inr h1)

theorem map_find_of_mem {β : Type} (l : List (Species × β)) (hnd : (l.map Prod.fst).Nodup)
    (sp : Species) (v : β) (h : (sp, v) ∈ l) : map_find l sp = some v := by
  induction l with
  | nil => simp at h
  | cons e rest ih =>
    obtain ⟨k, w⟩ := e
    simp only [List.map_cons, List.nodup_cons] at hnd
    rcases List.mem_cons.mp h with h1 | h1
    · injection h1 with h2 h3
      subst h2 h3
      simp [map_find]
    · have hk : k ≠ sp := by
        rintro rfl
        exact hnd.1 (List.mem_map.mpr ⟨(k, v), h1, rfl⟩)
      simp [map_find, hk, ih hnd.2 h1]

theorem mem_of_map_find {β : Type} (l : List (Species × β)) (sp : Species) (v : β)
    (h : map_find l sp = some v) : (sp, v) ∈ l := by
  induction l with
  | nil => simp [map_find] at h
  | cons e rest ih =>
    obtain ⟨k, w⟩ := e
    by_cases hk : k = sp
    · simp [map_find, hk] at h
      subst hk h
      exact List.mem_cons_self _ _
    · simp [map_find, hk] at h
      exact List.mem_cons_of_mem _ (ih h)

/-! ### Occupant lists -/

theorem count_at_erase_coord (l : List (Nat × Int)) (c0 c : Int) :
    count_at (erase_coord l c0) c = if c = c0 then count_at l c - 1 else count_at l c := by
  induction l with
  | nil => simp [erase_coord, count_at]
  | cons e rest ih =>
    by_cases h1 : e.2 = c0
    · simp only [erase_coord, if_pos h1, count_at]
      clear ih
      split_ifs <;> omega
    · simp only [erase_coord, if_neg h1, count_at, ih]
      clear ih
      split_ifs <;> omega

theorem replace_coord_same (l : List (Nat × Int)) (c : Int) :
    replace_coord l c c = l := by
  induction l with
  | nil => rfl
  | cons e rest ih =>
    by_cases h1 : e.2 = c
    · simp only [replace_coord, if_pos h1]
      rw [← h1]
    · simp only [replace_coord, if_neg h1, ih]

theorem count_at_replace_coord (l : List (Nat × Int)) (c0 c1 c : Int) (hne : c0 ≠ c1) :
    count_at (replace_coord l c0 c1) c =
      if 0 < count_at l c0 then
        (if c = c0 then count_at l c - 1
         else if c = c1 then count_at l c + 1
         else count_at l c)
      else count_at l c := by
  induction l with
  | nil => simp [replace_coord, count_at]
  | cons e rest ih =>
    by_cases h1 : e.2 = c0
    · simp only [replace_coord, if_pos h1, count_at]
      clear ih
      split_ifs <;> omega
    · simp only [replace_coord, if_neg h1, count_at, ih]
      clear ih
      split_ifs <;> omega

theorem count_at_append_one (l : List (Nat × Int)) (e : Nat × Int) (c : Int) :
    count_at (l ++ [e]) c = count_at l c + if e.2 = c then 1 else 0 := by
  induction l with
  | nil => simp [count_at]
  | cons x rest ih =>
    show count_at (x :: (rest ++ [e])) c = _
    simp only [count_at, ih]
    omega

theorem find_pid_mem (l : List (Nat × Int)) (pid : Nat) (c : Int)
    (h : find_pid l pid = some c) : (pid, c) ∈ l := by
  induction l with
  | nil => simp [find_pid] at h
  | cons e rest ih =>
    by_cases h1 : e.1 = pid
    · simp only [find_pid, if_pos h1, Option.some.injEq] at h
      have : e = (pid, c) := Prod.ext h1 h
      rw [this]
      exact List.mem_cons_self _ _
    · simp only [find_pid, if_neg h1] at h
      exact List.mem_cons_of_mem _ (ih h)

theorem count_at_pos_of_mem (l : List (Nat × Int)) (e : Nat × Int) (h : e ∈ l) :
    0 < count_at l e.2 := by
  induction l with
  | nil => simp at h
  | cons x rest ih =>
    rcases List.mem_cons.mp h with h1 | h1
    · subst h1
      simp [count_at]
    · have := ih h1
      simp only [count_at]
      omega

theorem mem_of_count_at_pos (l : List (Nat × Int)) (c : Int) (h : 0 < count_at l c) :
    ∃ e, e ∈ l ∧ e.2 = c := by
  induction l with
  | nil => simp [count_at] at h
  | cons x rest ih =>
    by_cases h1 : x.2 = c
    · exact ⟨x, List.mem_cons_self _ _, h1⟩
    · simp only [count_at, if_neg h1, zero_add] at h
      obtain ⟨e, he, hc⟩ := ih h
      exact ⟨e, List.mem_cons_of_mem _ he, hc⟩

/-! ### Frame lemmas for the primitive steps -/

theorem modify_occupants_voxels (s : OffLatticeSpace K) (sp : Species)
    (f : List (ParticleID × Int) → List (ParticleID × Int)) :
    (s.modify_occupants sp f).voxels = s.voxels := rfl

theorem modify_occupants_voxel_pools (s : OffLatticeSpace K) (sp : Species)
    (f : List (ParticleID × Int) → List (ParticleID × Int)) :
    (s.modify_occupants sp f).voxel_pools = s.voxel_pools := rfl

theorem modify_occupants_keys (s : OffLatticeSpace K) (sp : Species)
    (f : List (ParticleID × Int) → List (ParticleID × Int)) :
    (s.modify_occupants sp f).molecule_pools.map Prod.fst = s.molecule_pools.map Prod.fst := by
  dsimp only [modify_occupants]
  exact map_keys_modify _ _ _

theorem modify_occupants_find (s : OffLatticeSpace K) (sp sp2 : Species)
    (f : List (ParticleID × Int) → List (ParticleID × Int)) :
    map_find (s.modify_occupants sp f).molecule_pools sp2 =
      (map_find s.molecule_pools sp2).map
        (fun p => if sp2 = sp then { p with voxels := f p.voxels } else p) := by
  dsimp only [modify_occupants]
  exact map_find_modify _ _ _ _

theorem modify_occupants_is_in_range (s : OffLatticeSpace K) (sp : Species)
    (f : List (ParticleID × Int) → List (ParticleID × Int)) (c : Int) :
    (s.modify_occupants sp f).is_in_range c = s.is_in_range c := rfl

theorem modify_occupants_get_at (s : OffLatticeSpace K) (sp : Species)
    (f : List (ParticleID × Int) → List (ParticleID × Int)) (c : Int) :
    (s.modify_occupants sp f).get_voxel_pool_at c = s.get_voxel_pool_at c := rfl

theorem modify_occupants_location (s : OffLatticeSpace K) (sp : Species)
    (f : List (ParticleID × Int) → List (ParticleID × Int)) (vp : PoolRef) :
    (s.modify_occupants sp f).location vp = s.location vp := by
  cases vp with
  | vacant => rfl
  | structural x => rfl
  | molecular x =>
    simp only [location, modify_occupants_find]
    cases map_find s.molecule_pools x with
    | none => rfl
    | some p =>
      simp only [Option.map_some']
      split_ifs <;> rfl

theorem modify_occupants_count (s : OffLatticeSpace K) (sp sp2 : Species)
    (f : List (ParticleID × Int) → List (ParticleID × Int)) (hf : f [] = []) (c : Int) :
    occupant_count (s.modify_occupants sp f) (PoolRef.molecular sp2) c =
      if sp2 = sp then count_at (f (s.pool_voxels (PoolRef.molecular sp))) c
      else occupant_count s (PoolRef.molecular sp2) c := by
  simp only [occupant_count, pool_voxels, modify_occupants_find]
  by_cases h : sp2 = sp
  · subst h
    cases map_find s.molecule_pools sp2 with
    | none => simp [hf]
    | some p => simp
  · cases map_find s.molecule_pools sp2 with
    | none => simp [h]
    | some p => simp [h]

theorem add_voxel_count (s : OffLatticeSpace K) (vp : PoolRef) (e : ParticleID × Int)
    (hvp : ∀ sp, vp = PoolRef.molecular sp → (map_find s.molecule_pools sp).isSome = true)
    (sp2 : Species) (c : Int) :
    occupant_count (s.add_voxel vp e) (PoolRef.molecular sp2) c =
      occupant_count s (PoolRef.molecular sp2) c +
        if vp = PoolRef.molecular sp2 ∧ e.2 = c then 1 else 0 := by
  cases vp with
  | vacant => simp [add_voxel]
  | structural x => simp [add_voxel]
  | molecular sp =>
    have hreg := hvp sp rfl
    simp only [add_voxel, occupant_count, pool_voxels, modify_occupants_find]
    by_cases h : sp2 = sp
    · subst h
      cases hm : map_find s.molecule_pools sp2 with
      | none => rw [hm] at hreg; simp at hreg
      | some p => simp [count_at_append_one]
    · have h2 : ¬ sp = sp2 := fun x => h x.symm
      cases map_find s.molecule_pools sp2 with
      | none => simp [h, h2]
      | some p => simp [h, h2]

theorem count_at_zero_of_not_any (l : List (ParticleID × Int)) (c : Int)
    (h : l.any (fun e => decide (e.2 = c)) = false) : count_at l c = 0 := by
  induction l with
  | nil => rfl
  | cons e rest ih =>
    simp only [List.any_cons, Bool.or_eq_false_iff, decide_eq_false_iff_not] at h
    simp only [count_at, if_neg h.1, ih h.2]

theorem remove_count (s : OffLatticeSpace K) (vp : PoolRef) (c0 : Int) (sp2 : Species) (c : Int) :
    occupant_count (s.remove_voxel_if_exists vp c0).2 (PoolRef.molecular sp2) c =
      if vp = PoolRef.molecular sp2 ∧ c = c0 then occupant_count s (PoolRef.molecular sp2) c - 1
      else occupant_count s (PoolRef.molecular sp2) c := by
  cases vp with
  | vacant => simp [remove_voxel_if_exists]
  | structural x => simp [remove_voxel_if_exists]
  | molecular sp =>
    simp only [remove_voxel_if_exists]
    by_cases hany : (s.pool_voxels (PoolRef.molecular sp)).any (fun e => decide (e.2 = c0)) = true
    · rw [if_pos hany]
      rw [modify_occupants_count _ _ _ _ (by rfl), count_at_erase_coord]
      by_cases h : sp2 = sp
      · subst h
        simp only [occupant_count, if_true, true_and]
      · have h2 : ¬ sp = sp2 := fun x => h x.symm
        simp [h, h2]
    · rw [if_neg hany]
      have hz := count_at_zero_of_not_any _ _ ((Bool.not_eq_true _).mp hany)
      by_cases h : sp = sp2
      · subst h
        by_cases hc : c = c0
        · subst hc
          simp only [occupant_count] at hz ⊢
          simp [hz]
        · simp [hc]
      · simp [h]

theorem replace_count (s : OffLatticeSpace K) (vp : PoolRef) (c0 c1 : Int) (k : Nat)
    (hne : c0 ≠ c1) (sp2 : Species) (c : Int) :
    occupant_count (s.replace_voxel vp c0 c1 k) (PoolRef.molecular sp2) c =
      if vp = PoolRef.molecular sp2 ∧ 0 < occupant_count s (PoolRef.molecular sp2) c0 then
        (if c = c0 then occupant_count s (PoolRef.molecular sp2) c - 1
         else if c = c1 then occupant_count s (PoolRef.molecular sp2) c + 1
         else occupant_count s (PoolRef.molecular sp2) c)
      else occupant_count s (PoolRef.molecular sp2) c := by
  cases vp with
  | vacant => simp [replace_voxel]
  | structural x => simp [replace_voxel]
  | molecular sp =>
    simp only [replace_voxel]
    rw [modify_occupants_count _ _ _ _ (by rfl), count_at_replace_coord _ _ _ _ hne]
    by_cases h : sp2 = sp
    · subst h
      simp only [occupant_count, if_true, true_and]
    · have h2 : ¬ sp = sp2 := fun x => h x.symm
      simp [h, h2]

theorem replace_same (s : OffLatticeSpace K) (vp : PoolRef) (c0 : Int) (k : Nat)
    (sp2 : Species) (c : Int) :
    occupant_count (s.replace_voxel vp c0 c0 k) (PoolRef.molecular sp2) c =
      occupant_count s (PoolRef.molecular sp2) c := by
  cases vp with
  | vacant => simp [replace_voxel]
  | structural x => simp [replace_voxel]
  | molecular sp =>
    simp only [replace_voxel]
    rw [modify_occupants_count _ _ _ _ (by rfl), replace_coord_same]
    by_cases h : sp2 = sp
    · subst h; simp [occupant_count]
    · simp [h]

theorem any_coord_iff (l : List (ParticleID × Int)) (c : Int) :
    l.any (fun e => decide (e.2 = c)) = true ↔ 0 < count_at l c := by
  induction l with
  | nil => simp [count_at]
  | cons e rest ih =>
    simp only [List.any_cons, Bool.or_eq_true, decide_eq_true_eq, ih, count_at]
    by_cases h : e.2 = c
    · simp [h]
    · simp [h]

/-! ### `voxels_[coord] = vp` -/

theorem set_voxel_molecule_pools (s : OffLatticeSpace K) (c : Int) (vp : PoolRef) :
    (s.set_voxel c vp).molecule_pools = s.molecule_pools := rfl

theorem set_voxel_voxel_pools (s : OffLatticeSpace K) (c : Int) (vp : PoolRef) :
    (s.set_voxel c vp).voxel_pools = s.voxel_pools := rfl

theorem set_voxel_is_in_range (s : OffLatticeSpace K) (c : Int) (vp : PoolRef) (c2 : Int) :
    (s.set_voxel c vp).is_in_range c2 = s.is_in_range c2 := by
  simp [is_in_range, size, set_voxel]

theorem set_voxel_location (s : OffLatticeSpace K) (c : Int) (vp vp2 : PoolRef) :
    (s.set_voxel c vp).location vp2 = s.location vp2 := rfl

theorem set_voxel_count (s : OffLatticeSpace K) (c : Int) (vp vp2 : PoolRef) (c2 : Int) :
    occupant_count (s.set_voxel c vp) vp2 c2 = occupant_count s vp2 c2 := rfl

theorem in_range_iff (s : OffLatticeSpace K) (c : Int) :
    s.is_in_range c = true ↔ 0 ≤ c ∧ c < (s.voxels.length : Int) := by
  simp [is_in_range, size]

theorem set_voxel_get_at (s : OffLatticeSpace K) (c : Int) (vp : PoolRef) (c2 : Int)
    (hc : s.is_in_range c = true) (hc2 : s.is_in_range c2 = true) :
    (s.set_voxel c vp).get_voxel_pool_at c2 = if c2 = c then vp else s.get_voxel_pool_at c2 := by
  rw [in_range_iff] at hc hc2
  have h1 : c.toNat < s.voxels.length := by omega
  simp only [get_voxel_pool_at, set_voxel, List.getD_eq_getElem?_getD, List.getElem?_set]
  by_cases h : c2 = c
  · subst h
    simp [h1]
  · have : ¬ c.toNat = c2.toNat := by omega
    simp [h, this]

theorem get_at_get (s : OffLatticeSpace K) (c : Int) (hc : s.is_in_range c = true) :
    s.voxels.get? c.toNat = some (s.get_voxel_pool_at c) := by
  rw [in_range_iff] at hc
  have h1 : c.toNat < s.voxels.length := by omega
  simp [get_voxel_pool_at, List.getD_eq_getElem?_getD, List.getElem?_eq_getElem h1]

/-! ### The frame of a call: pools, keys, locations and the number of coordinates -/

theorem same_frame_refl (s : OffLatticeSpace K) : same_frame s s :=
  ⟨rfl, rfl, fun _ => rfl, rfl⟩

theorem same_frame_trans {s t u : OffLatticeSpace K} (h1 : same_frame s t) (h2 : same_frame t u) :
    same_frame s u :=
  ⟨h2.1.trans h1.1, h2.2.1.trans h1.2.1, fun sp => (h2.2.2.1 sp).trans (h1.2.2.1 sp),
    h2.2.2.2.trans h1.2.2.2⟩

theorem same_frame_modify (s : OffLatticeSpace K) (sp : Species)
    (f : List (ParticleID × Int) → List (ParticleID × Int)) :
    same_frame s (s.modify_occupants sp f) := by
  refine ⟨rfl, modify_occupants_keys s sp f, fun sp2 => ?_, rfl⟩
  rw [modify_occupants_find]
  cases map_find s.molecule_pools sp2 with
  | none => rfl
  | some p =>
    simp only [Option.map_some']
    split_ifs <;> rfl

theorem same_frame_set_voxel (s : OffLatticeSpace K) (c : Int) (vp : PoolRef) :
    same_frame s (s.set_voxel c vp) :=
  ⟨rfl, rfl, fun _ => rfl, by simp [set_voxel]⟩

theorem same_frame_add (s : OffLatticeSpace K) (vp : PoolRef) (e : ParticleID × Int) :
    same_frame s (s.add_voxel vp e) := by
  cases vp with
  | vacant => exact same_frame_refl s
  | structural x => exact same_frame_refl s
  | molecular sp => exact same_frame_modify s sp _

theorem same_frame_remove (s : OffLatticeSpace K) (vp : PoolRef) (c : Int) :
    same_frame s (s.remove_voxel_if_exists vp c).2 := by
  cases vp with
  | vacant => exact same_frame_refl s
  | structural x => exact same_frame_refl s
  | molecular sp =>
    simp only [remove_voxel_if_exists]
    split_ifs
    · exact same_frame_modify s sp _
    · exact same_frame_refl s

theorem same_frame_replace (s : OffLatticeSpace K) (vp : PoolRef) (c0 c1 : Int) (k : Nat) :
    same_frame s (s.replace_voxel vp c0 c1 k) := by
  cases vp with
  | vacant => exact same_frame_refl s
  | structural x => exact same_frame_refl s
  | molecular sp => exact same_frame_modify s sp _

theorem same_frame_is_in_range {s t : OffLatticeSpace K} (h : same_frame s t) (c : Int) :
    t.is_in_range c = s.is_in_range c := by
  simp [is_in_range, size, h.2.2.2]

theorem same_frame_registered {s t : OffLatticeSpace K} (h : same_frame s t) (sp : Species) :
    (map_find t.molecule_pools sp).isSome = (map_find s.molecule_pools sp).isSome := by
  have := congrArg Option.isSome (h.2.2.1 sp)
  simpa using this

theorem same_frame_location {s t : OffLatticeSpace K} (h : same_frame s t) (vp : PoolRef) :
    t.location vp = s.location vp := by
  cases vp with
  | vacant => rfl
  | structural x => simp only [location, h.1]
  | molecular sp =>
    have := h.2.2.1 sp
    simp only [location]
    cases h1 : map_find t.molecule_pools sp <;> cases h2 : map_find s.molecule_pools sp <;>
      simp_all

theorem add_voxel_voxels (s : OffLatticeSpace K) (vp : PoolRef) (e : ParticleID × Int) :
    (s.add_voxel vp e).voxels = s.voxels := by
  cases vp <;> rfl

theorem remove_voxels (s : OffLatticeSpace K) (vp : PoolRef) (c : Int) :
    (s.remove_voxel_if_exists vp c).2.voxels = s.voxels := by
  cases vp with
  | vacant => rfl
  | structural x => rfl
  | molecular sp =>
    simp only [remove_voxel_if_exists]
    split_ifs <;> rfl

theorem replace_voxels (s : OffLatticeSpace K) (vp : PoolRef) (c0 c1 : Int) (k : Nat) :
    (s.replace_voxel vp c0 c1 k).voxels = s.voxels := by
  cases vp <;> rfl

theorem add_voxel_get_at (s : OffLatticeSpace K) (vp : PoolRef) (e : ParticleID × Int) (c : Int) :
    (s.add_voxel vp e).get_voxel_pool_at c = s.get_voxel_pool_at c := by
  simp only [get_voxel_pool_at, add_voxel_voxels]

theorem remove_get_at (s : OffLatticeSpace K) (vp : PoolRef) (c0 c : Int) :
    (s.remove_voxel_if_exists vp c0).2.get_voxel_pool_at c = s.get_voxel_pool_at c := by
  simp only [get_voxel_pool_at, remove_voxels]

theorem replace_get_at (s : OffLatticeSpace K) (vp : PoolRef) (c0 c1 : Int) (k : Nat) (c : Int) :
    (s.replace_voxel vp c0 c1 k).get_voxel_pool_at c = s.get_voxel_pool_at c := by
  simp only [get_voxel_pool_at, replace_voxels]

/-- A store with the frame of a well-formed store is well-formed as soon as no
coordinate is claimed by a structural pool and the counts match the claims. -/
theorem wf_of_frame {s t : OffLatticeSpace K} (hwf : store_wf s) (hf : same_frame s t)
    (h4 : ∀ i x, t.voxels.get? i ≠ some (PoolRef.structural x))
    (h5 : ∀ sp coord, occupant_count t (PoolRef.molecular sp) coord =
      if t.is_in_range coord = true ∧ t.get_voxel_pool_at coord = PoolRef.molecular sp
      then 1 else 0) : store_wf t := by
  obtain ⟨w1, w2, w3, _, _⟩ := hwf
  refine ⟨hf.1.trans w1, by rw [hf.2.1]; exact w2, ?_, h4, h5⟩
  intro sp pool hfind
  have hloc := hf.2.2.1 sp
  rw [hfind] at hloc
  cases hs : map_find s.molecule_pools sp with
  | none => rw [hs] at hloc; simp at hloc
  | some p =>
    rw [hs] at hloc
    simp only [Option.map_some', Option.some.injEq] at hloc
    obtain ⟨a1, a2, a3⟩ := w3 sp p hs
    rw [hloc]
    refine ⟨a1, a2, fun lsp hl => ?_⟩
    rw [same_frame_registered hf]
    exact a3 lsp hl

theorem wf_not_structural {s : OffLatticeSpace K} (hwf : store_wf s) (c : Int)
    (hc : s.is_in_range c = true) (x : Species) :
    s.get_voxel_pool_at c ≠ PoolRef.structural x := by
  intro h
  have := get_at_get s c hc
  rw [h] at this
  exact hwf.2.2.2.1 _ _ this

theorem registered_of_count {s : OffLatticeSpace K} (sp : Species) (c : Int)
    (h : 0 < occupant_count s (PoolRef.molecular sp) c) :
    (map_find s.molecule_pools sp).isSome = true := by
  simp only [occupant_count, pool_voxels] at h
  cases hm : map_find s.molecule_pools sp with
  | none => rw [hm] at h; simp [count_at] at h
  | some p => rfl

theorem wf_registered {s : OffLatticeSpace K} (hwf : store_wf s) (c : Int) (sp : Species)
    (hc : s.is_in_range c = true) (h : s.get_voxel_pool_at c = PoolRef.molecular sp) :
    (map_find s.molecule_pools sp).isSome = true := by
  apply registered_of_count sp c
  rw [hwf.2.2.2.2 sp c, if_pos ⟨hc, h⟩]
  exact Nat.one_pos

theorem wf_location {s : OffLatticeSpace K} (hwf : store_wf s) (sp : Species)
    (hreg : (map_find s.molecule_pools sp).isSome = true) :
    s.location (PoolRef.molecular sp) ≠ PoolRef.molecular sp ∧
    (∀ x, s.location (PoolRef.molecular sp) ≠ PoolRef.structural x) ∧
    ∀ lsp, s.location (PoolRef.molecular sp) = PoolRef.molecular lsp →
      (map_find s.molecule_pools lsp).isSome = true := by
  cases hm : map_find s.molecule_pools sp with
  | none => rw [hm] at hreg; simp at hreg
  | some p =>
    have := hwf.2.2.1 sp p hm
    simp only [location, hm]
    exact this

theorem set_voxel_no_structural (s : OffLatticeSpace K) (c : Int) (vp : PoolRef)
    (h : ∀ i x, s.voxels.get? i ≠ some (PoolRef.structural x))
    (hvp : ∀ x, vp ≠ PoolRef.structural x) :
    ∀ i x, (s.set_voxel c vp).voxels.get? i ≠ some (PoolRef.structural x) := by
  intro i x hi
  simp only [set_voxel, List.get?_eq_getElem?, List.getElem?_set] at hi
  split_ifs at hi with h1 h2
  · simp only [Option.some.injEq] at hi
    exact hvp x hi
  · exact h i x (by simpa using hi)

/-- Detaching the occupant of `c` from its pool and handing `c` to the pool's
location keeps the store well-formed. -/
theorem wf_detach {s : OffLatticeSpace K} (hwf : store_wf s) (c : Int) (sp : Species)
    (hc : s.is_in_range c = true) (hV : s.get_voxel_pool_at c = PoolRef.molecular sp) :
    store_wf ((((s.remove_voxel_if_exists (PoolRef.molecular sp) c).2).set_voxel c
      (s.location (PoolRef.molecular sp))).add_voxel (s.location (PoolRef.molecular sp)) (0, c)) := by
  have hreg := wf_registered hwf c sp hc hV
  obtain ⟨l1, l2, l3⟩ := wf_location hwf sp hreg
  set L := s.location (PoolRef.molecular sp) with hL
  have f1 := same_frame_remove s (PoolRef.molecular sp) c
  have f2 := same_frame_set_voxel (s.remove_voxel_if_exists (PoolRef.molecular sp) c).2 c L
  have f3 := same_frame_add (((s.remove_voxel_if_exists (PoolRef.molecular sp) c).2).set_voxel c L)
    L (0, c)
  have f12 := same_frame_trans f1 f2
  have f := same_frame_trans f12 f3
  refine wf_of_frame hwf f ?_ ?_
  · rw [add_voxel_voxels]
    apply set_voxel_no_structural _ _ _ _ l2
    rw [remove_voxels]
    exact hwf.2.2.2.1
  · intro sp2 c2
    have hreg2 : ∀ x, L = PoolRef.molecular x →
        (map_find (((s.remove_voxel_if_exists (PoolRef.molecular sp) c).2).set_voxel c
          L).molecule_pools x).isSome = true := by
      intro x hx
      rw [same_frame_registered f12]
      exact l3 x hx
    rw [add_voxel_count _ _ _ hreg2, set_voxel_count, remove_count, same_frame_is_in_range f,
      add_voxel_get_at, hwf.2.2.2.2 sp2 c2]
    by_cases hr : s.is_in_range c2 = true
    · have hc' : (s.remove_voxel_if_exists (PoolRef.molecular sp) c).2.is_in_range c = true := by
        rw [same_frame_is_in_range f1]; exact hc
      have hr' : (s.remove_voxel_if_exists (PoolRef.molecular sp) c).2.is_in_range c2 = true := by
        rw [same_frame_is_in_range f1]; exact hr
      rw [set_voxel_get_at _ _ _ _ hc' hr', remove_get_at]
      by_cases h2 : c2 = c
      · subst h2
        simp only [hV, hr, true_and, PoolRef.molecular.injEq, and_true, if_true]
        by_cases h3 : sp = sp2
        · subst h3
          simp [l1]
        · simp [h3]
      · have h2' : ¬ c = c2 := fun x => h2 x.symm
        simp [h2, h2', hr]
    · have h2 : ¬ c2 = c := by
        rintro rfl
        exact hr hc
      have h2' : ¬ c = c2 := fun x => h2 x.symm
      simp [hr, h2, h2']

theorem remove_fst_true (s : OffLatticeSpace K) (sp : Species) (c : Int)
    (h : 0 < occupant_count s (PoolRef.molecular sp) c) :
    (s.remove_voxel_if_exists (PoolRef.molecular sp) c).1 = true := by
  have := (any_coord_iff (s.pool_voxels (PoolRef.molecular sp)) c).mpr h
  simp only [remove_voxel_if_exists, this, if_true]

theorem wf_count_of_claim {s : OffLatticeSpace K} (hwf : store_wf s) (c : Int) (sp : Species)
    (hc : s.is_in_range c = true) (hV : s.get_voxel_pool_at c = PoolRef.molecular sp) :
    occupant_count s (PoolRef.molecular sp) c = 1 := by
  rw [hwf.2.2.2.2 sp c, if_pos ⟨hc, hV⟩]

theorem wf_claim_of_count {s : OffLatticeSpace K} (hwf : store_wf s) (c : Int) (sp : Species)
    (h : 0 < occupant_count s (PoolRef.molecular sp) c) :
    s.is_in_range c = true ∧ s.get_voxel_pool_at c = PoolRef.molecular sp := by
  rw [hwf.2.2.2.2 sp c] at h
  by_contra hcon
  rw [if_neg hcon] at h
  exact Nat.lt_irrefl 0 h

theorem wf_remove_coord {s : OffLatticeSpace K} (hwf : store_wf s) (c : Int) :
    store_wf (s.remove_voxel_coord c).2 := by
  unfold remove_voxel_coord
  by_cases hc : s.is_in_range c = true
  · simp only [hc, Bool.not_true, Bool.false_eq_true, if_false]
    cases hV : s.get_voxel_pool_at c with
    | vacant => simpa [is_vacant] using hwf
    | structural x => exact absurd hV (wf_not_structural hwf c hc x)
    | molecular sp =>
      have h1 := remove_fst_true s sp c (by rw [wf_count_of_claim hwf c sp hc hV]; exact Nat.one_pos)
      simp only [is_vacant, Bool.false_eq_true, if_false, h1, if_true]
      have e1 : (s.remove_voxel_if_exists (PoolRef.molecular sp) c).2.location
          (PoolRef.molecular sp) = s.location (PoolRef.molecular sp) :=
        same_frame_location (same_frame_remove s _ c) _
      rw [set_voxel_location, e1]
      exact wf_detach hwf c sp hc hV
  · simpa [hc] using hwf

theorem wf_remove_scan {s : OffLatticeSpace K} (hwf : store_wf s) (pid : ParticleID)
    (keys : List Species) : store_wf (s.remove_voxel_scan pid keys).2 := by
  induction keys with
  | nil => exact hwf
  | cons sp rest ih =>
    simp only [remove_voxel_scan]
    cases hf : find_pid (s.pool_voxels (PoolRef.molecular sp)) pid with
    | none => exact ih
    | some c =>
      have hmem := find_pid_mem _ _ _ hf
      have hpos : 0 < occupant_count s (PoolRef.molecular sp) c :=
        count_at_pos_of_mem _ _ hmem
      obtain ⟨hc, hV⟩ := wf_claim_of_count hwf c sp hpos
      have h1 := remove_fst_true s sp c hpos
      simp only [h1, Bool.not_true, Bool.false_eq_true, if_false]
      have e1 : (s.remove_voxel_if_exists (PoolRef.molecular sp) c).2.location
          (PoolRef.molecular sp) = s.location (PoolRef.molecular sp) :=
        same_frame_location (same_frame_remove s _ c) _
      rw [set_voxel_location, e1]
      exact wf_detach hwf c sp hc hV

theorem wf_remove_pid {s : OffLatticeSpace K} (hwf : store_wf s) (pid : ParticleID) :
    store_wf (s.remove_voxel_pid pid).2 :=
  wf_remove_scan hwf pid _

theorem wf_move {s : OffLatticeSpace K} (hwf : store_wf s) (src dest : Int) (candidate : Nat) :
    store_wf (s.move src dest candidate).2 := by
  unfold move
  by_cases hsd : src = dest
  · simpa [hsd] using hwf
  by_cases hs : s.is_in_range src = true
  swap
  · simpa [hsd, hs] using hwf
  cases hV : s.get_voxel_pool_at src with
  | vacant => simpa [hsd, hs, is_vacant] using hwf
  | structural x => exact absurd hV (wf_not_structural hwf src hs x)
  | molecular ssp =>
    by_cases hd : s.is_in_range dest = true
    swap
    · simpa [hsd, hs, is_vacant, hd] using hwf
    by_cases hloc : s.get_voxel_pool_at dest = s.location (PoolRef.molecular ssp)
    swap
    · simpa [hsd, hs, is_vacant, hd, hloc] using hwf
    simp only [hsd, hs, hd, is_vacant, hloc, Bool.not_true, Bool.false_eq_true, if_false,
      ne_eq, not_true_eq_false]
    have hreg := wf_registered hwf src ssp hs hV
    obtain ⟨l1, l2, l3⟩ := wf_location hwf ssp hreg
    set L := s.location (PoolRef.molecular ssp) with hL
    have hds : dest ≠ src := fun h => hsd h.symm
    have f1 := same_frame_replace s (PoolRef.molecular ssp) src dest candidate
    have f2 := same_frame_trans f1 (same_frame_set_voxel _ src L)
    have f3 := same_frame_trans f2 (same_frame_replace _ L dest src 0)
    have f4 := same_frame_trans f3 (same_frame_set_voxel _ dest (PoolRef.molecular ssp))
    refine wf_of_frame hwf f4 ?_ ?_
    · apply set_voxel_no_structural _ _ _ _ (by simp)
      rw [replace_voxels]
      apply set_voxel_no_structural _ _ _ _ l2
      rw [replace_voxels]
      exact hwf.2.2.2.1
    · intro sp2 c2
      have hcs := wf_count_of_claim hwf src ssp hs hV
      rw [set_voxel_count, replace_count _ _ _ _ _ hds, set_voxel_count,
        replace_count _ _ _ _ _ hsd, same_frame_is_in_range f4]
      rw [set_voxel_count, replace_count _ _ _ _ _ hsd]
      by_cases hr : s.is_in_range c2 = true
      · rw [set_voxel_get_at _ _ _ _ (by rw [same_frame_is_in_range f3]; exact hd)
          (by rw [same_frame_is_in_range f3]; exact hr), replace_get_at,
          set_voxel_get_at _ _ _ _ (by rw [same_frame_is_in_range f1]; exact hs)
          (by rw [same_frame_is_in_range f1]; exact hr), replace_get_at]
        simp only [hwf.2.2.2.2, hs, hd, hr, hV, hloc, true_and]
        by_cases h1 : c2 = dest
        · subst h1
          by_cases h2 : PoolRef.molecular ssp = PoolRef.molecular sp2
          · have h3 : ¬ L = PoolRef.molecular sp2 := fun h => l1 (h.trans h2.symm)
            simp [h2, h3, hds, hloc]
          · by_cases h3 : L = PoolRef.molecular sp2
            · simp [h2, h3, hds, hsd, hloc]
            · simp [h2, h3, hds, hsd, hloc]
        · by_cases h4 : c2 = src
          · subst h4
            by_cases h2 : PoolRef.molecular ssp = PoolRef.molecular sp2
            · have h3 : ¬ L = PoolRef.molecular sp2 := fun h => l1 (h.trans h2.symm)
              simp [h2, h3, hds, hsd, hloc, h1, hV]
            · by_cases h3 : L = PoolRef.molecular sp2
              · simp [h2, h3, hds, hsd, hloc, h1, hV]
              · simp [h2, h3, hds, hsd, hloc, h1, hV]
          · simp [h1, h4, hr, hsd, hds]
      · have h1 : ¬ c2 = dest := by rintro rfl; exact hr hd
        have h4 : ¬ c2 = src := by rintro rfl; exact hr hs
        simp [hwf.2.2.2.2, hr, h1, h4]

/-- Registering a new, empty pool keeps the store well-formed. -/
theorem wf_insert {s : OffLatticeSpace K} (hwf : store_wf s) (sp : Species) (L : PoolRef)
    (radius D : K) (hnew : map_find s.molecule_pools sp = none)
    (hL1 : L ≠ PoolRef.molecular sp) (hL2 : ∀ x, L ≠ PoolRef.structural x)
    (hL3 : ∀ lsp, L = PoolRef.molecular lsp → (map_find s.molecule_pools lsp).isSome = true) :
    store_wf (s.insert_molecule_pool sp ⟨L, radius, D, []⟩).2 ∧
    (s.insert_molecule_pool sp ⟨L, radius, D, []⟩).1 = true ∧
    (s.insert_molecule_pool sp ⟨L, radius, D, []⟩).2.voxels = s.voxels ∧
    (∀ x, (map_find s.molecule_pools x).isSome = true →
      (map_find (s.insert_molecule_pool sp ⟨L, radius, D, []⟩).2.molecule_pools x).isSome = true) ∧
    (map_find (s.insert_molecule_pool sp ⟨L, radius, D, []⟩).2.molecule_pools sp).isSome = true := by
  obtain ⟨w1, w2, w3, w4, w5⟩ := hwf
  simp only [insert_molecule_pool, hnew]
  have hmono : ∀ x, (map_find s.molecule_pools x).isSome = true →
      (map_find (s.molecule_pools ++ [(sp, (⟨L, radius, D, []⟩ : MoleculePool K))]) x).isSome
        = true := by
    intro x hx
    rw [map_find_append]
    cases hm : map_find s.molecule_pools x with
    | none => rw [hm] at hx; simp at hx
    | some p => rfl
  have hsp : (map_find (s.molecule_pools ++ [(sp, (⟨L, radius, D, []⟩ : MoleculePool K))])
      sp).isSome = true := by
    rw [map_find_append, hnew]
    simp
  refine ⟨⟨w1, ?_, ?_, w4, ?_⟩, trivial, trivial, hmono, hsp⟩
  · simp only [List.map_append, List.map_cons, List.map_nil]
    rw [List.nodup_append]
    refine ⟨w2, List.nodup_singleton _, ?_⟩
    intro a ha hb
    simp only [List.mem_singleton] at hb
    subst hb
    exact (map_find_none_iff _ _).mp hnew ha
  · intro x pool hx
    simp only [] at hx
    rw [map_find_append] at hx
    cases hm : map_find s.molecule_pools x with
    | none =>
      rw [hm] at hx
      by_cases hsx : sp = x
      · subst hsx
        simp only [if_true, Option.some.injEq] at hx
        subst hx
        exact ⟨hL1, hL2, fun lsp hl => hmono lsp (hL3 lsp hl)⟩
      · simp [hsx] at hx
    | some p =>
      rw [hm] at hx
      simp only [Option.some.injEq] at hx
      subst hx
      obtain ⟨a1, a2, a3⟩ := w3 x p hm
      exact ⟨a1, a2, fun lsp hl => hmono lsp (a3 lsp hl)⟩
  · intro x c
    have e1 : occupant_count
        ({ s with molecule_pools := s.molecule_pools ++ [(sp, ⟨L, radius, D, []⟩)] } :
          OffLatticeSpace K) (PoolRef.molecular x) c = occupant_count s (PoolRef.molecular x) c := by
      simp only [occupant_count, pool_voxels, map_find_append]
      cases hm : map_find s.molecule_pools x with
      | none =>
        by_cases hsx : sp = x
        · simp [hsx, count_at]
        · simp [hsx]
      | some p => rfl
    rw [e1, w5 x c]
    rfl

theorem get_coord_scan_mem (l : List (Species × MoleculePool K)) (pid : ParticleID) (c : Int)
    (h : get_coord_scan l pid = some c) :
    ∃ sp pool, (sp, pool) ∈ l ∧ (pid, c) ∈ pool.voxels := by
  induction l with
  | nil => simp [get_coord_scan] at h
  | cons e rest ih =>
    obtain ⟨k, vp⟩ := e
    simp only [get_coord_scan] at h
    cases hf : find_pid vp.voxels pid with
    | none =>
      rw [hf] at h
      obtain ⟨sp, pool, h1, h2⟩ := ih h
      exact ⟨sp, pool, List.mem_cons_of_mem _ h1, h2⟩
    | some c2 =>
      rw [hf] at h
      simp only [Option.some.injEq] at h
      subst h
      exact ⟨k, vp, List.mem_cons_self _ _, find_pid_mem _ _ _ hf⟩

theorem wf_get_coord {s : OffLatticeSpace K} (hwf : store_wf s) (pid : ParticleID) (c : Int)
    (h : s.get_coord pid = some c) :
    ∃ sp, s.is_in_range c = true ∧ s.get_voxel_pool_at c = PoolRef.molecular sp ∧
      (pid, c) ∈ s.pool_voxels (PoolRef.molecular sp) := by
  unfold get_coord at h
  split_ifs at h with h0
  obtain ⟨sp, pool, h1, h2⟩ := get_coord_scan_mem _ _ _ h
  have hfind := map_find_of_mem _ hwf.2.1 sp pool h1
  have hpv : s.pool_voxels (PoolRef.molecular sp) = pool.voxels := by
    simp [pool_voxels, hfind]
  have hpos : 0 < occupant_count s (PoolRef.molecular sp) c := by
    simp only [occupant_count, hpv]
    exact count_at_pos_of_mem _ _ h2
  obtain ⟨a1, a2⟩ := wf_claim_of_count hwf c sp hpos
  exact ⟨sp, a1, a2, by rw [hpv]; exact h2⟩

theorem insert_existing (s : OffLatticeSpace K) (sp : Species) (pool : MoleculePool K)
    (h : (map_find s.molecule_pools sp).isSome = true) :
    s.insert_molecule_pool sp pool = (false, s) := by
  obtain ⟨p, hp⟩ := Option.isSome_iff_exists.mp h
  simp only [insert_molecule_pool, hp]

theorem make_molecular_pool_spec [LinearOrderedField K] {s : OffLatticeSpace K}
    (hwf : store_wf s) (sp : Species) (radius D : K) (loc : String)
    (hnew : map_find s.molecule_pools sp = none) :
    store_wf (s.make_molecular_pool sp radius D loc).2 ∧
    (s.make_molecular_pool sp radius D loc).2.voxels = s.voxels ∧
    (∀ b, (s.make_molecular_pool sp radius D loc).1 = .ok b →
      (map_find (s.make_molecular_pool sp radius D loc).2.molecule_pools sp).isSome = true) := by
  have hvp : map_find s.voxel_pools sp = none := by rw [hwf.1]; rfl
  unfold make_molecular_pool
  simp only [hnew, hvp, Option.isSome_none, Bool.false_eq_true, if_false]
  by_cases hloc : loc = ""
  · simp only [hloc, if_true]
    obtain ⟨a1, a2, a3, a4, a5⟩ := wf_insert hwf sp PoolRef.vacant radius D hnew (by simp)
      (by simp) (by simp)
    simp only [a2, Bool.not_true, Bool.false_eq_true, if_false]
    exact ⟨a1, a3, fun _ _ => a5⟩
  · simp only [hloc, if_false]
    have hfv : s.find_voxel_pool loc =
        if (map_find s.molecule_pools loc).isSome then some (PoolRef.molecular loc) else none := by
      simp only [find_voxel_pool, hwf.1, map_find]
      cases map_find s.molecule_pools loc <;> rfl
    rw [hfv]
    by_cases hreg : (map_find s.molecule_pools loc).isSome = true
    · simp only [hreg, if_true]
      have hne : loc ≠ sp := by
        rintro rfl
        rw [hnew] at hreg
        simp at hreg
      obtain ⟨a1, a2, a3, a4, a5⟩ := wf_insert hwf sp (PoolRef.molecular loc) radius D hnew
        (by simpa using hne) (by simp) (by
          intro lsp hl
          injection hl with hl
          subst hl
          exact hreg)
      simp only [a2, Bool.not_true, Bool.false_eq_true, if_false]
      exact ⟨a1, a3, fun _ _ => a5⟩
    · simp only [hreg, Bool.false_eq_true, if_false]
      have hnone : map_find s.molecule_pools loc = none := by
        cases hm : map_find s.molecule_pools loc with
        | none => rfl
        | some p => rw [hm] at hreg; simp at hreg
      obtain ⟨b1, b2, b3, b4, b5⟩ := wf_insert hwf loc PoolRef.vacant s.voxel_radius 0 hnone
        (by simp) (by simp) (by simp)
      simp only [b2, Bool.not_true, Bool.false_eq_true, if_false]
      by_cases hsl : sp = loc
      · subst hsl
        rw [insert_existing _ sp _ b5]
        simp only [Bool.not_false, if_true]
        exact ⟨b1, b3, fun b hb => by simp at hb⟩
      · have hnew2 : map_find
            (s.insert_molecule_pool loc ⟨PoolRef.vacant, s.voxel_radius, 0, []⟩).2.molecule_pools sp
            = none := by
          simp only [insert_molecule_pool, hnone, map_find_append, hnew]
          have : ¬ loc = sp := fun h => hsl h.symm
          simp [this]
        obtain ⟨a1, a2, a3, a4, a5⟩ := wf_insert b1 sp (PoolRef.molecular loc) radius D hnew2
          (by
            intro h
            injection h with h
            exact hsl h.symm) (by simp) (by
            intro lsp hl
            injection hl with hl
            subst hl
            exact b5)
        simp only [a2, Bool.not_true, Bool.false_eq_true, if_false]
        exact ⟨a1, a3.trans b3, fun _ _ => a5⟩

theorem get_voxel_pool_spec [LinearOrderedField K] {s : OffLatticeSpace K}
    (hwf : store_wf s) (v : Voxel K) :
    store_wf (s.get_voxel_pool v).2 ∧ (s.get_voxel_pool v).2.voxels = s.voxels ∧
    (∀ vp, (s.get_voxel_pool v).1 = .ok vp → ∃ nsp, vp = PoolRef.molecular nsp ∧
      (map_find (s.get_voxel_pool v).2.molecule_pools nsp).isSome = true) := by
  have hvp : map_find s.voxel_pools v.species = none := by rw [hwf.1]; rfl
  unfold get_voxel_pool
  simp only [hvp, Option.isSome_none, Bool.false_eq_true, if_false]
  by_cases hreg : (map_find s.molecule_pools v.species).isSome = true
  · simp only [hreg, if_true]
    refine ⟨hwf, trivial, fun vp h => ?_⟩
    injection h with h
    exact ⟨v.species, h.symm, hreg⟩
  · simp only [hreg, Bool.false_eq_true, if_false]
    have hnone : map_find s.molecule_pools v.species = none := by
      cases hm : map_find s.molecule_pools v.species with
      | none => rfl
      | some p => rw [hm] at hreg; simp at hreg
    obtain ⟨a1, a2, a3⟩ := make_molecular_pool_spec hwf v.species v.radius v.D v.loc hnone
    rcases hres : s.make_molecular_pool v.species v.radius v.D v.loc with ⟨res, s1⟩
    rw [hres] at a1 a2 a3
    simp only [] at a1 a2 a3
    cases res with
    | error e => exact ⟨a1, a2, fun vp h => by simp at h⟩
    | ok suc =>
      have hr := a3 suc rfl
      simp only []
      by_cases hsuc : suc = true
      · simp only [hsuc, Bool.not_true, Bool.false_eq_true, if_false]
        have : (map_find s1.molecule_pools v.species).isNone = false := by
          rw [Option.isNone_eq_false_iff]
          exact hr
        simp only [this, Bool.false_eq_true, if_false]
        refine ⟨a1, a2, fun vp h => ?_⟩
        injection h with h
        exact ⟨v.species, h.symm, hr⟩
      · have hs2 : suc = false := by simpa using hsuc
        simp only [hs2, Bool.not_false, if_true]
        exact ⟨a1, a2, fun vp h => by simp at h⟩

/-- The "new" path of `update_voxel`: the previous entry of the destination is
cleared and the destination is handed to the pool of the new species. -/
theorem wf_attach {s : OffLatticeSpace K} (hwf : store_wf s) (to_ : Int) (nsp : Species)
    (pid : ParticleID) (hto : s.is_in_range to_ = true)
    (hreg : (map_find s.molecule_pools nsp).isSome = true)
    (hloc : s.get_voxel_pool_at to_ = s.location (PoolRef.molecular nsp)) :
    store_wf ((((s.remove_voxel_if_exists (s.get_voxel_pool_at to_) to_).2).add_voxel
      (PoolRef.molecular nsp) (pid, to_)).set_voxel to_ (PoolRef.molecular nsp)) := by
  obtain ⟨l1, l2, l3⟩ := wf_location hwf nsp hreg
  rw [← hloc] at l1 l2 l3
  obtain ⟨L, hL⟩ : ∃ L, s.get_voxel_pool_at to_ = L := ⟨_, rfl⟩
  rw [hL] at l1 l2 l3 ⊢
  have f1 := same_frame_remove s L to_
  have f2 := same_frame_trans f1 (same_frame_add _ (PoolRef.molecular nsp) (pid, to_))
  have f3 := same_frame_trans f2 (same_frame_set_voxel _ to_ (PoolRef.molecular nsp))
  refine wf_of_frame hwf f3 ?_ ?_
  · apply set_voxel_no_structural _ _ _ _ (by simp)
    rw [add_voxel_voxels, remove_voxels]
    exact hwf.2.2.2.1
  · intro sp2 c2
    have hreg2 : ∀ x, PoolRef.molecular nsp = PoolRef.molecular x →
        (map_find (s.remove_voxel_if_exists L to_).2.molecule_pools x).isSome = true := by
      intro x hx
      injection hx with hx
      subst hx
      rw [same_frame_registered f1]
      exact hreg
    rw [set_voxel_count, add_voxel_count _ _ _ hreg2, remove_count, same_frame_is_in_range f3]
    by_cases hr : s.is_in_range c2 = true
    · rw [set_voxel_get_at _ _ _ _ (by rw [same_frame_is_in_range f2]; exact hto)
        (by rw [same_frame_is_in_range f2]; exact hr), add_voxel_get_at, remove_get_at]
      simp only [hwf.2.2.2.2, hr, true_and]
      by_cases h1 : c2 = to_
      · subst h1
        by_cases h2 : PoolRef.molecular nsp = PoolRef.molecular sp2
        · have h3 : ¬ L = PoolRef.molecular sp2 := fun h => l1 (h.trans h2.symm)
          simp [h2, h3, hL]
        · by_cases h3 : L = PoolRef.molecular sp2
          · simp [h2, h3, hL]
          · simp [h2, h3, hL]
      · have h1' : ¬ to_ = c2 := fun h => h1 h.symm
        simp [h1, h1']
    · have h1 : ¬ c2 = to_ := by rintro rfl; exact hr hto
      have h1' : ¬ to_ = c2 := fun h => h1 h.symm
      simp [hwf.2.2.2.2, hr, h1, h1']

/-- The "move" path of `update_voxel`. -/
theorem wf_reattach {s : OffLatticeSpace K} (hwf : store_wf s) (from_ to_ : Int)
    (psp nsp : Species) (pid : ParticleID)
    (hfrom : s.is_in_range from_ = true) (hto : s.is_in_range to_ = true)
    (hVf : s.get_voxel_pool_at from_ = PoolRef.molecular psp)
    (hreg : (map_find s.molecule_pools nsp).isSome = true)
    (hloc : s.get_voxel_pool_at to_ = s.location (PoolRef.molecular nsp)) :
    store_wf ((((((s.remove_voxel_if_exists (PoolRef.molecular psp) from_).2).replace_voxel
      (s.get_voxel_pool_at to_) to_ from_ 0).set_voxel from_ (s.get_voxel_pool_at to_)).add_voxel
      (PoolRef.molecular nsp) (pid, to_)).set_voxel to_ (PoolRef.molecular nsp)) := by
  obtain ⟨l1, l2, l3⟩ := wf_location hwf nsp hreg
  rw [← hloc] at l1 l2 l3
  obtain ⟨L, hL⟩ : ∃ L, s.get_voxel_pool_at to_ = L := ⟨_, rfl⟩
  rw [hL] at l1 l2 l3 ⊢
  have f1 := same_frame_remove s (PoolRef.molecular psp) from_
  have f2 := same_frame_trans f1 (same_frame_replace _ L to_ from_ 0)
  have f3 := same_frame_trans f2 (same_frame_set_voxel _ from_ L)
  have f4 := same_frame_trans f3 (same_frame_add _ (PoolRef.molecular nsp) (pid, to_))
  have f5 := same_frame_trans f4 (same_frame_set_voxel _ to_ (PoolRef.molecular nsp))
  refine wf_of_frame hwf f5 ?_ ?_
  · apply set_voxel_no_structural _ _ _ _ (by simp)
    rw [add_voxel_voxels]
    apply set_voxel_no_structural _ _ _ _ l2
    rw [replace_voxels, remove_voxels]
    exact hwf.2.2.2.1
  · intro sp2 c2
    have hreg2 : ∀ x, PoolRef.molecular nsp = PoolRef.molecular x →
        (map_find ((((s.remove_voxel_if_exists (PoolRef.molecular psp) from_).2).replace_voxel
          L to_ from_ 0).set_voxel from_ L).molecule_pools x).isSome = true := by
      intro x hx
      injection hx with hx
      subst hx
      rw [same_frame_registered f3]
      exact hreg
    rw [set_voxel_count, add_voxel_count _ _ _ hreg2, set_voxel_count, same_frame_is_in_range f5]
    have hVr : ∀ c, s.is_in_range c = true →
        get_voxel_pool_at ((((((s.remove_voxel_if_exists (PoolRef.molecular psp) from_).2).replace_voxel
          L to_ from_ 0).set_voxel from_ L).add_voxel
          (PoolRef.molecular nsp) (pid, to_)).set_voxel to_ (PoolRef.molecular nsp)) c =
        if c = to_ then PoolRef.molecular nsp else if c = from_ then L
        else s.get_voxel_pool_at c := by
      intro c hr
      rw [set_voxel_get_at _ _ _ _ (by rw [same_frame_is_in_range f4]; exact hto)
        (by rw [same_frame_is_in_range f4]; exact hr), add_voxel_get_at,
        set_voxel_get_at _ _ _ _ (by rw [same_frame_is_in_range f2]; exact hfrom)
        (by rw [same_frame_is_in_range f2]; exact hr), replace_get_at, remove_get_at]
    by_cases hft : from_ = to_
    · -- the particle already sits at the destination
      subst hft
      rw [replace_same, remove_count]
      by_cases hr : s.is_in_range c2 = true
      · rw [hVr c2 hr]
        simp only [hwf.2.2.2.2, hr, true_and]
        by_cases h1 : c2 = from_
        · subst h1
          have hLp : L = PoolRef.molecular psp := hL.symm.trans hVf
          by_cases h2 : PoolRef.molecular nsp = PoolRef.molecular sp2
          · have h3 : ¬ PoolRef.molecular psp = PoolRef.molecular sp2 :=
              fun h => l1 (hLp.trans (h.trans h2.symm))
            simp [h2, h3, hVf, hL]
          · by_cases h3 : PoolRef.molecular psp = PoolRef.molecular sp2
            · simp [h2, h3, hVf, hL]
            · simp [h2, h3, hVf, hL]
        · have h1' : ¬ from_ = c2 := fun h => h1 h.symm
          simp [h1, h1']
      · have h1 : ¬ c2 = from_ := by rintro rfl; exact hr hto
        have h1' : ¬ from_ = c2 := fun h => h1 h.symm
        simp [hwf.2.2.2.2, hr, h1, h1']
    · have htf : to_ ≠ from_ := fun h => hft h.symm
      rw [replace_count _ _ _ _ _ htf, remove_count, remove_count]
      by_cases hr : s.is_in_range c2 = true
      · rw [hVr c2 hr]
        simp only [hwf.2.2.2.2, hr, hto, hfrom, true_and, hVf, hL]
        by_cases h1 : c2 = to_
        · subst h1
          by_cases h2 : PoolRef.molecular nsp = PoolRef.molecular sp2
          · have h3 : ¬ L = PoolRef.molecular sp2 := fun h => l1 (h.trans h2.symm)
            simp [h2, h3, hft, htf, hL]
          · by_cases h3 : L = PoolRef.molecular sp2
            · simp [h2, h3, hft, htf, hL]
            · simp [h2, h3, hft, htf, hL]
        · have h1' : ¬ to_ = c2 := fun h => h1 h.symm
          by_cases h4 : c2 = from_
          · subst h4
            by_cases h3 : L = PoolRef.molecular sp2
            · by_cases h5 : PoolRef.molecular psp = PoolRef.molecular sp2
              · simp [h1, h1', h3, h5, hft, htf, hL, hVf]
              · simp [h1, h1', h3, h5, hft, htf, hL, hVf]
            · by_cases h5 : PoolRef.molecular psp = PoolRef.molecular sp2
              · simp [h1, h1', h3, h5, hft, htf, hL, hVf]
              · simp [h1, h1', h3, h5, hft, htf, hL, hVf]
          · simp [h1, h1', h4, hft, htf]
      · have h1 : ¬ c2 = to_ := by rintro rfl; exact hr hto
        have h1' : ¬ to_ = c2 := fun h => h1 h.symm
        have h4 : ¬ c2 = from_ := by rintro rfl; exact hr hfrom
        simp [hwf.2.2.2.2, hr, h1, h1', h4, hto, hfrom, htf, hft]

theorem wf_update [LinearOrderedField K] {s : OffLatticeSpace K} (hwf : store_wf s)
    (pid : ParticleID) (v : Voxel K) : store_wf (s.update_voxel pid v).2 := by
  unfold update_voxel
  by_cases hto : s.is_in_range v.coordinate = true
  swap
  · simpa [hto] using hwf
  simp only [hto, Bool.not_true, Bool.false_eq_true, if_false]
  obtain ⟨a1, a2, a3⟩ := get_voxel_pool_spec hwf v
  rcases hres : s.get_voxel_pool v with ⟨res, s1⟩
  rw [hres] at a1 a2 a3
  simp only [] at a1 a2 a3
  cases res with
  | error e => exact a1
  | ok new_vp =>
    obtain ⟨nsp, rfl, hreg⟩ := a3 new_vp rfl
    simp only []
    have hto1 : s1.is_in_range v.coordinate = true := by
      simpa [is_in_range, size, a2] using hto
    by_cases hloc : s1.get_voxel_pool_at v.coordinate = s1.location (PoolRef.molecular nsp)
    swap
    · simpa [hloc] using a1
    simp only [ne_eq, hloc, not_true_eq_false, if_false]
    cases hgc : s1.get_coord pid with
    | none =>
      simp only []
      have := wf_attach a1 v.coordinate nsp pid hto1 hreg hloc
      rw [hloc] at this
      exact this
    | some from_coord =>
      obtain ⟨psp, b1, b2, _⟩ := wf_get_coord a1 pid from_coord hgc
      simp only [b1, Bool.not_true, Bool.false_eq_true, if_false, b2]
      have := wf_reattach a1 from_coord v.coordinate psp nsp pid b1 hto1 b2 hreg hloc
      rw [hloc] at this
      exact this

theorem reset_pairs_frame (s : OffLatticeSpace K) (pairs : List (Int × Int)) :
    (s.reset_pairs pairs).2.voxels = s.voxels ∧
    (s.reset_pairs pairs).2.voxel_pools = s.voxel_pools ∧
    (s.reset_pairs pairs).2.molecule_pools = s.molecule_pools := by
  induction pairs generalizing s with
  | nil => exact ⟨rfl, rfl, rfl⟩
  | cons p rest ih =>
    obtain ⟨c0, c1⟩ := p
    simp only [reset_pairs]
    split_ifs
    · exact ih _
    · exact ⟨rfl, rfl, rfl⟩

theorem wf_freshly_reset {s : OffLatticeSpace K} (h : freshly_reset s) : store_wf s := by
  obtain ⟨r, positions, pairs, hreset⟩ := h
  have hs : s = ((empty r).reset positions pairs).2 := by rw [hreset]
  obtain ⟨e1, e2, e3⟩ := reset_pairs_frame
    ({ empty r with voxels := List.replicate positions.length PoolRef.vacant,
                    positions := positions,
                    adjoinings := List.replicate positions.length [] } : OffLatticeSpace K) pairs
  have h1 : s.voxels = List.replicate positions.length PoolRef.vacant := by
    rw [hs]; exact e1
  have h2 : s.voxel_pools = [] := by rw [hs]; exact e2
  have h3 : s.molecule_pools = [] := by rw [hs]; exact e3
  refine ⟨h2, by rw [h3]; exact List.nodup_nil, ?_, ?_, ?_⟩
  · intro sp pool hf
    rw [h3] at hf
    simp [map_find] at hf
  · intro i x hi
    rw [h1] at hi
    have := List.get?_mem hi
    simp at this
  · intro sp c
    have hc : occupant_count s (PoolRef.molecular sp) c = 0 := by
      simp [occupant_count, pool_voxels, h3, map_find, count_at]
    rw [hc]
    have hV : s.get_voxel_pool_at c ≠ PoolRef.molecular sp := by
      simp only [get_voxel_pool_at, h1, List.getD_eq_getElem?_getD]
      cases hg : (List.replicate positions.length PoolRef.vacant)[c.toNat]? with
      | none => simp
      | some vp =>
        have := List.getElem?_mem hg
        simp only [List.mem_replicate] at this
        simp [this.2]
    rw [if_neg (fun h => hV h.2)]

theorem wf_run {K : Type} [LinearOrderedField K] {s : OffLatticeSpace K} (hwf : store_wf s)
    (call : StoreCall K) : store_wf (call.run s) := by
  cases call with
  | update pid v => exact wf_update hwf pid v
  | remove_pid pid => exact wf_remove_pid hwf pid
  | remove_coord c => exact wf_remove_coord hwf c
  | move src dest candidate => exact wf_move hwf src dest candidate

theorem wf_run_calls {K : Type} [LinearOrderedField K] (calls : List (StoreCall K))
    {s : OffLatticeSpace K} (hwf : store_wf s) : store_wf (run_calls s calls) := by
  induction calls generalizing s with
  | nil => exact hwf
  | cons call rest ih => exact ih (wf_run hwf call)

theorem occupancy_of_wf {s : OffLatticeSpace K} (hwf : store_wf s) : occupancy_invariant s := by
  refine ⟨?_, ?_, ?_⟩
  · intro c hc
    refine ⟨s.get_voxel_pool_at c, ⟨get_at_get s c hc, ?_⟩, fun y hy => ?_⟩
    · cases hV : s.get_voxel_pool_at c with
      | vacant => trivial
      | structural x => exact absurd hV (wf_not_structural hwf c hc x)
      | molecular sp => exact wf_registered hwf c sp hc hV
    · exact Option.some.inj (hy.1.symm.trans (get_at_get s c hc))
  · intro sp pool hmem e he
    have hfind := map_find_of_mem _ hwf.2.1 sp pool hmem
    have hpos : 0 < occupant_count s (PoolRef.molecular sp) e.2 := by
      simp only [occupant_count, pool_voxels, hfind]
      exact count_at_pos_of_mem _ _ he
    exact wf_claim_of_count hwf e.2 sp hpos
  · intro c vp hc hV hne
    cases vp with
    | vacant => exact absurd rfl hne
    | structural x => exact absurd hV (wf_not_structural hwf c hc x)
    | molecular sp => exact wf_count_of_claim hwf c sp hc hV

/-- C1. Occupancy invariant: from a freshly reset store, after any finite
sequence of `update_voxel` / `remove_voxel(pid)` / `remove_voxel(coord)` /
`move` calls (each inside the domain of its function), whether they succeed,
are rejected or throw, every coordinate is claimed by one registered pool,
every entry of a non-vacant pool's occupant list sits at a coordinate claimed
by that pool, and every coordinate claimed by a non-vacant pool has exactly
one entry in that pool's occupant list. -/
theorem occupancy_invariant_run {K : Type} [LinearOrderedField K] (s : OffLatticeSpace K)
    (calls : List (StoreCall K)) (hfresh : freshly_reset s) (_hdef : calls_defined s calls) :
    occupancy_invariant (run_calls s calls) :=
  occupancy_of_wf (wf_run_calls calls (wf_freshly_reset hfresh))

/-- An instance of C1 on the four-coordinate cycle store: after the calls
particle 1 sits at coordinate 1 and the invariant holds. -/
theorem occupancy_invariant_run_witness :
    freshly_reset square_store ∧ calls_defined square_store square_calls ∧
    (run_calls square_store square_calls).get_coord 1 = some 1 ∧
    occupancy_invariant (run_calls square_store square_calls) :=
  ⟨⟨1 / 2, [⟨0, 0, 0⟩, ⟨1, 0, 0⟩, ⟨1, 1, 0⟩, ⟨0, 1, 0⟩], [(0, 1), (1, 2), (2, 3), (3, 0)], rfl⟩,
   ⟨trivial, trivial, trivial, trivial, rfl, trivial, trivial⟩,
   rfl,
   occupancy_invariant_run square_store square_calls
    ⟨1 / 2, [⟨0, 0, 0⟩, ⟨1, 0, 0⟩, ⟨1, 1, 0⟩, ⟨0, 1, 0⟩], [(0, 1), (1, 2), (2, 3), (3, 0)], rfl⟩
    ⟨trivial, trivial, trivial, trivial, rfl, trivial, trivial⟩⟩

end StoreTheorems

section StoreContracts

variable {K : Type}

open OffLatticeSpace

/-! ### Pools registered by a call -/

theorem pools_extended_refl (s : OffLatticeSpace K) : pools_extended s s :=
  ⟨rfl, rfl, rfl, rfl, fun _ _ h => h, fun _ => rfl⟩

theorem pools_extended_trans {s t u : OffLatticeSpace K} (h1 : pools_extended s t)
    (h2 : pools_extended t u) : pools_extended s u :=
  ⟨h2.1.trans h1.1, h2.2.1.trans h1.2.1, h2.2.2.1.trans h1.2.2.1,
    h2.2.2.2.1.trans h1.2.2.2.1, fun sp pool h => h2.2.2.2.2.1 sp pool (h1.2.2.2.2.1 sp pool h),
    fun sp => (h2.2.2.2.2.2 sp).trans (h1.2.2.2.2.2 sp)⟩

theorem insert_extends (s : OffLatticeSpace K) (sp : Species) (L : PoolRef) (radius D : K) :
    pools_extended s (s.insert_molecule_pool sp ⟨L, radius, D, []⟩).2 := by
  unfold insert_molecule_pool
  cases h : map_find s.molecule_pools sp with
  | some p => exact pools_extended_refl s
  | none =>
    refine ⟨rfl, rfl, rfl, rfl, ?_, ?_⟩
    · intro x p hx
      show map_find (s.molecule_pools ++ [(sp, ⟨L, radius, D, []⟩)]) x = some p
      rw [map_find_append, hx]
    · intro x
      show (match map_find (s.molecule_pools ++ [(sp, ⟨L, radius, D, []⟩)]) x with
        | some p => p.voxels
        | none => []) = s.pool_voxels (PoolRef.molecular x)
      rw [map_find_append]
      simp only [pool_voxels]
      cases hx : map_find s.molecule_pools x with
      | some p => rfl
      | none =>
        simp only
        split_ifs <;> rfl

theorem make_molecular_pool_extends [LinearOrderedField K] (s : OffLatticeSpace K)
    (sp : Species) (radius D : K) (loc : String) :
    pools_extended s (s.make_molecular_pool sp radius D loc).2 := by
  unfold make_molecular_pool
  by_cases h1 : (map_find s.molecule_pools sp).isSome = true
  · rw [if_pos h1]; exact pools_extended_refl s
  rw [if_neg h1]
  by_cases h2 : (map_find s.voxel_pools sp).isSome = true
  · rw [if_pos h2]; exact pools_extended_refl s
  rw [if_neg h2]
  by_cases hloc : loc = ""
  · simp only [hloc, if_true]
    have := insert_extends s sp PoolRef.vacant radius D
    split_ifs <;> exact this
  · simp only [hloc, if_false]
    cases hf : s.find_voxel_pool loc with
    | some location =>
      have := insert_extends s sp location radius D
      simp only
      split_ifs <;> exact this
    | none =>
      have e1 := insert_extends s loc PoolRef.vacant s.voxel_radius 0
      simp only
      by_cases hins : (s.insert_molecule_pool loc ⟨PoolRef.vacant, s.voxel_radius, 0, []⟩).1 = true
      · simp only [hins, Bool.not_true, Bool.false_eq_true, if_false]
        have e2 := insert_extends
          (s.insert_molecule_pool loc ⟨PoolRef.vacant, s.voxel_radius, 0, []⟩).2 sp
          (PoolRef.molecular loc) radius D
        split_ifs <;> exact pools_extended_trans e1 e2
      · simp only [hins, Bool.not_false, if_true]
        exact e1

theorem get_voxel_pool_extends [LinearOrderedField K] (s : OffLatticeSpace K) (v : Voxel K) :
    pools_extended s (s.get_voxel_pool v).2 := by
  unfold get_voxel_pool
  simp only
  split_ifs
  · exact pools_extended_refl s
  · exact pools_extended_refl s
  · have := make_molecular_pool_extends s v.species v.radius v.D v.loc
    cases h : s.make_molecular_pool v.species v.radius v.D v.loc with
    | mk r s1 =>
      rw [h] at this
      cases r with
      | error e => exact this
      | ok suc =>
        simp only
        split_ifs <;> exact this

/-- C11: when `v.coordinate` is in range, `get_voxel_pool` resolves the pool
`new_vp` for `v.species` and the pool claiming `v.coordinate` is not the
location of `new_vp`, `update_voxel(pid, v)` throws `NotSupported` and
`v.coordinate` is claimed by the same pool as before. -/
theorem update_voxel_location_mismatch [LinearOrderedField K] (s s1 : OffLatticeSpace K)
    (pid : ParticleID) (v : Voxel K) (new_vp : PoolRef)
    (hrange : s.is_in_range v.coordinate = true)
    (hres : s.get_voxel_pool v = (.ok new_vp, s1))
    (hne : s.get_voxel_pool_at v.coordinate ≠ s1.location new_vp) :
    s.update_voxel pid v = (.error Error.NotSupported, s1) ∧
    s1.get_voxel_pool_at v.coordinate = s.get_voxel_pool_at v.coordinate := by
  have hext := get_voxel_pool_extends s v
  rw [hres] at hext
  have hat : s1.get_voxel_pool_at v.coordinate = s.get_voxel_pool_at v.coordinate := by
    have hv : s1.voxels = s.voxels := hext.1
    simp only [get_voxel_pool_at, hv]
  refine ⟨?_, hat⟩
  unfold update_voxel
  simp only [hrange, hres, Bool.not_true, Bool.false_eq_true, if_false]
  rw [if_pos]
  rw [hat]
  exact hne

/-- An instance of C11 on `square_store`: the species "M" with location
"membrane" on the vacant coordinate 2. -/
theorem update_voxel_location_mismatch_witness :
    square_store.is_in_range 2 = true ∧
    square_store.get_voxel_pool_at 2 = PoolRef.vacant ∧
    (square_store.update_voxel 3 ⟨"M", 2, 1 / 2, 1, "membrane"⟩).1 = .error Error.NotSupported ∧
    (square_store.update_voxel 3 ⟨"M", 2, 1 / 2, 1, "membrane"⟩).2.get_voxel_pool_at 2 =
      PoolRef.vacant :=
  have h := update_voxel_location_mismatch square_store
    (square_store.get_voxel_pool ⟨"M", 2, 1 / 2, 1, "membrane"⟩).2 3
    ⟨"M", 2, 1 / 2, 1, "membrane"⟩ (PoolRef.molecular "M") rfl rfl (by decide)
  ⟨rfl, rfl, by rw [h.1], by rw [h.1]; exact h.2⟩

/-! ### The adjacency built by `reset` -/

theorem push_adjoining_frame (s : OffLatticeSpace K) (c o : Int) :
    (s.push_adjoining c o).voxels = s.voxels ∧ (s.push_adjoining c o).positions = s.positions ∧
    (s.push_adjoining c o).adjoinings.length = s.adjoinings.length ∧
    (s.push_adjoining c o).voxel_pools = s.voxel_pools ∧
    (s.push_adjoining c o).molecule_pools = s.molecule_pools := by
  simp [push_adjoining]

theorem mem_adjoinings_push (s : OffLatticeSpace K) (c o a x : Int) (hc0 : 0 ≤ c)
    (hc : c < (s.adjoinings.length : Int)) (ha0 : 0 ≤ a) :
    x ∈ adjoinings_at (s.push_adjoining c o) a ↔
      x ∈ adjoinings_at s a ∨ (a = c ∧ x = o) := by
  have hcl : c.toNat < s.adjoinings.length := by omega
  simp only [adjoinings_at, push_adjoining, List.getD_eq_getElem?_getD, List.getElem?_modify]
  by_cases hac : a = c
  · subst hac
    rw [List.getElem?_eq_getElem hcl]
    simp
  · have hne : c.toNat ≠ a.toNat := by omega
    cases h : s.adjoinings[a.toNat]? <;> simp [hne, hac]

theorem reset_pairs_spec (pairs : List (Int × Int)) :
    ∀ s : OffLatticeSpace K, s.adjoinings.length = s.voxels.length →
      ((s.reset_pairs pairs).1 = .ok () ∨ (s.reset_pairs pairs).1 = .error Error.IllegalState) ∧
      ((s.reset_pairs pairs).1 = .ok () ↔
        ∀ p, p ∈ pairs → s.is_in_range p.1 = true ∧ s.is_in_range p.2 = true) ∧
      (s.reset_pairs pairs).2.positions = s.positions ∧
      ((s.reset_pairs pairs).1 = .ok () → ∀ a b, s.is_in_range a = true →
        s.is_in_range b = true →
        (b ∈ adjoinings_at (s.reset_pairs pairs).2 a ↔
          b ∈ adjoinings_at s a ∨ (a, b) ∈ pairs ∨ (b, a) ∈ pairs)) := by
  induction pairs with
  | nil =>
    intro s _
    simp [reset_pairs]
  | cons p rest ih =>
    intro s hlen
    obtain ⟨c0, c1⟩ := p
    by_cases hr : s.is_in_range c0 = true ∧ s.is_in_range c1 = true
    · obtain ⟨h0, h1⟩ := hr
      have hstep : s.reset_pairs ((c0, c1) :: rest) =
          ((s.push_adjoining c0 c1).push_adjoining c1 c0).reset_pairs rest := by
        simp [reset_pairs, h0, h1]
      obtain ⟨f1, f2, f3, -, -⟩ := push_adjoining_frame s c0 c1
      obtain ⟨g1, g2, g3, -, -⟩ := push_adjoining_frame (s.push_adjoining c0 c1) c1 c0
      have hrange : ∀ c, ((s.push_adjoining c0 c1).push_adjoining c1 c0).is_in_range c =
          s.is_in_range c := by
        intro c
        simp only [is_in_range, size, g1, f1]
      obtain ⟨i1, i2, i3, i4⟩ := ih ((s.push_adjoining c0 c1).push_adjoining c1 c0)
        (by rw [g3, f3, g1, f1, hlen])
      rw [hstep]
      refine ⟨i1, ?_, by rw [i3, g2, f2], ?_⟩
      · rw [i2]
        constructor
        · intro h p hp
          rcases List.mem_cons.mp hp with rfl | hp
          · exact ⟨h0, h1⟩
          · have := h p hp
            rwa [hrange, hrange] at this
        · intro h p hp
          rw [hrange, hrange]
          exact h p (List.mem_cons_of_mem _ hp)
      · intro hok a b ha hb
        have ha2 := (in_range_iff s a).mp ha
        have h02 := (in_range_iff s c0).mp h0
        have h12 := (in_range_iff s c1).mp h1
        rw [i4 hok a b (by rw [hrange]; exact ha) (by rw [hrange]; exact hb),
          mem_adjoinings_push _ c1 c0 a b h12.1 (by rw [f3, hlen]; exact h12.2) ha2.1,
          mem_adjoinings_push _ c0 c1 a b h02.1 (by rw [hlen]; exact h02.2) ha2.1]
        simp only [List.mem_cons, Prod.mk.injEq]
        tauto
    · have hstep : s.reset_pairs ((c0, c1) :: rest) = (.error Error.IllegalState, s) := by
        simp only [reset_pairs]
        rw [if_neg]
        simpa using hr
      rw [hstep]
      refine ⟨Or.inr rfl, ?_, rfl, ?_⟩
      · constructor
        · intro h; cases h
        · intro h
          exact absurd (h (c0, c1) (List.mem_cons_self _ _)) hr
      · intro h; cases h

/-! ### Rejected calls -/

theorem update_voxel_error_extends [LinearOrderedField K] (s : OffLatticeSpace K)
    (pid : ParticleID) (v : Voxel K) (e : Error) (h : (s.update_voxel pid v).1 = .error e) :
    pools_extended s (s.update_voxel pid v).2 := by
  have hext := get_voxel_pool_extends s v
  revert h
  unfold update_voxel
  by_cases hr : s.is_in_range v.coordinate = true
  · simp only [hr, Bool.not_true, Bool.false_eq_true, if_false]
    cases hg : s.get_voxel_pool v with
    | mk r s1 =>
      rw [hg] at hext
      cases r with
      | error e2 => intro _; exact hext
      | ok new_vp =>
        simp only
        split_ifs with h1
        · intro _; exact hext
        · cases hc : s1.get_coord pid with
          | none => simp only; intro h; cases h
          | some from_ =>
            simp only
            split_ifs
            · intro _; exact hext
            · intro h; cases h
  · simp only [hr, Bool.not_false, if_true]
    intro _
    exact pools_extended_refl s

/-- C12 (as the code has it): a call of `update_voxel` rejected for a
coordinate out of bounds leaves the store as it was; a call of `update_voxel`
that throws `NotSupported` leaves the coordinate tables, the structural map,
every molecular pool registered before the call and every occupant list as they
were (pools registered by the call stay registered, without occupants); a `reset` that throws `IllegalState` leaves the
pools and their occupant lists as they were, every coordinate vacant and the
position table replaced by the given one. -/
theorem rejected_call_state [LinearOrderedField K] (s : OffLatticeSpace K) :
    (∀ pid (v : Voxel K), s.is_in_range v.coordinate = false →
      s.update_voxel pid v = (.error Error.NotSupported, s)) ∧
    (∀ pid (v : Voxel K), (s.update_voxel pid v).1 = .error Error.NotSupported →
      (s.update_voxel pid v).2.voxels = s.voxels ∧
      (s.update_voxel pid v).2.positions = s.positions ∧
      (s.update_voxel pid v).2.adjoinings = s.adjoinings ∧
      (s.update_voxel pid v).2.voxel_pools = s.voxel_pools ∧
      (∀ sp pool, map_find s.molecule_pools sp = some pool →
        map_find (s.update_voxel pid v).2.molecule_pools sp = some pool) ∧
      ∀ sp, (s.update_voxel pid v).2.pool_voxels (PoolRef.molecular sp) =
        s.pool_voxels (PoolRef.molecular sp)) ∧
    (∀ positions pairs, (s.reset positions pairs).1 = .error Error.IllegalState →
      (s.reset positions pairs).2.voxel_pools = s.voxel_pools ∧
      (s.reset positions pairs).2.molecule_pools = s.molecule_pools ∧
      (s.reset positions pairs).2.voxels = List.replicate positions.length PoolRef.vacant ∧
      (s.reset positions pairs).2.positions = positions) := by
  refine ⟨?_, ?_, ?_⟩
  · intro pid v hr
    unfold update_voxel
    simp only [hr, Bool.not_false, if_true]
  · intro pid v h
    exact update_voxel_error_extends s pid v _ h
  · intro positions pairs _
    obtain ⟨cleared, hcl⟩ : ∃ cleared : OffLatticeSpace K, cleared =
        { s with voxels := List.replicate positions.length PoolRef.vacant,
                 positions := positions,
                 adjoinings := List.replicate positions.length [] } := ⟨_, rfl⟩
    have hreset : s.reset positions pairs = cleared.reset_pairs pairs := by rw [hcl]; rfl
    obtain ⟨f1, f2, f3⟩ := reset_pairs_frame cleared pairs
    have f4 := (reset_pairs_spec pairs cleared (by rw [hcl]; simp)).2.2.1
    rw [hreset, f1, f2, f3, f4, hcl]
    exact ⟨rfl, rfl, rfl, rfl⟩

/-- An instance of C12 (as the code has it) on `square_store`. -/
theorem rejected_call_state_witness :
    (square_store.update_voxel 3 ⟨"M", 2, 1 / 2, 1, "membrane"⟩).1 = .error Error.NotSupported ∧
    (square_store.update_voxel 3 ⟨"M", 2, 1 / 2, 1, "membrane"⟩).2.voxels = square_store.voxels :=
  ⟨rfl, ((rejected_call_state square_store).2.1 3 ⟨"M", 2, 1 / 2, 1, "membrane"⟩ rfl).1⟩

/-- C12 fails as stated: on `square_store` the call `update_voxel(3, v)` for
the species "M" with location "membrane" at the vacant coordinate 2 throws
`NotSupported` and leaves the pools "membrane" and "M" registered, which were
not registered before; and a `reset` of `occupied_store` with the pair `(0, 1)`
for one position throws `IllegalState` and leaves one vacant coordinate where
there were four. -/
theorem rejected_call_changes_store :
    (square_store.update_voxel 3 ⟨"M", 2, 1 / 2, 1, "membrane"⟩).1 = .error Error.NotSupported ∧
    square_store.molecule_pools.map Prod.fst = [] ∧
    (square_store.update_voxel 3 ⟨"M", 2, 1 / 2, 1, "membrane"⟩).2.molecule_pools.map Prod.fst =
      ["membrane", "M"] ∧
    (occupied_store.reset [⟨0, 0, 0⟩] [(0, 1)]).1 = .error Error.IllegalState ∧
    occupied_store.voxels =
      [PoolRef.molecular "A", PoolRef.vacant, PoolRef.vacant, PoolRef.vacant] ∧
    (occupied_store.reset [⟨0, 0, 0⟩] [(0, 1)]).2.voxels = [PoolRef.vacant] :=
  ⟨rfl, rfl, rfl, rfl, rfl, rfl⟩

/-! ### Where a particle is listed -/

theorem mem_erase_coord (l : List (Nat × Int)) (c : Int) (e : Nat × Int)
    (h : e ∈ erase_coord l c) : e ∈ l := by
  induction l with
  | nil => exact h
  | cons x rest ih =>
    simp only [erase_coord] at h
    split_ifs at h with hx
    · exact List.mem_cons_of_mem _ h
    · rcases List.mem_cons.mp h with rfl | h
      · exact List.mem_cons_self _ _
      · exact List.mem_cons_of_mem _ (ih h)

theorem erase_coord_of_count_zero (l : List (Nat × Int)) (c : Int) (h : count_at l c = 0) :
    erase_coord l c = l := by
  induction l with
  | nil => rfl
  | cons x rest ih =>
    simp only [count_at] at h
    by_cases hx : x.2 = c
    · rw [if_pos hx] at h; omega
    · rw [if_neg hx] at h
      simp only [erase_coord, if_neg hx]
      rw [ih (by omega)]

theorem mem_replace_coord (l : List (Nat × Int)) (c0 c1 : Int) (e : Nat × Int)
    (h : e ∈ replace_coord l c0 c1) : e ∈ l ∨ (e.2 = c1 ∧ (e.1, c0) ∈ l) := by
  induction l with
  | nil => exact Or.inl h
  | cons x rest ih =>
    simp only [replace_coord] at h
    split_ifs at h with hx
    · rcases List.mem_cons.mp h with rfl | h
      · right
        refine ⟨rfl, ?_⟩
        have : x = (x.1, c0) := by rw [← hx]
        rw [this]
        exact List.mem_cons_self _ _
      · exact Or.inl (List.mem_cons_of_mem _ h)
    · rcases List.mem_cons.mp h with rfl | h
      · exact Or.inl (List.mem_cons_self _ _)
      · rcases ih h with h1 | ⟨h1, h2⟩
        · exact Or.inl (List.mem_cons_of_mem _ h1)
        · exact Or.inr ⟨h1, List.mem_cons_of_mem _ h2⟩

theorem mem_replace_coord_kept (l : List (Nat × Int)) (c0 c1 : Int) (e : Nat × Int)
    (hne : e.2 ≠ c0) (h : e ∈ l) : e ∈ replace_coord l c0 c1 := by
  induction l with
  | nil => cases h
  | cons x rest ih =>
    simp only [replace_coord]
    by_cases hx : x.2 = c0
    · rw [if_pos hx]
      rcases List.mem_cons.mp h with h | h
      · exfalso
        apply hne
        rw [h]
        exact hx
      · exact List.mem_cons_of_mem _ h
    · rw [if_neg hx]
      rcases List.mem_cons.mp h with h | h
      · rw [h]
        exact List.mem_cons_self _ _
      · exact List.mem_cons_of_mem _ (ih h)

theorem mem_erase_coord_kept (l : List (Nat × Int)) (c : Int) (e : Nat × Int)
    (hne : e.2 ≠ c) (h : e ∈ l) : e ∈ erase_coord l c := by
  induction l with
  | nil => cases h
  | cons x rest ih =>
    simp only [erase_coord]
    by_cases hx : x.2 = c
    · rw [if_pos hx]
      rcases List.mem_cons.mp h with h | h
      · exfalso
        apply hne
        rw [h]
        exact hx
      · exact h
    · rw [if_neg hx]
      rcases List.mem_cons.mp h with h | h
      · rw [h]
        exact List.mem_cons_self _ _
      · exact List.mem_cons_of_mem _ (ih h)

theorem find_pid_some_of_mem (l : List (Nat × Int)) (pid : Nat) (c : Int)
    (h : (pid, c) ∈ l) : ∃ c2, find_pid l pid = some c2 := by
  induction l with
  | nil => cases h
  | cons x rest ih =>
    simp only [find_pid]
    by_cases hx : x.1 = pid
    · rw [if_pos hx]
      exact ⟨_, rfl⟩
    · rw [if_neg hx]
      rcases List.mem_cons.mp h with h | h
      · exfalso
        apply hx
        rw [← h]
      · exact ih h

theorem pool_voxels_modify (s : OffLatticeSpace K) (sp sp2 : Species)
    (f : List (ParticleID × Int) → List (ParticleID × Int)) (hf : f [] = []) :
    (s.modify_occupants sp f).pool_voxels (PoolRef.molecular sp2) =
      if sp2 = sp then f (s.pool_voxels (PoolRef.molecular sp))
      else s.pool_voxels (PoolRef.molecular sp2) := by
  simp only [pool_voxels, modify_occupants_find]
  by_cases h : sp2 = sp
  · subst h
    cases map_find s.molecule_pools sp2 with
    | none => simp [hf]
    | some p => simp
  · cases map_find s.molecule_pools sp2 with
    | none => simp [h]
    | some p => simp [h]

theorem pool_voxels_add (s : OffLatticeSpace K) (vp : PoolRef) (e : ParticleID × Int)
    (hvp : ∀ sp, vp = PoolRef.molecular sp → (map_find s.molecule_pools sp).isSome = true)
    (sp2 : Species) :
    (s.add_voxel vp e).pool_voxels (PoolRef.molecular sp2) =
      s.pool_voxels (PoolRef.molecular sp2) ++
        if vp = PoolRef.molecular sp2 then [e] else [] := by
  cases vp with
  | vacant => simp [add_voxel]
  | structural x => simp [add_voxel]
  | molecular sp =>
    have hreg := hvp sp rfl
    simp only [add_voxel, pool_voxels, modify_occupants_find]
    by_cases h : sp2 = sp
    · subst h
      cases hm : map_find s.molecule_pools sp2 with
      | none => rw [hm] at hreg; simp at hreg
      | some p => simp
    · have h2 : ¬ sp = sp2 := fun x => h x.symm
      cases map_find s.molecule_pools sp2 with
      | none => simp [h, h2]
      | some p => simp [h, h2]

theorem pool_voxels_remove (s : OffLatticeSpace K) (vp : PoolRef) (c0 : Int) (sp2 : Species) :
    (s.remove_voxel_if_exists vp c0).2.pool_voxels (PoolRef.molecular sp2) =
      if vp = PoolRef.molecular sp2 then erase_coord (s.pool_voxels (PoolRef.molecular sp2)) c0
      else s.pool_voxels (PoolRef.molecular sp2) := by
  cases vp with
  | vacant => simp [remove_voxel_if_exists]
  | structural x => simp [remove_voxel_if_exists]
  | molecular sp =>
    simp only [remove_voxel_if_exists]
    by_cases hany : (s.pool_voxels (PoolRef.molecular sp)).any (fun e => decide (e.2 = c0)) = true
    · rw [if_pos hany]
      rw [pool_voxels_modify _ _ _ _ (by rfl)]
      by_cases h : sp2 = sp
      · subst h
        simp
      · have h2 : ¬ sp = sp2 := fun x => h x.symm
        simp [h, h2]
    · rw [if_neg hany]
      have hz := count_at_zero_of_not_any _ _ ((Bool.not_eq_true _).mp hany)
      by_cases h : sp = sp2
      · subst h
        simp [erase_coord_of_count_zero _ _ hz]
      · simp [h]

theorem pool_voxels_replace (s : OffLatticeSpace K) (vp : PoolRef) (c0 c1 : Int) (k : Nat)
    (sp2 : Species) :
    (s.replace_voxel vp c0 c1 k).pool_voxels (PoolRef.molecular sp2) =
      if vp = PoolRef.molecular sp2 then replace_coord (s.pool_voxels (PoolRef.molecular sp2)) c0 c1
      else s.pool_voxels (PoolRef.molecular sp2) := by
  cases vp with
  | vacant => simp [replace_voxel]
  | structural x => simp [replace_voxel]
  | molecular sp =>
    simp only [replace_voxel]
    rw [pool_voxels_modify _ _ _ _ (by rfl)]
    by_cases h : sp2 = sp
    · subst h
      simp
    · have h2 : ¬ sp = sp2 := fun x => h x.symm
      simp [h, h2]

theorem pool_voxels_set_voxel (s : OffLatticeSpace K) (c : Int) (vp vp2 : PoolRef) :
    (s.set_voxel c vp).pool_voxels vp2 = s.pool_voxels vp2 := rfl

/-- An entry of an occupant list sits at an in-range coordinate claimed by the
pool. -/
theorem wf_claim_of_mem {s : OffLatticeSpace K} (hwf : store_wf s) (sp : Species)
    (e : ParticleID × Int) (h : e ∈ s.pool_voxels (PoolRef.molecular sp)) :
    s.is_in_range e.2 = true ∧ s.get_voxel_pool_at e.2 = PoolRef.molecular sp :=
  wf_claim_of_count hwf e.2 sp (count_at_pos_of_mem _ e h)

theorem get_coord_scan_some_of_mem (l : List (Species × MoleculePool K)) (pid : ParticleID)
    (sp : Species) (pool : MoleculePool K) (c : Int) (hmem : (sp, pool) ∈ l)
    (h : (pid, c) ∈ pool.voxels) : ∃ c2, get_coord_scan l pid = some c2 := by
  induction l with
  | nil => cases hmem
  | cons x rest ih =>
    obtain ⟨k, vp⟩ := x
    simp only [get_coord_scan]
    cases hf : find_pid vp.voxels pid with
    | some c3 => exact ⟨c3, rfl⟩
    | none =>
      simp only
      rcases List.mem_cons.mp hmem with hm | hm
      · have e1 : pool = vp := by
          have := congrArg Prod.snd hm
          exact this
        rw [e1] at h
        obtain ⟨c2, hc2⟩ := find_pid_some_of_mem _ _ _ h
        rw [hf] at hc2
        cases hc2
      · exact ih hm

theorem listed_of_get_coord {s : OffLatticeSpace K} (hwf : store_wf s) (pid : ParticleID)
    (c : Int) (h : s.get_coord pid = some c) : listed s pid c := by
  obtain ⟨sp, -, -, hmem⟩ := wf_get_coord hwf pid c h
  exact ⟨sp, hmem⟩

theorem get_coord_isSome_of_listed (s : OffLatticeSpace K) (pid : ParticleID) (c : Int)
    (hpid : pid ≠ 0) (h : listed s pid c) : ∃ c2, s.get_coord pid = some c2 := by
  obtain ⟨sp, hmem⟩ := h
  simp only [get_coord, if_neg hpid]
  simp only [pool_voxels] at hmem
  cases hm : map_find s.molecule_pools sp with
  | none => rw [hm] at hmem; cases hmem
  | some pool =>
    rw [hm] at hmem
    exact get_coord_scan_some_of_mem _ pid sp pool c (mem_of_map_find _ _ _ hm) hmem

theorem get_coord_of_listed {s : OffLatticeSpace K} (hwf : store_wf s) (hu : pids_unique s)
    (pid : ParticleID) (c : Int) (hpid : pid ≠ 0) (h : listed s pid c) :
    s.get_coord pid = some c := by
  obtain ⟨c2, hc2⟩ := get_coord_isSome_of_listed s pid c hpid h
  rw [hc2, hu pid c2 c hpid (listed_of_get_coord hwf pid c2 hc2) h]

theorem get_coord_none_of_not_listed {s : OffLatticeSpace K} (hwf : store_wf s)
    (pid : ParticleID) (h : ∀ c, ¬ listed s pid c) : s.get_coord pid = none := by
  cases hc : s.get_coord pid with
  | none => rfl
  | some c => exact absurd (listed_of_get_coord hwf pid c hc) (h c)

theorem not_listed_of_get_coord_none (s : OffLatticeSpace K) (pid : ParticleID)
    (hpid : pid ≠ 0) (h : s.get_coord pid = none) (c : Int) : ¬ listed s pid c := by
  intro hl
  obtain ⟨c2, hc2⟩ := get_coord_isSome_of_listed s pid c hpid hl
  rw [h] at hc2
  cases hc2

/-- The store after an accepted `move`: the result, the claims and the
occupant lists. -/
theorem move_state {s : OffLatticeSpace K} (hwf : store_wf s) (src dest : Int) (candidate : Nat)
    (ssp : Species) (hsd : src ≠ dest) (hs : s.is_in_range src = true)
    (hd : s.is_in_range dest = true) (hV : s.get_voxel_pool_at src = PoolRef.molecular ssp)
    (hloc : s.get_voxel_pool_at dest = s.location (PoolRef.molecular ssp)) :
    (s.move src dest candidate).1 = .ok true ∧
    (∀ c, (s.move src dest candidate).2.is_in_range c = s.is_in_range c) ∧
    (∀ c, s.is_in_range c = true → (s.move src dest candidate).2.get_voxel_pool_at c =
      if c = dest then PoolRef.molecular ssp
      else if c = src then s.get_voxel_pool_at dest else s.get_voxel_pool_at c) ∧
    (∀ sp2, (s.move src dest candidate).2.pool_voxels (PoolRef.molecular sp2) =
      if s.get_voxel_pool_at dest = PoolRef.molecular sp2 then
        replace_coord (s.pool_voxels (PoolRef.molecular sp2)) dest src
      else if ssp = sp2 then replace_coord (s.pool_voxels (PoolRef.molecular sp2)) src dest
      else s.pool_voxels (PoolRef.molecular sp2)) := by
  have hreg := wf_registered hwf src ssp hs hV
  obtain ⟨l1, -, -⟩ := wf_location hwf ssp hreg
  unfold move
  simp only [hsd, hs, hd, is_vacant, hV, hloc, Bool.not_true, Bool.false_eq_true, if_false,
    ne_eq, not_true_eq_false]
  obtain ⟨L, hL⟩ : ∃ L, s.location (PoolRef.molecular ssp) = L := ⟨_, rfl⟩
  rw [hL] at l1 ⊢
  have f1 := same_frame_replace s (PoolRef.molecular ssp) src dest candidate
  have f2 := same_frame_trans f1 (same_frame_set_voxel _ src L)
  have f3 := same_frame_trans f2 (same_frame_replace _ L dest src 0)
  have f4 := same_frame_trans f3 (same_frame_set_voxel _ dest (PoolRef.molecular ssp))
  refine ⟨trivial, fun c => same_frame_is_in_range f4 c, ?_, ?_⟩
  · intro c hr
    rw [set_voxel_get_at _ _ _ _ (by rw [same_frame_is_in_range f3]; exact hd)
      (by rw [same_frame_is_in_range f3]; exact hr), replace_get_at,
      set_voxel_get_at _ _ _ _ (by rw [same_frame_is_in_range f1]; exact hs)
      (by rw [same_frame_is_in_range f1]; exact hr), replace_get_at]
  · intro sp2
    rw [pool_voxels_set_voxel, pool_voxels_replace, pool_voxels_set_voxel, pool_voxels_replace]
    by_cases h1 : L = PoolRef.molecular sp2
    · have h2 : ¬ ssp = sp2 := by
        rintro rfl
        exact l1 h1
      have h3 : ¬ PoolRef.molecular ssp = PoolRef.molecular sp2 := by
        intro h
        exact h2 (PoolRef.molecular.inj h)
      simp [h1, h2]
    · by_cases h2 : ssp = sp2
      · simp [h1, h2]
      · simp [h1, h2]

/-- Where a particle is listed after an accepted `move`. -/
theorem move_listed {s : OffLatticeSpace K} (hwf : store_wf s) (src dest : Int) (candidate : Nat)
    (ssp : Species) (hsd : src ≠ dest) (hs : s.is_in_range src = true)
    (hd : s.is_in_range dest = true) (hV : s.get_voxel_pool_at src = PoolRef.molecular ssp)
    (hloc : s.get_voxel_pool_at dest = s.location (PoolRef.molecular ssp)) (p : ParticleID)
    (y : Int) (h : listed (s.move src dest candidate).2 p y) :
    (listed s p y ∧ y ≠ src ∧ y ≠ dest) ∨ (y = dest ∧ listed s p src) ∨
      (y = src ∧ listed s p dest) := by
  have hwf2 := wf_move hwf src dest candidate
  obtain ⟨-, hrange, hat, hpv⟩ := move_state hwf src dest candidate ssp hsd hs hd hV hloc
  have hreg := wf_registered hwf src ssp hs hV
  obtain ⟨l1, -, -⟩ := wf_location hwf ssp hreg
  rw [← hloc] at l1
  obtain ⟨sp2, hmem⟩ := h
  obtain ⟨hr, hV2⟩ := wf_claim_of_mem hwf2 sp2 _ hmem
  simp only at hr hV2
  rw [hrange] at hr
  rw [hat y hr] at hV2
  rw [hpv] at hmem
  by_cases hy1 : y = dest
  · subst hy1
    rw [if_pos rfl] at hV2
    have e : ssp = sp2 := PoolRef.molecular.inj hV2
    subst e
    rw [if_neg l1, if_pos rfl] at hmem
    rcases mem_replace_coord _ _ _ _ hmem with h1 | ⟨-, h1⟩
    · exact absurd (wf_claim_of_mem hwf ssp _ h1).2 l1
    · exact Or.inr (Or.inl ⟨rfl, ssp, h1⟩)
  · rw [if_neg hy1] at hV2
    by_cases hy2 : y = src
    · subst hy2
      rw [if_pos rfl] at hV2
      rw [if_pos hV2] at hmem
      rcases mem_replace_coord _ _ _ _ hmem with h1 | ⟨-, h1⟩
      · have := (wf_claim_of_mem hwf sp2 _ h1).2
        simp only at this
        rw [hV, ← hV2] at this
        exact absurd this.symm l1
      · exact Or.inr (Or.inr ⟨rfl, sp2, h1⟩)
    · left
      refine ⟨⟨sp2, ?_⟩, hy2, hy1⟩
      split_ifs at hmem
      · rcases mem_replace_coord _ _ _ _ hmem with h1 | ⟨h1, -⟩
        · exact h1
        · exact absurd h1 hy2
      · rcases mem_replace_coord _ _ _ _ hmem with h1 | ⟨h1, -⟩
        · exact h1
        · exact absurd h1 hy1
      · exact hmem

/-- The store after an entry was detached: the range, the claims and the
occupant lists. -/
theorem detach_state {s : OffLatticeSpace K} (hwf : store_wf s) (c : Int) (sp : Species)
    (hc : s.is_in_range c = true) (hV : s.get_voxel_pool_at c = PoolRef.molecular sp) :
    (∀ y, ((((s.remove_voxel_if_exists (PoolRef.molecular sp) c).2).set_voxel c
      (s.location (PoolRef.molecular sp))).add_voxel
      (s.location (PoolRef.molecular sp)) (0, c)).is_in_range y = s.is_in_range y) ∧
    (∀ y, s.is_in_range y = true →
      ((((s.remove_voxel_if_exists (PoolRef.molecular sp) c).2).set_voxel c
      (s.location (PoolRef.molecular sp))).add_voxel
      (s.location (PoolRef.molecular sp)) (0, c)).get_voxel_pool_at y =
      if y = c then s.location (PoolRef.molecular sp) else s.get_voxel_pool_at y) ∧
    (∀ sp2, ((((s.remove_voxel_if_exists (PoolRef.molecular sp) c).2).set_voxel c
      (s.location (PoolRef.molecular sp))).add_voxel
      (s.location (PoolRef.molecular sp)) (0, c)).pool_voxels (PoolRef.molecular sp2) =
      (if sp = sp2 then erase_coord (s.pool_voxels (PoolRef.molecular sp2)) c
       else s.pool_voxels (PoolRef.molecular sp2)) ++
        if s.location (PoolRef.molecular sp) = PoolRef.molecular sp2 then [(0, c)] else []) := by
  have hreg := wf_registered hwf c sp hc hV
  obtain ⟨-, -, l3⟩ := wf_location hwf sp hreg
  obtain ⟨L, hL⟩ : ∃ L, s.location (PoolRef.molecular sp) = L := ⟨_, rfl⟩
  rw [hL] at l3 ⊢
  have f1 := same_frame_remove s (PoolRef.molecular sp) c
  have f2 := same_frame_trans f1 (same_frame_set_voxel _ c L)
  have f3 := same_frame_trans f2 (same_frame_add _ L (0, c))
  have hreg2 : ∀ x, L = PoolRef.molecular x →
      (map_find (((s.remove_voxel_if_exists (PoolRef.molecular sp) c).2).set_voxel c
        L).molecule_pools x).isSome = true := by
    intro x hx
    rw [same_frame_registered f2]
    exact l3 x hx
  refine ⟨fun y => same_frame_is_in_range f3 y, ?_, ?_⟩
  · intro y hy
    rw [add_voxel_get_at, set_voxel_get_at _ _ _ _ (by rw [same_frame_is_in_range f1]; exact hc)
      (by rw [same_frame_is_in_range f1]; exact hy), remove_get_at]
  · intro sp2
    rw [pool_voxels_add _ _ _ hreg2, pool_voxels_set_voxel, pool_voxels_remove]
    by_cases h : sp = sp2
    · subst h
      simp
    · have h2 : ¬ PoolRef.molecular sp = PoolRef.molecular sp2 := by
        intro hx
        exact h (PoolRef.molecular.inj hx)
      simp [h, h2]

/-- Where a particle is listed after an entry was detached. -/
theorem detach_listed {s : OffLatticeSpace K} (hwf : store_wf s) (c : Int) (sp : Species)
    (hc : s.is_in_range c = true) (hV : s.get_voxel_pool_at c = PoolRef.molecular sp)
    (p : ParticleID) (y : Int)
    (h : listed ((((s.remove_voxel_if_exists (PoolRef.molecular sp) c).2).set_voxel c
      (s.location (PoolRef.molecular sp))).add_voxel
      (s.location (PoolRef.molecular sp)) (0, c)) p y) :
    (listed s p y ∧ y ≠ c) ∨ (p = 0 ∧ y = c) := by
  have hwf2 := wf_detach hwf c sp hc hV
  obtain ⟨hrange, hat, hpv⟩ := detach_state hwf c sp hc hV
  have hreg := wf_registered hwf c sp hc hV
  obtain ⟨l1, -, -⟩ := wf_location hwf sp hreg
  obtain ⟨sp2, hmem⟩ := h
  obtain ⟨hr, hV2⟩ := wf_claim_of_mem hwf2 sp2 _ hmem
  simp only at hr hV2
  rw [hrange] at hr
  rw [hat y hr] at hV2
  rw [hpv] at hmem
  rcases List.mem_append.mp hmem with h1 | h1
  · left
    have h2 : (p, y) ∈ s.pool_voxels (PoolRef.molecular sp2) := by
      split_ifs at h1
      · exact mem_erase_coord _ _ _ h1
      · exact h1
    refine ⟨⟨sp2, h2⟩, ?_⟩
    rintro rfl
    rw [if_pos rfl] at hV2
    have h3 := (wf_claim_of_mem hwf sp2 _ h2).2
    simp only at h3
    rw [hV] at h3
    rw [← h3] at hV2
    exact l1 hV2
  · right
    split_ifs at h1
    · simp only [List.mem_singleton, Prod.mk.injEq] at h1
      exact h1
    · cases h1

/-- The store after the "insert" path of `update_voxel`. -/
theorem attach_state (s : OffLatticeSpace K) (to_ : Int) (nsp : Species)
    (pid : ParticleID) (hto : s.is_in_range to_ = true)
    (hreg : (map_find s.molecule_pools nsp).isSome = true) :
    (∀ y, ((((s.remove_voxel_if_exists (s.get_voxel_pool_at to_) to_).2).add_voxel
      (PoolRef.molecular nsp) (pid, to_)).set_voxel to_
      (PoolRef.molecular nsp)).is_in_range y = s.is_in_range y) ∧
    (∀ y, s.is_in_range y = true →
      ((((s.remove_voxel_if_exists (s.get_voxel_pool_at to_) to_).2).add_voxel
      (PoolRef.molecular nsp) (pid, to_)).set_voxel to_
      (PoolRef.molecular nsp)).get_voxel_pool_at y =
      if y = to_ then PoolRef.molecular nsp else s.get_voxel_pool_at y) ∧
    (∀ sp2, ((((s.remove_voxel_if_exists (s.get_voxel_pool_at to_) to_).2).add_voxel
      (PoolRef.molecular nsp) (pid, to_)).set_voxel to_
      (PoolRef.molecular nsp)).pool_voxels (PoolRef.molecular sp2) =
      (if s.get_voxel_pool_at to_ = PoolRef.molecular sp2 then
        erase_coord (s.pool_voxels (PoolRef.molecular sp2)) to_
       else s.pool_voxels (PoolRef.molecular sp2)) ++
        if nsp = sp2 then [(pid, to_)] else []) := by
  obtain ⟨L, hL⟩ : ∃ L, s.get_voxel_pool_at to_ = L := ⟨_, rfl⟩
  rw [hL]
  have f1 := same_frame_remove s L to_
  have f2 := same_frame_trans f1 (same_frame_add _ (PoolRef.molecular nsp) (pid, to_))
  have f3 := same_frame_trans f2 (same_frame_set_voxel _ to_ (PoolRef.molecular nsp))
  have hreg2 : ∀ x, PoolRef.molecular nsp = PoolRef.molecular x →
      (map_find (s.remove_voxel_if_exists L to_).2.molecule_pools x).isSome = true := by
    intro x hx
    injection hx with hx
    subst hx
    rw [same_frame_registered f1]
    exact hreg
  refine ⟨fun y => same_frame_is_in_range f3 y, ?_, ?_⟩
  · intro y hy
    rw [set_voxel_get_at _ _ _ _ (by rw [same_frame_is_in_range f2]; exact hto)
      (by rw [same_frame_is_in_range f2]; exact hy), add_voxel_get_at, remove_get_at]
  · intro sp2
    rw [pool_voxels_set_voxel, pool_voxels_add _ _ _ hreg2, pool_voxels_remove]
    by_cases h : nsp = sp2
    · subst h
      simp
    · have h2 : ¬ PoolRef.molecular nsp = PoolRef.molecular sp2 := by
        intro hx
        exact h (PoolRef.molecular.inj hx)
      simp [h, h2]

/-- Where a particle is listed after the "insert" path of `update_voxel`. -/
theorem attach_listed {s : OffLatticeSpace K} (hwf : store_wf s) (to_ : Int) (nsp : Species)
    (pid : ParticleID) (hto : s.is_in_range to_ = true)
    (hreg : (map_find s.molecule_pools nsp).isSome = true)
    (hloc : s.get_voxel_pool_at to_ = s.location (PoolRef.molecular nsp)) :
    listed ((((s.remove_voxel_if_exists (s.get_voxel_pool_at to_) to_).2).add_voxel
      (PoolRef.molecular nsp) (pid, to_)).set_voxel to_ (PoolRef.molecular nsp)) pid to_ ∧
    ∀ p y, listed ((((s.remove_voxel_if_exists (s.get_voxel_pool_at to_) to_).2).add_voxel
      (PoolRef.molecular nsp) (pid, to_)).set_voxel to_ (PoolRef.molecular nsp)) p y →
      (listed s p y ∧ y ≠ to_) ∨ (p = pid ∧ y = to_) := by
  have hwf2 := wf_attach hwf to_ nsp pid hto hreg hloc
  obtain ⟨hrange, hat, hpv⟩ := attach_state s to_ nsp pid hto hreg
  obtain ⟨l1, -, -⟩ := wf_location hwf nsp hreg
  rw [← hloc] at l1
  constructor
  · refine ⟨nsp, ?_⟩
    rw [hpv, if_pos rfl]
    exact List.mem_append_right _ (List.mem_singleton_self _)
  · intro p y h
    obtain ⟨sp2, hmem⟩ := h
    obtain ⟨hr, hV2⟩ := wf_claim_of_mem hwf2 sp2 _ hmem
    simp only at hr hV2
    rw [hrange] at hr
    rw [hat y hr] at hV2
    rw [hpv] at hmem
    rcases List.mem_append.mp hmem with h1 | h1
    · left
      have h2 : (p, y) ∈ s.pool_voxels (PoolRef.molecular sp2) := by
        split_ifs at h1
        · exact mem_erase_coord _ _ _ h1
        · exact h1
      refine ⟨⟨sp2, h2⟩, ?_⟩
      rintro rfl
      rw [if_pos rfl] at hV2
      have h3 := (wf_claim_of_mem hwf sp2 _ h2).2
      simp only at h3
      rw [← hV2] at h3
      exact l1 h3
    · right
      split_ifs at h1
      · simp only [List.mem_singleton, Prod.mk.injEq] at h1
        exact h1
      · cases h1

/-- The store after the "move" path of `update_voxel`. -/
theorem reattach_state (s : OffLatticeSpace K) (from_ to_ : Int)
    (psp nsp : Species) (pid : ParticleID)
    (hfrom : s.is_in_range from_ = true) (hto : s.is_in_range to_ = true)
    (hreg : (map_find s.molecule_pools nsp).isSome = true) :
    (∀ y, ((((((s.remove_voxel_if_exists (PoolRef.molecular psp) from_).2).replace_voxel
      (s.get_voxel_pool_at to_) to_ from_ 0).set_voxel from_ (s.get_voxel_pool_at to_)).add_voxel
      (PoolRef.molecular nsp) (pid, to_)).set_voxel to_
      (PoolRef.molecular nsp)).is_in_range y = s.is_in_range y) ∧
    (∀ y, s.is_in_range y = true →
      ((((((s.remove_voxel_if_exists (PoolRef.molecular psp) from_).2).replace_voxel
      (s.get_voxel_pool_at to_) to_ from_ 0).set_voxel from_ (s.get_voxel_pool_at to_)).add_voxel
      (PoolRef.molecular nsp) (pid, to_)).set_voxel to_
      (PoolRef.molecular nsp)).get_voxel_pool_at y =
      if y = to_ then PoolRef.molecular nsp else if y = from_ then s.get_voxel_pool_at to_
      else s.get_voxel_pool_at y) ∧
    (∀ sp2, ((((((s.remove_voxel_if_exists (PoolRef.molecular psp) from_).2).replace_voxel
      (s.get_voxel_pool_at to_) to_ from_ 0).set_voxel from_ (s.get_voxel_pool_at to_)).add_voxel
      (PoolRef.molecular nsp) (pid, to_)).set_voxel to_
      (PoolRef.molecular nsp)).pool_voxels (PoolRef.molecular sp2) =
      (if s.get_voxel_pool_at to_ = PoolRef.molecular sp2 then
        replace_coord (if psp = sp2 then erase_coord (s.pool_voxels (PoolRef.molecular sp2)) from_
          else s.pool_voxels (PoolRef.molecular sp2)) to_ from_
       else (if psp = sp2 then erase_coord (s.pool_voxels (PoolRef.molecular sp2)) from_
          else s.pool_voxels (PoolRef.molecular sp2))) ++
        if nsp = sp2 then [(pid, to_)] else []) := by
  obtain ⟨L, hL⟩ : ∃ L, s.get_voxel_pool_at to_ = L := ⟨_, rfl⟩
  rw [hL]
  have f1 := same_frame_remove s (PoolRef.molecular psp) from_
  have f2 := same_frame_trans f1 (same_frame_replace _ L to_ from_ 0)
  have f3 := same_frame_trans f2 (same_frame_set_voxel _ from_ L)
  have f4 := same_frame_trans f3 (same_frame_add _ (PoolRef.molecular nsp) (pid, to_))
  have f5 := same_frame_trans f4 (same_frame_set_voxel _ to_ (PoolRef.molecular nsp))
  have hreg2 : ∀ x, PoolRef.molecular nsp = PoolRef.molecular x →
      (map_find ((((s.remove_voxel_if_exists (PoolRef.molecular psp) from_).2).replace_voxel
        L to_ from_ 0).set_voxel from_ L).molecule_pools x).isSome = true := by
    intro x hx
    injection hx with hx
    subst hx
    rw [same_frame_registered f3]
    exact hreg
  refine ⟨fun y => same_frame_is_in_range f5 y, ?_, ?_⟩
  · intro c hr
    rw [set_voxel_get_at _ _ _ _ (by rw [same_frame_is_in_range f4]; exact hto)
      (by rw [same_frame_is_in_range f4]; exact hr), add_voxel_get_at,
      set_voxel_get_at _ _ _ _ (by rw [same_frame_is_in_range f2]; exact hfrom)
      (by rw [same_frame_is_in_range f2]; exact hr), replace_get_at, remove_get_at]
  · intro sp2
    rw [pool_voxels_set_voxel, pool_voxels_add _ _ _ hreg2, pool_voxels_set_voxel,
      pool_voxels_replace, pool_voxels_remove]
    by_cases h : nsp = sp2
    · subst h
      by_cases h3 : psp = nsp
      · subst h3
        simp
      · have h4 : ¬ PoolRef.molecular psp = PoolRef.molecular nsp := by
          intro hx
          exact h3 (PoolRef.molecular.inj hx)
        simp [h3, h4]
    · have h2 : ¬ PoolRef.molecular nsp = PoolRef.molecular sp2 := by
        intro hx
        exact h (PoolRef.molecular.inj hx)
      by_cases h3 : psp = sp2
      · subst h3
        simp [h, h2]
      · have h4 : ¬ PoolRef.molecular psp = PoolRef.molecular sp2 := by
          intro hx
          exact h3 (PoolRef.molecular.inj hx)
        simp [h, h2, h3, h4]

/-- Where a particle is listed after the "move" path of `update_voxel`. -/
theorem reattach_listed {s : OffLatticeSpace K} (hwf : store_wf s) (from_ to_ : Int)
    (psp nsp : Species) (pid : ParticleID)
    (hfrom : s.is_in_range from_ = true) (hto : s.is_in_range to_ = true)
    (hVf : s.get_voxel_pool_at from_ = PoolRef.molecular psp)
    (hreg : (map_find s.molecule_pools nsp).isSome = true)
    (hloc : s.get_voxel_pool_at to_ = s.location (PoolRef.molecular nsp)) :
    listed ((((((s.remove_voxel_if_exists (PoolRef.molecular psp) from_).2).replace_voxel
      (s.get_voxel_pool_at to_) to_ from_ 0).set_voxel from_ (s.get_voxel_pool_at to_)).add_voxel
      (PoolRef.molecular nsp) (pid, to_)).set_voxel to_ (PoolRef.molecular nsp)) pid to_ ∧
    ∀ p y, listed ((((((s.remove_voxel_if_exists (PoolRef.molecular psp) from_).2).replace_voxel
      (s.get_voxel_pool_at to_) to_ from_ 0).set_voxel from_ (s.get_voxel_pool_at to_)).add_voxel
      (PoolRef.molecular nsp) (pid, to_)).set_voxel to_ (PoolRef.molecular nsp)) p y →
      (p = pid ∧ y = to_) ∨ (listed s p y ∧ y ≠ from_ ∧ y ≠ to_) ∨
        (y = from_ ∧ from_ ≠ to_ ∧ listed s p to_) := by
  have hwf2 := wf_reattach hwf from_ to_ psp nsp pid hfrom hto hVf hreg hloc
  obtain ⟨hrange, hat, hpv⟩ := reattach_state s from_ to_ psp nsp pid hfrom hto hreg
  obtain ⟨l1, -, -⟩ := wf_location hwf nsp hreg
  rw [← hloc] at l1
  have hcount := wf_count_of_claim hwf from_ psp hfrom hVf
  have hbase : ∀ sp2 (e : ParticleID × Int),
      e ∈ (if psp = sp2 then erase_coord (s.pool_voxels (PoolRef.molecular sp2)) from_
          else s.pool_voxels (PoolRef.molecular sp2)) →
      e ∈ s.pool_voxels (PoolRef.molecular sp2) ∧ e.2 ≠ from_ := by
    intro sp2 e he
    by_cases hp : psp = sp2
    · subst hp
      rw [if_pos rfl] at he
      refine ⟨mem_erase_coord _ _ _ he, ?_⟩
      intro h
      have h0 := count_at_pos_of_mem _ _ he
      rw [h, count_at_erase_coord, if_pos rfl] at h0
      simp only [occupant_count] at hcount
      omega
    · rw [if_neg hp] at he
      refine ⟨he, ?_⟩
      intro h
      have h3 := (wf_claim_of_mem hwf sp2 _ he).2
      rw [h, hVf] at h3
      exact hp (PoolRef.molecular.inj h3)
  constructor
  · refine ⟨nsp, ?_⟩
    rw [hpv, if_pos rfl]
    exact List.mem_append_right _ (List.mem_singleton_self _)
  · intro p y h
    obtain ⟨sp2, hmem⟩ := h
    obtain ⟨hr, hV2⟩ := wf_claim_of_mem hwf2 sp2 _ hmem
    simp only at hr hV2
    rw [hrange] at hr
    rw [hat y hr] at hV2
    rw [hpv] at hmem
    rcases List.mem_append.mp hmem with h1 | h1
    · right
      by_cases hL : s.get_voxel_pool_at to_ = PoolRef.molecular sp2
      · rw [if_pos hL] at h1
        rcases mem_replace_coord _ _ _ _ h1 with h2 | ⟨h2, h3⟩
        · obtain ⟨h4, h5⟩ := hbase sp2 _ h2
          left
          refine ⟨⟨sp2, h4⟩, h5, ?_⟩
          rintro rfl
          rw [if_pos rfl] at hV2
          rw [← hV2] at hL
          exact l1 hL
        · obtain ⟨h4, h5⟩ := hbase sp2 _ h3
          simp only at h2 h5
          right
          refine ⟨h2, fun h => h5 h.symm, sp2, h4⟩
      · rw [if_neg hL] at h1
        obtain ⟨h4, h5⟩ := hbase sp2 _ h1
        left
        refine ⟨⟨sp2, h4⟩, h5, ?_⟩
        rintro rfl
        rw [if_pos rfl] at hV2
        have h3 := (wf_claim_of_mem hwf sp2 _ h4).2
        simp only at h3
        rw [← hV2] at h3
        exact l1 h3
    · left
      split_ifs at h1
      · simp only [List.mem_singleton, Prod.mk.injEq] at h1
        exact h1
      · cases h1

/-! ### Particle identities are listed once -/

theorem get_voxel_pool_species [LinearOrderedField K] (s : OffLatticeSpace K) (v : Voxel K)
    (vp : PoolRef) (h : (s.get_voxel_pool v).1 = .ok vp) :
    vp = PoolRef.structural v.species ∨ vp = PoolRef.molecular v.species := by
  revert h
  unfold get_voxel_pool
  simp only
  split_ifs
  · intro h
    injection h with h
    exact Or.inl h.symm
  · intro h
    injection h with h
    exact Or.inr h.symm
  · cases s.make_molecular_pool v.species v.radius v.D v.loc with
    | mk r s1 =>
      cases r with
      | error e => intro h; cases h
      | ok suc =>
        simp only
        split_ifs
        · intro h; cases h
        · intro h; cases h
        · intro h
          injection h with h
          exact Or.inr h.symm

theorem unique_of_pool_voxels {s t : OffLatticeSpace K}
    (h : ∀ sp, t.pool_voxels (PoolRef.molecular sp) = s.pool_voxels (PoolRef.molecular sp))
    (hu : pids_unique s) : pids_unique t := by
  intro p y1 y2 hp h1 h2
  obtain ⟨x1, h1⟩ := h1
  obtain ⟨x2, h2⟩ := h2
  rw [h] at h1 h2
  exact hu p y1 y2 hp ⟨x1, h1⟩ ⟨x2, h2⟩

/-- The three outcomes of `update_voxel` on a well-formed store: an exception,
which leaves at most new pools without occupants behind, the "insert" path and
the "move" path. -/
theorem update_voxel_cases [LinearOrderedField K] {s : OffLatticeSpace K} (hwf : store_wf s)
    (pid : ParticleID) (v : Voxel K) :
    (∃ e, (s.update_voxel pid v).1 = .error e ∧ pools_extended s (s.update_voxel pid v).2) ∨
    ∃ s1, store_wf s1 ∧ pools_extended s s1 ∧ s1.is_in_range v.coordinate = true ∧
      (map_find s1.molecule_pools v.species).isSome = true ∧
      s1.get_voxel_pool_at v.coordinate = s1.location (PoolRef.molecular v.species) ∧
      ((s1.get_coord pid = none ∧ s.update_voxel pid v = (.ok true,
          (((s1.remove_voxel_if_exists (s1.get_voxel_pool_at v.coordinate) v.coordinate).2).add_voxel
            (PoolRef.molecular v.species) (pid, v.coordinate)).set_voxel v.coordinate
            (PoolRef.molecular v.species))) ∨
       ∃ from_ psp, s1.get_coord pid = some from_ ∧ s1.is_in_range from_ = true ∧
         s1.get_voxel_pool_at from_ = PoolRef.molecular psp ∧
         (pid, from_) ∈ s1.pool_voxels (PoolRef.molecular psp) ∧
         s.update_voxel pid v = (.ok false,
          (((((s1.remove_voxel_if_exists (PoolRef.molecular psp) from_).2).replace_voxel
            (s1.get_voxel_pool_at v.coordinate) v.coordinate from_ 0).set_voxel from_
            (s1.get_voxel_pool_at v.coordinate)).add_voxel
            (PoolRef.molecular v.species) (pid, v.coordinate)).set_voxel v.coordinate
            (PoolRef.molecular v.species))) := by
  by_cases hto : s.is_in_range v.coordinate = true
  swap
  · left
    refine ⟨Error.NotSupported, ?_, ?_⟩
    · unfold update_voxel; simp [hto]
    · have : (s.update_voxel pid v).2 = s := by unfold update_voxel; simp [hto]
      rw [this]
      exact pools_extended_refl s
  obtain ⟨a1, a2, a3⟩ := get_voxel_pool_spec hwf v
  have hext := get_voxel_pool_extends s v
  have hsp := get_voxel_pool_species s v
  rcases hres : s.get_voxel_pool v with ⟨res, s1⟩
  rw [hres] at a1 a2 a3 hext hsp
  simp only [] at a1 a2 a3 hext hsp
  cases res with
  | error e =>
    left
    have : s.update_voxel pid v = (.error e, s1) := by
      unfold update_voxel
      simp only [hto, hres, Bool.not_true, Bool.false_eq_true, if_false]
    rw [this]
    exact ⟨e, rfl, hext⟩
  | ok new_vp =>
    obtain ⟨nsp, hnew, hreg⟩ := a3 new_vp rfl
    have hnsp : nsp = v.species := by
      rcases hsp new_vp rfl with h | h
      · rw [hnew] at h; cases h
      · rw [hnew] at h; exact PoolRef.molecular.inj h
    subst hnew
    subst hnsp
    have hto1 : s1.is_in_range v.coordinate = true := by
      simpa [is_in_range, size, a2] using hto
    by_cases hloc : s1.get_voxel_pool_at v.coordinate = s1.location (PoolRef.molecular v.species)
    swap
    · left
      have : s.update_voxel pid v = (.error Error.NotSupported, s1) := by
        unfold update_voxel
        simp only [hto, hres, Bool.not_true, Bool.false_eq_true, if_false, ne_eq, hloc,
          not_false_eq_true, if_true]
      rw [this]
      exact ⟨_, rfl, hext⟩
    right
    refine ⟨s1, a1, hext, hto1, hreg, hloc, ?_⟩
    cases hgc : s1.get_coord pid with
    | none =>
      left
      refine ⟨rfl, ?_⟩
      unfold update_voxel
      simp only [hto, hres, Bool.not_true, Bool.false_eq_true, if_false, ne_eq, hloc,
        not_true_eq_false, hgc]
    | some from_coord =>
      right
      obtain ⟨psp, b1, b2, b3⟩ := wf_get_coord a1 pid from_coord hgc
      refine ⟨from_coord, psp, rfl, b1, b2, b3, ?_⟩
      unfold update_voxel
      simp only [hto, hres, Bool.not_true, Bool.false_eq_true, if_false, ne_eq, hloc,
        not_true_eq_false, hgc, b1, b2]

theorem unique_update [LinearOrderedField K] {s : OffLatticeSpace K} (hwf : store_wf s)
    (hu : pids_unique s) (pid : ParticleID) (v : Voxel K) :
    pids_unique (s.update_voxel pid v).2 := by
  rcases update_voxel_cases hwf pid v with ⟨e, -, hext⟩ | ⟨s1, a1, hext, hto1, hreg, hloc, hc⟩
  · exact unique_of_pool_voxels hext.2.2.2.2.2 hu
  · have hu1 : pids_unique s1 := unique_of_pool_voxels hext.2.2.2.2.2 hu
    rcases hc with ⟨hgc, hres⟩ | ⟨from_, psp, hgc, b1, b2, b3, hres⟩
    · rw [hres]
      obtain ⟨-, hl⟩ := attach_listed a1 v.coordinate v.species pid hto1 hreg hloc
      intro p y1 y2 hp h1 h2
      rcases hl p y1 h1 with ⟨c1, -⟩ | ⟨c1, c2⟩ <;> rcases hl p y2 h2 with ⟨d1, -⟩ | ⟨d1, d2⟩
      · exact hu1 p y1 y2 hp c1 d1
      · subst d1
        exact absurd c1 (not_listed_of_get_coord_none s1 p hp hgc y1)
      · subst c1
        exact absurd d1 (not_listed_of_get_coord_none s1 p hp hgc y2)
      · rw [c2, d2]
    · rw [hres]
      obtain ⟨-, hl⟩ := reattach_listed a1 from_ v.coordinate psp v.species pid b1 hto1 b2 hreg hloc
      have hfrom : listed s1 pid from_ := ⟨psp, b3⟩
      intro p y1 y2 hp h1 h2
      rcases hl p y1 h1 with ⟨c1, c2⟩ | ⟨c1, c2, c3⟩ | ⟨c1, c2, c3⟩ <;>
        rcases hl p y2 h2 with ⟨d1, d2⟩ | ⟨d1, d2, d3⟩ | ⟨d1, d2, d3⟩
      · rw [c2, d2]
      · subst c1
        exact absurd (hu1 p y2 from_ hp d1 hfrom) d2
      · subst c1
        exact absurd (hu1 p from_ v.coordinate hp hfrom d3) d2
      · subst d1
        exact absurd (hu1 p y1 from_ hp c1 hfrom) c2
      · exact hu1 p y1 y2 hp c1 d1
      · exact absurd (hu1 p y1 v.coordinate hp c1 d3) c3
      · subst d1
        exact absurd (hu1 p from_ v.coordinate hp hfrom c3) c2
      · exact absurd (hu1 p y2 v.coordinate hp d1 c3) d3
      · rw [c1, d1]

theorem unique_detach {s : OffLatticeSpace K} (hwf : store_wf s) (hu : pids_unique s) (c : Int)
    (sp : Species) (hc : s.is_in_range c = true)
    (hV : s.get_voxel_pool_at c = PoolRef.molecular sp) :
    pids_unique ((((s.remove_voxel_if_exists (PoolRef.molecular sp) c).2).set_voxel c
      (s.location (PoolRef.molecular sp))).add_voxel
      (s.location (PoolRef.molecular sp)) (0, c)) := by
  intro p y1 y2 hp h1 h2
  rcases detach_listed hwf c sp hc hV p y1 h1 with ⟨c1, -⟩ | ⟨c1, -⟩
  · rcases detach_listed hwf c sp hc hV p y2 h2 with ⟨d1, -⟩ | ⟨d1, -⟩
    · exact hu p y1 y2 hp c1 d1
    · exact absurd d1 hp
  · exact absurd c1 hp

theorem unique_remove_coord {s : OffLatticeSpace K} (hwf : store_wf s) (hu : pids_unique s)
    (c : Int) : pids_unique (s.remove_voxel_coord c).2 := by
  unfold remove_voxel_coord
  by_cases hc : s.is_in_range c = true
  · simp only [hc, Bool.not_true, Bool.false_eq_true, if_false]
    cases hV : s.get_voxel_pool_at c with
    | vacant => simpa [is_vacant] using hu
    | structural x => exact absurd hV (wf_not_structural hwf c hc x)
    | molecular sp =>
      have h1 := remove_fst_true s sp c (by rw [wf_count_of_claim hwf c sp hc hV]; exact Nat.one_pos)
      simp only [is_vacant, Bool.false_eq_true, if_false, h1, if_true]
      have e1 : (s.remove_voxel_if_exists (PoolRef.molecular sp) c).2.location
          (PoolRef.molecular sp) = s.location (PoolRef.molecular sp) :=
        same_frame_location (same_frame_remove s _ c) _
      rw [set_voxel_location, e1]
      exact unique_detach hwf hu c sp hc hV
  · simpa [hc] using hu

theorem unique_remove_scan {s : OffLatticeSpace K} (hwf : store_wf s) (hu : pids_unique s)
    (pid : ParticleID) (keys : List Species) : pids_unique (s.remove_voxel_scan pid keys).2 := by
  induction keys with
  | nil => exact hu
  | cons sp rest ih =>
    simp only [remove_voxel_scan]
    cases hf : find_pid (s.pool_voxels (PoolRef.molecular sp)) pid with
    | none => exact ih
    | some c =>
      have hmem := find_pid_mem _ _ _ hf
      have hpos : 0 < occupant_count s (PoolRef.molecular sp) c :=
        count_at_pos_of_mem _ _ hmem
      obtain ⟨hc, hV⟩ := wf_claim_of_count hwf c sp hpos
      have h1 := remove_fst_true s sp c hpos
      simp only [h1, Bool.not_true, Bool.false_eq_true, if_false]
      have e1 : (s.remove_voxel_if_exists (PoolRef.molecular sp) c).2.location
          (PoolRef.molecular sp) = s.location (PoolRef.molecular sp) :=
        same_frame_location (same_frame_remove s _ c) _
      rw [set_voxel_location, e1]
      exact unique_detach hwf hu c sp hc hV

theorem unique_move {s : OffLatticeSpace K} (hwf : store_wf s) (hu : pids_unique s)
    (src dest : Int) (candidate : Nat) : pids_unique (s.move src dest candidate).2 := by
  by_cases hsd : src = dest
  · have : (s.move src dest candidate).2 = s := by unfold move; simp [hsd]
    rw [this]; exact hu
  by_cases hs : s.is_in_range src = true
  swap
  · have : (s.move src dest candidate).2 = s := by unfold move; simp [hsd, hs]
    rw [this]; exact hu
  cases hV : s.get_voxel_pool_at src with
  | vacant =>
    have : (s.move src dest candidate).2 = s := by unfold move; simp [hsd, hs, hV, is_vacant]
    rw [this]; exact hu
  | structural x => exact absurd hV (wf_not_structural hwf src hs x)
  | molecular ssp =>
    by_cases hd : s.is_in_range dest = true
    swap
    · have : (s.move src dest candidate).2 = s := by
        unfold move; simp [hsd, hs, hV, is_vacant, hd]
      rw [this]; exact hu
    by_cases hloc : s.get_voxel_pool_at dest = s.location (PoolRef.molecular ssp)
    swap
    · have : (s.move src dest candidate).2 = s := by
        unfold move; simp [hsd, hs, hV, is_vacant, hd, hloc]
      rw [this]; exact hu
    intro p y1 y2 hp h1 h2
    rcases move_listed hwf src dest candidate ssp hsd hs hd hV hloc p y1 h1 with
      ⟨c1, c2, c3⟩ | ⟨c1, c2⟩ | ⟨c1, c2⟩ <;>
    rcases move_listed hwf src dest candidate ssp hsd hs hd hV hloc p y2 h2 with
      ⟨d1, d2, d3⟩ | ⟨d1, d2⟩ | ⟨d1, d2⟩
    · exact hu p y1 y2 hp c1 d1
    · exact absurd (hu p y1 src hp c1 d2) c2
    · exact absurd (hu p y1 dest hp c1 d2) c3
    · exact absurd (hu p y2 src hp d1 c2) d2
    · rw [c1, d1]
    · exact absurd (hu p src dest hp c2 d2) hsd
    · exact absurd (hu p y2 dest hp d1 c2) d3
    · exact absurd (hu p src dest hp d2 c2) hsd
    · rw [c1, d1]

theorem unique_run [LinearOrderedField K] {s : OffLatticeSpace K} (hwf : store_wf s)
    (hu : pids_unique s) (call : StoreCall K) : pids_unique (call.run s) := by
  cases call with
  | update pid v => exact unique_update hwf hu pid v
  | remove_pid pid => exact unique_remove_scan hwf hu pid _
  | remove_coord coord => exact unique_remove_coord hwf hu coord
  | move src dest candidate => exact unique_move hwf hu src dest candidate

theorem unique_run_calls [LinearOrderedField K] (calls : List (StoreCall K))
    {s : OffLatticeSpace K} (hwf : store_wf s) (hu : pids_unique s) :
    pids_unique (run_calls s calls) := by
  induction calls generalizing s with
  | nil => exact hu
  | cons call rest ih => exact ih (wf_run hwf call) (unique_run hwf hu call)

theorem unique_freshly_reset {s : OffLatticeSpace K} (h : freshly_reset s) : pids_unique s := by
  obtain ⟨voxel_radius, positions, pairs, hreset⟩ := h
  have hm : s.molecule_pools = [] := by
    have := (reset_pairs_frame
      ({ OffLatticeSpace.empty voxel_radius with
          voxels := List.replicate positions.length PoolRef.vacant, positions := positions,
          adjoinings := List.replicate positions.length [] } : OffLatticeSpace K) pairs).2.2
    have e : (OffLatticeSpace.empty voxel_radius).reset positions pairs =
        OffLatticeSpace.reset_pairs ({ OffLatticeSpace.empty voxel_radius with
          voxels := List.replicate positions.length PoolRef.vacant, positions := positions,
          adjoinings := List.replicate positions.length [] } : OffLatticeSpace K) pairs := rfl
    rw [← e, hreset] at this
    exact this
  intro p y1 y2 _ h1 _
  obtain ⟨x, h1⟩ := h1
  simp only [pool_voxels, hm, map_find] at h1
  cases h1

theorem reachable_wf [LinearOrderedField K] {s : OffLatticeSpace K} (h : reachable s) :
    store_wf s ∧ pids_unique s := by
  obtain ⟨s0, calls, hfresh, -, rfl⟩ := h
  exact ⟨wf_run_calls calls (wf_freshly_reset hfresh),
    unique_run_calls calls (wf_freshly_reset hfresh) (unique_freshly_reset hfresh)⟩

theorem registry_of_wf {s : OffLatticeSpace K} (hwf : store_wf s) : registry_built s :=
  ⟨hwf.1, hwf.2.1, hwf.2.2.1⟩

theorem exists_mem_of_count_pos (l : List (ParticleID × Int)) (c : Int)
    (h : 0 < count_at l c) : ∃ e, e ∈ l ∧ e.2 = c := by
  induction l with
  | nil => simp [count_at] at h
  | cons x rest ih =>
    by_cases hx : x.2 = c
    · exact ⟨x, List.mem_cons_self _ _, hx⟩
    · simp only [count_at, if_neg hx, Nat.zero_add] at h
      obtain ⟨e, he, hc⟩ := ih h
      exact ⟨e, List.mem_cons_of_mem _ he, hc⟩

/-- On a registry as `get_voxel_pool` builds it, the occupancy invariant gives
the facts `store_wf`. -/
theorem wf_of_invariant {s : OffLatticeSpace K} (hinv : occupancy_invariant s)
    (hreg : registry_built s) : store_wf s := by
  obtain ⟨h1, h2, h3⟩ := hinv
  refine ⟨hreg.1, hreg.2.1, hreg.2.2, ?_, ?_⟩
  · intro i x hi
    have hlt : i < s.voxels.length := by
      rcases Nat.lt_or_ge i s.voxels.length with h | h
      · exact h
      · rw [List.get?_eq_none.mpr h] at hi
        cases hi
    have hr : s.is_in_range (i : Int) = true := by
      rw [in_range_iff]
      omega
    obtain ⟨vp, ⟨hg, hp⟩, -⟩ := h1 (i : Int) hr
    rw [Int.toNat_ofNat, hi] at hg
    rw [← Option.some.inj hg] at hp
    simp only [pool_registered, hreg.1, map_find] at hp
    cases hp
  · intro sp coord
    by_cases hc : s.is_in_range coord = true ∧ s.get_voxel_pool_at coord = PoolRef.molecular sp
    · rw [if_pos hc]
      exact h3 coord (PoolRef.molecular sp) hc.1 hc.2 (by simp)
    · rw [if_neg hc]
      by_contra hne
      have hpos : 0 < occupant_count s (PoolRef.molecular sp) coord := Nat.pos_of_ne_zero hne
      obtain ⟨e, he, hec⟩ := exists_mem_of_count_pos _ _ hpos
      simp only [pool_voxels] at he
      cases hm : map_find s.molecule_pools sp with
      | none =>
        rw [hm] at he
        cases he
      | some p =>
        rw [hm] at he
        have := h2 sp p (mem_of_map_find _ _ _ hm) e he
        rw [hec] at this
        exact hc this

/-! ### The result of `update_voxel` -/

theorem get_coord_congr {s t : OffLatticeSpace K} (hs : store_wf s)
    (ht : store_wf t) (hut : pids_unique t)
    (h : ∀ sp, t.pool_voxels (PoolRef.molecular sp) = s.pool_voxels (PoolRef.molecular sp))
    (pid : ParticleID) : t.get_coord pid = s.get_coord pid := by
  by_cases hp : pid = 0
  · simp [get_coord, hp]
  · cases hc : s.get_coord pid with
    | none =>
      apply get_coord_none_of_not_listed ht
      intro c hl
      obtain ⟨x, hx⟩ := hl
      rw [h] at hx
      exact not_listed_of_get_coord_none s pid hp hc c ⟨x, hx⟩
    | some c =>
      obtain ⟨x, hx⟩ := listed_of_get_coord hs pid c hc
      rw [← h] at hx
      exact get_coord_of_listed ht hut pid c hp ⟨x, hx⟩

/-- C13 (as the code has it): on a store state that satisfies the occupancy
invariant, with a registry as `get_voxel_pool` builds it, and that lists no
non-null particle identity twice, a call `update_voxel(pid, v)` for a non-null
`pid` that does not throw returns `true` exactly when `get_coord(pid)` found
nothing before the call and `false` exactly when it found a coordinate;
afterwards `get_coord(pid)` is `v.coordinate` and `v.coordinate` is claimed by
the registered molecular pool of `v.species`. -/
theorem update_voxel_result [LinearOrderedField K] (s s2 : OffLatticeSpace K)
    (pid : ParticleID) (v : Voxel K) (b : Bool) (hinv : occupancy_invariant s)
    (hreg : registry_built s) (hu : pids_unique s) (hpid : pid ≠ 0)
    (hres : s.update_voxel pid v = (.ok b, s2)) :
    (b = true ↔ s.get_coord pid = none) ∧
    (b = false ↔ ∃ c, s.get_coord pid = some c) ∧
    s2.get_coord pid = some v.coordinate ∧
    s2.get_voxel_pool_at v.coordinate = PoolRef.molecular v.species ∧
    (map_find s2.molecule_pools v.species).isSome = true := by
  have hwf := wf_of_invariant hinv hreg
  have hwf2 : store_wf s2 := by
    have := wf_update hwf pid v
    rw [hres] at this
    exact this
  have hu2 : pids_unique s2 := by
    have := unique_update hwf hu pid v
    rw [hres] at this
    exact this
  rcases update_voxel_cases hwf pid v with ⟨e, he, -⟩ | ⟨s1, a1, hext, hto1, hreg, hloc, hc⟩
  · rw [hres] at he
    cases he
  · have hu1 : pids_unique s1 := unique_of_pool_voxels hext.2.2.2.2.2 hu
    have hgc := get_coord_congr hwf a1 hu1 hext.2.2.2.2.2 pid
    rcases hc with ⟨hnone, hst⟩ | ⟨from_, psp, hsome, b1, b2, b3, hst⟩
    · rw [hst] at hres
      injection hres with e1 e2
      injection e1 with e1
      subst e1
      rw [hgc] at hnone
      have hl := (attach_listed a1 v.coordinate v.species pid hto1 hreg hloc).1
      obtain ⟨-, hat, -⟩ := attach_state s1 v.coordinate v.species pid hto1 hreg
      rw [e2] at hl hat
      have hV := hat v.coordinate hto1
      rw [if_pos rfl] at hV
      have hr2 : s2.is_in_range v.coordinate = true :=
        (wf_claim_of_mem hwf2 v.species _ (by
          obtain ⟨x, hx⟩ := hl
          have := (wf_claim_of_mem hwf2 x _ hx).2
          simp only at this
          rw [hV] at this
          rw [PoolRef.molecular.inj this]
          exact hx)).1
      refine ⟨by simp [hnone], by simp [hnone], get_coord_of_listed hwf2 hu2 pid _ hpid hl,
        hV, wf_registered hwf2 _ _ hr2 hV⟩
    · rw [hst] at hres
      injection hres with e1 e2
      injection e1 with e1
      subst e1
      rw [hgc] at hsome
      have hl := (reattach_listed a1 from_ v.coordinate psp v.species pid b1 hto1 b2 hreg hloc).1
      obtain ⟨-, hat, -⟩ := reattach_state s1 from_ v.coordinate psp v.species pid b1 hto1 hreg
      rw [e2] at hl hat
      have hV := hat v.coordinate hto1
      rw [if_pos rfl] at hV
      have hr2 : s2.is_in_range v.coordinate = true :=
        (wf_claim_of_mem hwf2 v.species _ (by
          obtain ⟨x, hx⟩ := hl
          have := (wf_claim_of_mem hwf2 x _ hx).2
          simp only at this
          rw [hV] at this
          rw [PoolRef.molecular.inj this]
          exact hx)).1
      refine ⟨by simp [hsome], by simp [hsome], get_coord_of_listed hwf2 hu2 pid _ hpid hl,
        hV, wf_registered hwf2 _ _ hr2 hV⟩

/-- The store `square_store` is freshly reset. -/
theorem square_store_fresh : freshly_reset square_store :=
  ⟨1 / 2, [⟨0, 0, 0⟩, ⟨1, 0, 0⟩, ⟨1, 1, 0⟩, ⟨0, 1, 0⟩], [(0, 1), (1, 2), (2, 3), (3, 0)], rfl⟩

theorem square_store_reachable : reachable square_store :=
  ⟨square_store, [], square_store_fresh, trivial, rfl⟩

theorem occupied_store_reachable : reachable occupied_store :=
  ⟨square_store, [StoreCall.update 1 ⟨"A", 0, 1 / 2, 1, ""⟩], square_store_fresh,
    ⟨trivial, trivial⟩, rfl⟩

/-- An instance of C13: the insertion of particle 1 of species "A" at
coordinate 0 of `square_store`. -/
theorem update_voxel_result_witness :
    occupancy_invariant square_store ∧ registry_built square_store ∧
    pids_unique square_store ∧ (1 : ParticleID) ≠ 0 ∧
    square_store.update_voxel 1 ⟨"A", 0, 1 / 2, 1, ""⟩ = (.ok true, occupied_store) ∧
    square_store.get_coord 1 = none ∧ occupied_store.get_coord 1 = some 0 ∧
    occupied_store.get_voxel_pool_at 0 = PoolRef.molecular "A" :=
  have hwf := reachable_wf square_store_reachable
  have h := update_voxel_result square_store occupied_store 1 ⟨"A", 0, 1 / 2, 1, ""⟩ true
    (occupancy_of_wf hwf.1) (registry_of_wf hwf.1) hwf.2 (by decide) rfl
  ⟨occupancy_of_wf hwf.1, registry_of_wf hwf.1, hwf.2, by decide, rfl, h.1.mp rfl, h.2.2.1,
    h.2.2.2.1⟩

theorem duplicate_store_claims (coord : Int) :
    (duplicate_store.is_in_range coord = true ∧
      duplicate_store.get_voxel_pool_at coord = PoolRef.molecular "A") ↔
    (coord = 1 ∨ coord = 2) := by
  constructor
  · rintro ⟨hr, hV⟩
    rw [in_range_iff] at hr
    have hlen : (duplicate_store.voxels.length : Int) = 4 := rfl
    rw [hlen] at hr
    have h : coord = 0 ∨ coord = 1 ∨ coord = 2 ∨ coord = 3 := by omega
    rcases h with rfl | rfl | rfl | rfl
    · exact absurd hV (by decide)
    · exact Or.inl rfl
    · exact Or.inr rfl
    · exact absurd hV (by decide)
  · rintro (rfl | rfl)
    · exact ⟨rfl, rfl⟩
    · exact ⟨rfl, rfl⟩

theorem duplicate_store_wf : store_wf duplicate_store := by
  refine ⟨rfl, by decide, ?_, ?_, ?_⟩
  · intro sp pool h
    have hp : pool = ⟨PoolRef.vacant, 1 / 2, 1, [(1, 1), (1, 2)]⟩ := by
      simp only [duplicate_store, map_find] at h
      split_ifs at h
      · injection h with h
        exact h.symm
    subst hp
    exact ⟨by simp, by simp, by simp⟩
  · intro i x h
    have := List.get?_mem h
    simp [duplicate_store] at this
  · intro sp coord
    by_cases hsp : sp = "A"
    · subst hsp
      have hc : occupant_count duplicate_store (PoolRef.molecular "A") coord =
          (if (1 : Int) = coord then 1 else 0) + ((if (2 : Int) = coord then 1 else 0) + 0) := rfl
      rw [hc]
      by_cases h1 : coord = 1
      · subst h1
        rfl
      · by_cases h2 : coord = 2
        · subst h2
          rfl
        · have hno : ¬ (duplicate_store.is_in_range coord = true ∧
              duplicate_store.get_voxel_pool_at coord = PoolRef.molecular "A") := by
            rw [duplicate_store_claims]
            rintro (h | h)
            · exact h1 h
            · exact h2 h
          rw [if_neg hno, if_neg (fun h => h1 h.symm), if_neg (fun h => h2 h.symm)]
    · have hc : occupant_count duplicate_store (PoolRef.molecular sp) coord = 0 := by
        have hm : map_find duplicate_store.molecule_pools sp = none := by
          simp only [duplicate_store, map_find]
          rw [if_neg (fun h => hsp h.symm)]
        simp only [occupant_count, pool_voxels, hm]
        rfl
      rw [hc, if_neg]
      rintro ⟨hr, hV⟩
      rw [in_range_iff] at hr
      have hlen : (duplicate_store.voxels.length : Int) = 4 := rfl
      rw [hlen] at hr
      have h : coord = 0 ∨ coord = 1 ∨ coord = 2 ∨ coord = 3 := by omega
      rcases h with rfl | rfl | rfl | rfl
      · have : PoolRef.vacant = PoolRef.molecular sp := hV
        exact PoolRef.noConfusion this
      · have : PoolRef.molecular "A" = PoolRef.molecular sp := hV
        exact hsp (PoolRef.molecular.inj this).symm
      · have : PoolRef.molecular "A" = PoolRef.molecular sp := hV
        exact hsp (PoolRef.molecular.inj this).symm
      · have : PoolRef.vacant = PoolRef.molecular sp := hV
        exact PoolRef.noConfusion this

/-- The program reaches `duplicate_store`: it is the state after
`update_voxel(1, A@0)`, a `reset` with the same positions and pairs,
`update_voxel(1, A@1)`, `update_voxel(1, A@2)` and `remove_voxel(1)` on
`square_store`. -/
theorem duplicate_store_reached :
    ((((((square_store.update_voxel 1 ⟨"A", 0, 1 / 2, 1, ""⟩).2.reset
      [⟨0, 0, 0⟩, ⟨1, 0, 0⟩, ⟨1, 1, 0⟩, ⟨0, 1, 0⟩] [(0, 1), (1, 2), (2, 3), (3, 0)]).2.update_voxel 1
      ⟨"A", 1, 1 / 2, 1, ""⟩).2.update_voxel 1 ⟨"A", 2, 1 / 2, 1, ""⟩).2.remove_voxel_pid 1).2) =
    duplicate_store := rfl

/-- C13 fails as stated: `duplicate_store` satisfies the occupancy invariant (on
a registry as `get_voxel_pool` builds it) and lists the non-null particle 1 at
the coordinates 1 and 2; `update_voxel` of particle 1 to the species "A" at the
vacant coordinate 0 does not throw and returns `false` (moved), and afterwards
`get_coord(1)` is 2, not the coordinate 0 of the voxel. -/
theorem update_voxel_duplicate_id :
    occupancy_invariant duplicate_store ∧ registry_built duplicate_store ∧
    (1 : ParticleID) ≠ 0 ∧ duplicate_store.get_coord 1 = some 1 ∧
    (duplicate_store.update_voxel 1 ⟨"A", 0, 1 / 2, 1, ""⟩).1 = .ok false ∧
    (duplicate_store.update_voxel 1 ⟨"A", 0, 1 / 2, 1, ""⟩).2.get_coord 1 = some 2 ∧
    (duplicate_store.update_voxel 1 ⟨"A", 0, 1 / 2, 1, ""⟩).2.get_coord 1 ≠
      some (⟨"A", 0, 1 / 2, 1, ""⟩ : Voxel ℚ).coordinate :=
  ⟨occupancy_of_wf duplicate_store_wf, registry_of_wf duplicate_store_wf, by decide, rfl, rfl,
    rfl, by decide⟩

/-! ### The result of `move` -/

/-- C14 (as the code has it): for in-range `src` and `dest`, `move(src, dest,
candidate)` returns `true` exactly when `can_move(src, dest)` holds or `src`
differs from `dest` and is vacant; when it returns `false`, and when `src` is
vacant, the store is unchanged. -/
theorem move_true_iff (s : OffLatticeSpace K) (src dest : Int) (candidate : Nat)
    (hsrc : s.is_in_range src = true) (hdest : s.is_in_range dest = true) :
    ∃ b, (s.move src dest candidate).1 = .ok b ∧
      (b = true ↔ (s.can_move src dest = .ok true ∨
        (src ≠ dest ∧ s.get_voxel_pool_at src = PoolRef.vacant))) ∧
      (b = false → (s.move src dest candidate).2 = s) ∧
      (s.get_voxel_pool_at src = PoolRef.vacant → (s.move src dest candidate).2 = s) := by
  unfold move can_move
  by_cases hsd : src = dest
  · simp [hsd]
  · simp only [hsd, if_false, hsrc, hdest, Bool.not_true, Bool.false_eq_true]
    cases hV : s.get_voxel_pool_at src with
    | vacant => simp [is_vacant, hsd]
    | structural x =>
      by_cases hm : s.get_voxel_pool_at dest = s.location (PoolRef.structural x)
      · simp [is_vacant, hm]
      · simp [is_vacant, hm]
    | molecular x =>
      by_cases hm : s.get_voxel_pool_at dest = s.location (PoolRef.molecular x)
      · simp [is_vacant, hm]
      · simp [is_vacant, hm]

/-- An instance of C14 (as the code has it) on `square_store`. -/
theorem move_true_iff_witness :
    square_store.is_in_range 0 = true ∧ square_store.is_in_range 1 = true ∧
    ∃ b, (square_store.move 0 1 0).1 = .ok b ∧
      (b = true ↔ (square_store.can_move 0 1 = .ok true ∨
        ((0 : Int) ≠ 1 ∧ square_store.get_voxel_pool_at 0 = PoolRef.vacant))) ∧
      (b = false → (square_store.move 0 1 0).2 = square_store) ∧
      (square_store.get_voxel_pool_at 0 = PoolRef.vacant →
        (square_store.move 0 1 0).2 = square_store) :=
  ⟨rfl, rfl, move_true_iff square_store 0 1 0 rfl rfl⟩

/-- C14 fails as stated: on `square_store`, where coordinate 0 is vacant,
`can_move(0, 1)` is `false` and `move(0, 1, 0)` returns `true`. -/
theorem move_vacant_returns_true :
    square_store.get_voxel_pool_at 0 = PoolRef.vacant ∧
    square_store.can_move 0 1 = .ok false ∧
    square_store.move 0 1 0 = (.ok true, square_store) :=
  ⟨rfl, rfl, rfl⟩

/-- What detaching the entry at `c` achieves. -/
theorem detach_result {s : OffLatticeSpace K} (hwf : store_wf s) (hu : pids_unique s) (c : Int)
    (sp : Species) (hc : s.is_in_range c = true)
    (hV : s.get_voxel_pool_at c = PoolRef.molecular sp) :
    ((((s.remove_voxel_if_exists (PoolRef.molecular sp) c).2).set_voxel c
      (s.location (PoolRef.molecular sp))).add_voxel
      (s.location (PoolRef.molecular sp)) (0, c)).get_voxel_pool_at c =
      s.location (PoolRef.molecular sp) ∧
    occupant_count ((((s.remove_voxel_if_exists (PoolRef.molecular sp) c).2).set_voxel c
      (s.location (PoolRef.molecular sp))).add_voxel
      (s.location (PoolRef.molecular sp)) (0, c)) (PoolRef.molecular sp) c = 0 ∧
    ∀ pid, (pid, c) ∈ s.pool_voxels (PoolRef.molecular sp) →
      ((((s.remove_voxel_if_exists (PoolRef.molecular sp) c).2).set_voxel c
      (s.location (PoolRef.molecular sp))).add_voxel
      (s.location (PoolRef.molecular sp)) (0, c)).get_coord pid = none := by
  have hwf2 := wf_detach hwf c sp hc hV
  obtain ⟨hrange, hat, -⟩ := detach_state hwf c sp hc hV
  have hreg := wf_registered hwf c sp hc hV
  obtain ⟨l1, -, -⟩ := wf_location hwf sp hreg
  have hVc := hat c hc
  rw [if_pos rfl] at hVc
  refine ⟨hVc, ?_, ?_⟩
  · rw [hwf2.2.2.2.2 sp c, if_neg]
    rintro ⟨-, h⟩
    rw [hVc] at h
    exact l1 h
  · intro pid hmem
    by_cases hp : pid = 0
    · subst hp
      simp [get_coord]
    · apply get_coord_none_of_not_listed hwf2
      intro y hl
      rcases detach_listed hwf c sp hc hV pid y hl with ⟨h1, h2⟩ | ⟨h1, -⟩
      · exact h2 (hu pid y c hp h1 ⟨sp, hmem⟩)
      · exact hp h1

/-- The scan of `remove_voxel(pid)` on a well-formed store. -/
theorem remove_voxel_scan_result {s : OffLatticeSpace K} (hwf : store_wf s)
    (hu : pids_unique s) (pid : ParticleID) (keys : List Species) :
    ((s.remove_voxel_scan pid keys).1 = true ↔
      ∃ sp c, sp ∈ keys ∧ (pid, c) ∈ s.pool_voxels (PoolRef.molecular sp)) ∧
    ((s.remove_voxel_scan pid keys).1 = true → ∃ c sp,
      (pid, c) ∈ s.pool_voxels (PoolRef.molecular sp) ∧
      (s.remove_voxel_scan pid keys).2.get_voxel_pool_at c = s.location (PoolRef.molecular sp) ∧
      occupant_count (s.remove_voxel_scan pid keys).2 (PoolRef.molecular sp) c = 0 ∧
      (s.remove_voxel_scan pid keys).2.get_coord pid = none) ∧
    ((s.remove_voxel_scan pid keys).1 = false → (s.remove_voxel_scan pid keys).2 = s) := by
  induction keys with
  | nil => simp [remove_voxel_scan]
  | cons sp rest ih =>
    simp only [remove_voxel_scan]
    cases hf : find_pid (s.pool_voxels (PoolRef.molecular sp)) pid with
    | none =>
      simp only
      obtain ⟨i1, i2, i3⟩ := ih
      refine ⟨?_, i2, i3⟩
      rw [i1]
      constructor
      · rintro ⟨x, c, hx, hmem⟩
        exact ⟨x, c, List.mem_cons_of_mem _ hx, hmem⟩
      · rintro ⟨x, c, hx, hmem⟩
        rcases List.mem_cons.mp hx with rfl | hx
        · obtain ⟨c2, hc2⟩ := find_pid_some_of_mem _ _ _ hmem
          rw [hf] at hc2
          cases hc2
        · exact ⟨x, c, hx, hmem⟩
    | some c =>
      have hmem := find_pid_mem _ _ _ hf
      have hpos : 0 < occupant_count s (PoolRef.molecular sp) c :=
        count_at_pos_of_mem _ _ hmem
      obtain ⟨hc, hV⟩ := wf_claim_of_count hwf c sp hpos
      have h1 := remove_fst_true s sp c hpos
      simp only [h1, Bool.not_true, Bool.false_eq_true, if_false]
      have e1 : (s.remove_voxel_if_exists (PoolRef.molecular sp) c).2.location
          (PoolRef.molecular sp) = s.location (PoolRef.molecular sp) :=
        same_frame_location (same_frame_remove s _ c) _
      rw [set_voxel_location, e1]
      obtain ⟨d1, d2, d3⟩ := detach_result hwf hu c sp hc hV
      refine ⟨?_, ?_, ?_⟩
      · simp only [true_iff]
        exact ⟨sp, c, List.mem_cons_self _ _, hmem⟩
      · intro _
        exact ⟨c, sp, hmem, d1, d2, d3 pid hmem⟩
      · intro h
        cases h

/-- C16 (as the code has it): on a store state that satisfies the occupancy
invariant, with a registry as `get_voxel_pool` builds it, and that lists no
non-null particle identity twice, `remove_voxel(pid)` returns `true` exactly
when `pid` is listed by a pool, and `remove_voxel(coord)` on an in-range
coordinate returns `true` exactly when the coordinate is claimed by a
non-vacant pool; on `true` the coordinate is afterwards claimed by the location
of the pool the entry was removed from, that pool has no entry at the
coordinate and `get_coord` finds nothing for the removed particle; on `false`
the store is unchanged. -/
theorem remove_voxel_result [LinearOrderedField K] (s : OffLatticeSpace K)
    (hinv : occupancy_invariant s) (hreg : registry_built s) (hu : pids_unique s) :
    (∀ pid, ((s.remove_voxel_pid pid).1 = true ↔ ∃ c, listed s pid c) ∧
      ((s.remove_voxel_pid pid).1 = true → ∃ c sp,
        (pid, c) ∈ s.pool_voxels (PoolRef.molecular sp) ∧
        (s.remove_voxel_pid pid).2.get_voxel_pool_at c = s.location (PoolRef.molecular sp) ∧
        occupant_count (s.remove_voxel_pid pid).2 (PoolRef.molecular sp) c = 0 ∧
        (s.remove_voxel_pid pid).2.get_coord pid = none) ∧
      ((s.remove_voxel_pid pid).1 = false → (s.remove_voxel_pid pid).2 = s)) ∧
    (∀ c, s.is_in_range c = true → ∃ b, (s.remove_voxel_coord c).1 = .ok b ∧
      (b = true ↔ s.get_voxel_pool_at c ≠ PoolRef.vacant) ∧
      (b = true →
        (s.remove_voxel_coord c).2.get_voxel_pool_at c = s.location (s.get_voxel_pool_at c) ∧
        occupant_count (s.remove_voxel_coord c).2 (s.get_voxel_pool_at c) c = 0 ∧
        ∀ pid, (pid, c) ∈ s.pool_voxels (s.get_voxel_pool_at c) →
          (s.remove_voxel_coord c).2.get_coord pid = none) ∧
      (b = false → (s.remove_voxel_coord c).2 = s)) := by
  have hwf := wf_of_invariant hinv hreg
  constructor
  · intro pid
    obtain ⟨i1, i2, i3⟩ := remove_voxel_scan_result hwf hu pid (s.molecule_pools.map Prod.fst)
    refine ⟨?_, i2, i3⟩
    rw [remove_voxel_pid, i1]
    constructor
    · rintro ⟨sp, c, -, hmem⟩
      exact ⟨c, sp, hmem⟩
    · rintro ⟨c, sp, hmem⟩
      refine ⟨sp, c, ?_, hmem⟩
      by_contra hno
      have := (map_find_none_iff s.molecule_pools sp).mpr hno
      simp only [pool_voxels, this] at hmem
      cases hmem
  · intro c hc
    unfold remove_voxel_coord
    simp only [hc, Bool.not_true, Bool.false_eq_true, if_false]
    cases hV : s.get_voxel_pool_at c with
    | vacant => exact ⟨false, by simp [is_vacant]⟩
    | structural x => exact absurd hV (wf_not_structural hwf c hc x)
    | molecular sp =>
      have h1 := remove_fst_true s sp c (by rw [wf_count_of_claim hwf c sp hc hV]; exact Nat.one_pos)
      simp only [is_vacant, Bool.false_eq_true, if_false, h1, if_true]
      have e1 : (s.remove_voxel_if_exists (PoolRef.molecular sp) c).2.location
          (PoolRef.molecular sp) = s.location (PoolRef.molecular sp) :=
        same_frame_location (same_frame_remove s _ c) _
      rw [set_voxel_location, e1]
      obtain ⟨d1, d2, d3⟩ := detach_result hwf hu c sp hc hV
      exact ⟨true, rfl, by simp, fun _ => ⟨d1, d2, d3⟩, fun h => by cases h⟩

/-- An instance of C16 on `occupied_store`: removing particle 1, the absent
particle 2, the occupied coordinate 0 and the vacant coordinate 1. -/
theorem remove_voxel_result_witness :
    occupancy_invariant occupied_store ∧ registry_built occupied_store ∧
    pids_unique occupied_store ∧ (occupied_store.remove_voxel_pid 1).1 = true ∧
    (occupied_store.remove_voxel_pid 1).2.get_coord 1 = none ∧
    (occupied_store.remove_voxel_pid 1).2.get_voxel_pool_at 0 = PoolRef.vacant ∧
    (occupied_store.remove_voxel_pid 2).1 = false ∧
    (occupied_store.remove_voxel_coord 0).1 = .ok true ∧
    (occupied_store.remove_voxel_coord 1).1 = .ok false ∧
    ((occupied_store.remove_voxel_pid 2).1 = false →
      (occupied_store.remove_voxel_pid 2).2 = occupied_store) :=
  have hwf := reachable_wf occupied_store_reachable
  ⟨occupancy_of_wf hwf.1, registry_of_wf hwf.1, hwf.2, rfl, rfl, rfl, rfl, rfl, rfl,
    ((remove_voxel_result occupied_store (occupancy_of_wf hwf.1) (registry_of_wf hwf.1)
      hwf.2).1 2).2.2⟩

/-- C16 fails as stated: `duplicate_store` satisfies the occupancy invariant (on
a registry as `get_voxel_pool` builds it) and lists particle 1 at the
coordinates 1 and 2; `remove_voxel(pid)` of particle 1 returns `true` and
vacates the coordinate 1, and afterwards `get_coord(1)` is 2, not 'not found'. -/
theorem remove_voxel_duplicate_id :
    occupancy_invariant duplicate_store ∧ registry_built duplicate_store ∧
    (duplicate_store.remove_voxel_pid 1).1 = true ∧
    (duplicate_store.remove_voxel_pid 1).2.get_voxel_pool_at 1 = PoolRef.vacant ∧
    (duplicate_store.remove_voxel_pid 1).2.get_coord 1 = some 2 ∧
    (duplicate_store.remove_voxel_pid 1).2.get_coord 1 ≠ none :=
  ⟨occupancy_of_wf duplicate_store_wf, registry_of_wf duplicate_store_wf, rfl, rfl, rfl,
    by decide⟩

/-! ### The nearest coordinate -/

theorem position2coordinate_loop_spec [LinearOrderedField K] (sqrt : K → K)
    (positions : List (Real3 K)) (pos : Real3 K) :
    ∀ (k start r : Nat) (pr : Real3 K), start + k = positions.length → r < start →
      positions.get? r = some pr →
      (∀ c pc, c < start → positions.get? c = some pc →
        length sqrt (pr.sub pos) ≤ length sqrt (pc.sub pos)) →
      (∀ c pc, c < r → positions.get? c = some pc →
        length sqrt (pr.sub pos) < length sqrt (pc.sub pos)) →
      ∃ (r2 : Nat) (pr2 : Real3 K), position2coordinate_loop sqrt positions pos (List.range' start k)
          ((r : Int), length sqrt (pr.sub pos)) = .ok (r2 : Int) ∧
        r2 < positions.length ∧ positions.get? r2 = some pr2 ∧
        (∀ c pc, positions.get? c = some pc →
          length sqrt (pr2.sub pos) ≤ length sqrt (pc.sub pos)) ∧
        (∀ c pc, c < r2 → positions.get? c = some pc →
          length sqrt (pr2.sub pos) < length sqrt (pc.sub pos)) := by
  intro k
  induction k with
  | zero =>
    intro start r pr hlen hr hpr hle hlt
    refine ⟨r, pr, rfl, by omega, hpr, ?_, hlt⟩
    intro c pc hc
    have hc2 : c < positions.length := by
      rcases Nat.lt_or_ge c positions.length with h | h
      · exact h
      · rw [List.get?_eq_none.mpr h] at hc; cases hc
    exact hle c pc (by omega) hc
  | succ k ih =>
    intro start r pr hlen hr hpr hle hlt
    have hstart : start < positions.length := by omega
    obtain ⟨p, hp⟩ : ∃ p, positions.get? start = some p :=
      ⟨_, List.get?_eq_get hstart⟩
    have hstep : position2coordinate_loop sqrt positions pos (List.range' start (k + 1))
        ((r : Int), length sqrt (pr.sub pos)) =
        if length sqrt (p.sub pos) < length sqrt (pr.sub pos) then
          position2coordinate_loop sqrt positions pos (List.range' (start + 1) k)
            ((start : Int), length sqrt (p.sub pos))
        else position2coordinate_loop sqrt positions pos (List.range' (start + 1) k)
            ((r : Int), length sqrt (pr.sub pos)) := by
      simp only [List.range', position2coordinate_loop, hp]
    rw [hstep]
    by_cases hcmp : length sqrt (p.sub pos) < length sqrt (pr.sub pos)
    · rw [if_pos hcmp]
      refine ih (start + 1) start p (by omega) (by omega) hp ?_ ?_
      · intro c pc hc hpc
        rcases Nat.lt_or_ge c start with h | h
        · exact le_trans (le_of_lt hcmp) (hle c pc h hpc)
        · have : c = start := by omega
          subst this
          rw [hp] at hpc
          cases hpc
          exact le_refl _
      · intro c pc hc hpc
        exact lt_of_lt_of_le hcmp (hle c pc hc hpc)
    · rw [if_neg hcmp]
      refine ih (start + 1) r pr (by omega) (by omega) hpr ?_ hlt
      intro c pc hc hpc
      rcases Nat.lt_or_ge c start with h | h
      · exact hle c pc h hpc
      · have : c = start := by omega
        subst this
        rw [hp] at hpc
        cases hpc
        exact not_lt.mp hcmp

/-- C17: on a store with at least one coordinate whose position table has one
entry per coordinate, `position2coordinate(pos)` returns an in-range coordinate
`r` whose position is at least as close to `pos` as the position of every
coordinate, and strictly closer than the position of every coordinate below
`r`. -/
theorem position2coordinate_nearest [LinearOrderedField K] (sqrt : K → K)
    (s : OffLatticeSpace K) (pos : Real3 K)
    (hsize : s.positions.length = s.size) (hpos : 0 < s.size) :
    ∃ r pr, s.position2coordinate sqrt pos = .ok r ∧ s.is_in_range r = true ∧
      s.positions.get? r.toNat = some pr ∧
      (∀ c pc, s.is_in_range c = true → s.positions.get? c.toNat = some pc →
        length sqrt (pr.sub pos) ≤ length sqrt (pc.sub pos)) ∧
      (∀ c pc, s.is_in_range c = true → c < r → s.positions.get? c.toNat = some pc →
        length sqrt (pr.sub pos) < length sqrt (pc.sub pos)) := by
  have h0 : 0 < s.positions.length := by omega
  obtain ⟨p0, hp0⟩ : ∃ p, s.positions.get? 0 = some p := ⟨_, List.get?_eq_get h0⟩
  obtain ⟨r2, pr2, hrun, hr2, hpr2, hle, hlt⟩ :=
    position2coordinate_loop_spec sqrt s.positions pos (s.size - 1) 1 0 p0 (by omega)
      (by omega) hp0
      (by
        intro c pc hc hpc
        have : c = 0 := by omega
        subst this
        rw [hp0] at hpc
        cases hpc
        exact le_refl _)
      (by intro c pc hc; omega)
  refine ⟨(r2 : Int), pr2, ?_, ?_, by simpa using hpr2, ?_, ?_⟩
  · simp only [position2coordinate, hp0]
    exact hrun
  · rw [in_range_iff]
    have : s.voxels.length = s.positions.length := by rw [hsize]; rfl
    omega
  · intro c pc _ hpc
    exact hle c.toNat pc hpc
  · intro c pc hc hcr hpc
    rw [in_range_iff] at hc
    exact hlt c.toNat pc (by omega) hpc

/-- An instance of C17 on the four-coordinate cycle store over the reals, for
the point (1, 2, 0). -/
theorem position2coordinate_nearest_witness :
    (cycle_store ℝ).positions.length = (cycle_store ℝ).size ∧ 0 < (cycle_store ℝ).size ∧
    ∃ r pr, (cycle_store ℝ).position2coordinate Real.sqrt ⟨1, 2, 0⟩ = .ok r ∧
      (cycle_store ℝ).is_in_range r = true ∧
      (cycle_store ℝ).positions.get? r.toNat = some pr ∧
      (∀ c pc, (cycle_store ℝ).is_in_range c = true →
        (cycle_store ℝ).positions.get? c.toNat = some pc →
        length Real.sqrt (pr.sub ⟨1, 2, 0⟩) ≤ length Real.sqrt (pc.sub ⟨1, 2, 0⟩)) ∧
      (∀ c pc, (cycle_store ℝ).is_in_range c = true → c < r →
        (cycle_store ℝ).positions.get? c.toNat = some pc →
        length Real.sqrt (pr.sub ⟨1, 2, 0⟩) < length Real.sqrt (pc.sub ⟨1, 2, 0⟩)) :=
  ⟨rfl, by decide, position2coordinate_nearest Real.sqrt (cycle_store ℝ) ⟨1, 2, 0⟩ rfl (by decide)⟩

/-! ### The tables after `reset` -/

/-- C18: `reset(positions, adjoining_pairs)` with `N` positions throws
`IllegalState` exactly when a pair has a coordinate outside `[0, N)` and throws
nothing else; when it succeeds the position table is the given list and, for
all coordinates `a`, `b`, the coordinate `b` occurs in the neighbour list of `a`
exactly when `a` occurs in the neighbour list of `b`, and exactly when `(a, b)`
or `(b, a)` is among the given pairs. -/
theorem reset_adjacency (s : OffLatticeSpace K) (positions : List (Real3 K))
    (pairs : List (Int × Int)) :
    ((s.reset positions pairs).1 = .error Error.IllegalState ↔
      ∃ p, p ∈ pairs ∧ ¬ (0 ≤ p.1 ∧ p.1 < (positions.length : Int) ∧
        0 ≤ p.2 ∧ p.2 < (positions.length : Int))) ∧
    ((s.reset positions pairs).1 = .ok () ∨
      (s.reset positions pairs).1 = .error Error.IllegalState) ∧
    ((s.reset positions pairs).1 = .ok () →
      (s.reset positions pairs).2.positions = positions ∧
      (s.reset positions pairs).2.size = positions.length ∧
      ∀ a b, 0 ≤ a → a < (positions.length : Int) → 0 ≤ b → b < (positions.length : Int) →
        (b ∈ adjoinings_at (s.reset positions pairs).2 a ↔
          a ∈ adjoinings_at (s.reset positions pairs).2 b) ∧
        (b ∈ adjoinings_at (s.reset positions pairs).2 a ↔
          (a, b) ∈ pairs ∨ (b, a) ∈ pairs)) := by
  obtain ⟨cleared, hcl⟩ : ∃ cleared : OffLatticeSpace K, cleared =
      { s with voxels := List.replicate positions.length PoolRef.vacant, positions := positions,
               adjoinings := List.replicate positions.length [] } := ⟨_, rfl⟩
  have hreset : s.reset positions pairs = cleared.reset_pairs pairs := by rw [hcl]; rfl
  have hvox : cleared.voxels.length = positions.length := by rw [hcl]; simp
  have hadj : cleared.adjoinings.length = cleared.voxels.length := by rw [hcl]; simp
  have hpos : cleared.positions = positions := by rw [hcl]
  have hrange : ∀ c, cleared.is_in_range c = true ↔ 0 ≤ c ∧ c < (positions.length : Int) := by
    intro c
    rw [in_range_iff, hvox]
  have hempty : ∀ a x, x ∉ adjoinings_at cleared a := by
    intro a x
    rw [hcl]
    simp only [adjoinings_at, List.getD_eq_getElem?_getD]
    cases h : (List.replicate positions.length ([] : List Int))[a.toNat]? with
    | none => simp
    | some l =>
      have := List.getElem?_mem h
      rw [List.mem_replicate] at this
      rw [this.2]
      simp
  obtain ⟨i1, i2, i3, i4⟩ := reset_pairs_spec pairs cleared hadj
  rw [hreset]
  refine ⟨?_, i1, ?_⟩
  · constructor
    · intro herr
      by_contra hno
      have : (cleared.reset_pairs pairs).1 = .ok () := by
        rw [i2]
        intro p hp
        by_contra hbad
        apply hno
        refine ⟨p, hp, ?_⟩
        intro hin
        apply hbad
        exact ⟨(hrange _).mpr ⟨hin.1, hin.2.1⟩, (hrange _).mpr ⟨hin.2.2.1, hin.2.2.2⟩⟩
      rw [this] at herr
      cases herr
    · rintro ⟨p, hp, hbad⟩
      rcases i1 with hok | herr
      · exfalso
        apply hbad
        have := (i2.mp hok) p hp
        have h1 := (hrange _).mp this.1
        have h2 := (hrange _).mp this.2
        exact ⟨h1.1, h1.2, h2.1, h2.2⟩
      · exact herr
  · intro hok
    refine ⟨by rw [i3, hpos], ?_, ?_⟩
    · have := (reset_pairs_frame cleared pairs).1
      simp only [size]
      rw [this, hvox]
    · intro a b ha0 ha hb0 hb
      have hra := (hrange a).mpr ⟨ha0, ha⟩
      have hrb := (hrange b).mpr ⟨hb0, hb⟩
      have hab := i4 hok a b hra hrb
      have hba := i4 hok b a hrb hra
      have e1 := hempty a b
      have e2 := hempty b a
      constructor
      · rw [hab, hba]
        simp only [e1, e2, false_or]
        exact or_comm
      · rw [hab]
        simp only [e1, false_or]

/-- An instance of C18: the four-coordinate cycle store is built without an
exception, coordinate 0 has the neighbours 1 and 3, and a pair naming the
coordinate 4 is rejected. -/
theorem reset_adjacency_witness :
    ((OffLatticeSpace.empty (1 / 2 : ℚ)).reset
      [⟨0, 0, 0⟩, ⟨1, 0, 0⟩, ⟨1, 1, 0⟩, ⟨0, 1, 0⟩] [(0, 1), (1, 2), (2, 3), (3, 0)]).1 = .ok () ∧
    adjoinings_at square_store 0 = [1, 3] ∧
    ((1 : Int) ∈ adjoinings_at square_store 0 ↔ (0 : Int) ∈ adjoinings_at square_store 1) ∧
    ((OffLatticeSpace.empty (1 / 2 : ℚ)).reset
      [⟨0, 0, 0⟩, ⟨1, 0, 0⟩, ⟨1, 1, 0⟩, ⟨0, 1, 0⟩] [(0, 1), (3, 4)]).1 =
      .error Error.IllegalState :=
  ⟨rfl, rfl,
    (((reset_adjacency (OffLatticeSpace.empty (1 / 2 : ℚ))
      [⟨0, 0, 0⟩, ⟨1, 0, 0⟩, ⟨1, 1, 0⟩, ⟨0, 1, 0⟩] [(0, 1), (1, 2), (2, 3), (3, 0)]).2.2 rfl).2.2
      0 1 (by decide) (by decide) (by decide) (by decide)).1,
    rfl⟩

/-- C19 (as the code has it): after a successful `reset` every coordinate is
claimed by the vacant pool and the registered pools are as before the call,
occupant lists included, so that `get_coord` answers as before. -/
theorem reset_keeps_pools (s : OffLatticeSpace K) (positions : List (Real3 K))
    (pairs : List (Int × Int)) (_hok : (s.reset positions pairs).1 = .ok ()) :
    (∀ c, (s.reset positions pairs).2.is_in_range c = true →
      (s.reset positions pairs).2.get_voxel_pool_at c = PoolRef.vacant) ∧
    (s.reset positions pairs).2.voxel_pools = s.voxel_pools ∧
    (s.reset positions pairs).2.molecule_pools = s.molecule_pools ∧
    ∀ pid, (s.reset positions pairs).2.get_coord pid = s.get_coord pid := by
  obtain ⟨cleared, hcl⟩ : ∃ cleared : OffLatticeSpace K, cleared =
      { s with voxels := List.replicate positions.length PoolRef.vacant,
               positions := positions,
               adjoinings := List.replicate positions.length [] } := ⟨_, rfl⟩
  have hreset : s.reset positions pairs = cleared.reset_pairs pairs := by rw [hcl]; rfl
  obtain ⟨f1, f2, f3⟩ := reset_pairs_frame cleared pairs
  have hv : (cleared.reset_pairs pairs).2.voxels =
      List.replicate positions.length PoolRef.vacant := by rw [f1, hcl]
  have hm : (cleared.reset_pairs pairs).2.molecule_pools = s.molecule_pools := by rw [f3, hcl]
  rw [hreset]
  refine ⟨?_, by rw [f2, hcl], hm, ?_⟩
  · intro c _
    simp only [get_voxel_pool_at, hv, List.getD_eq_getElem?_getD]
    cases h : (List.replicate positions.length PoolRef.vacant)[c.toNat]? with
    | none => rfl
    | some vp =>
      have := List.getElem?_mem h
      rw [List.mem_replicate] at this
      rw [this.2]
      rfl
  · intro pid
    simp only [get_coord, hm]

/-- An instance of C19 (as the code has it) on `occupied_store`. -/
theorem reset_keeps_pools_witness :
    (occupied_store.reset [⟨0, 0, 0⟩, ⟨1, 0, 0⟩] [(0, 1)]).1 = .ok () ∧
    (occupied_store.reset [⟨0, 0, 0⟩, ⟨1, 0, 0⟩] [(0, 1)]).2.molecule_pools =
      occupied_store.molecule_pools :=
  ⟨rfl, (reset_keeps_pools occupied_store [⟨0, 0, 0⟩, ⟨1, 0, 0⟩] [(0, 1)] rfl).2.2.1⟩

/-- C19 fails as stated: `occupied_store` is reachable and holds particle 1 at
coordinate 0; after a successful `reset` every coordinate is vacant, the pool
"A" still lists particle 1 at coordinate 0 and `get_coord(1)` answers 0. -/
theorem reset_leaves_occupants :
    occupied_store = run_calls square_store [StoreCall.update 1 ⟨"A", 0, 1 / 2, 1, ""⟩] ∧
    (occupied_store.reset [⟨0, 0, 0⟩, ⟨1, 0, 0⟩] [(0, 1)]).1 = .ok () ∧
    (occupied_store.reset [⟨0, 0, 0⟩, ⟨1, 0, 0⟩] [(0, 1)]).2.voxels =
      [PoolRef.vacant, PoolRef.vacant] ∧
    (occupied_store.reset [⟨0, 0, 0⟩, ⟨1, 0, 0⟩] [(0, 1)]).2.pool_voxels (PoolRef.molecular "A") =
      [(1, 0)] ∧
    (occupied_store.reset [⟨0, 0, 0⟩, ⟨1, 0, 0⟩] [(0, 1)]).2.get_coord 1 = some 0 :=
  ⟨rfl, rfl, rfl, rfl, rfl⟩

/-! ### The pool of a species -/

/-- C20 (as the code has it): for a species registered in the structural map
`voxel_pools_`, `get_voxel_pool` returns that structural pool and leaves the
store unchanged; `make_molecular_pool` throws `IllegalState` for such a species
when it is not registered as a molecular pool. -/
theorem get_voxel_pool_structural [LinearOrderedField K] (s : OffLatticeSpace K) (v : Voxel K)
    (h : (map_find s.voxel_pools v.species).isSome = true) :
    s.get_voxel_pool v = (.ok (PoolRef.structural v.species), s) ∧
    (map_find s.molecule_pools v.species = none →
      s.make_molecular_pool v.species v.radius v.D v.loc = (.error Error.IllegalState, s)) := by
  constructor
  · unfold get_voxel_pool
    simp only [h, if_true]
  · intro hm
    unfold make_molecular_pool
    simp [h, hm]

/-- An instance of C20 (as the code has it) on `structured_store`. -/
theorem get_voxel_pool_structural_witness :
    (map_find structured_store.voxel_pools "S").isSome = true ∧
    structured_store.get_voxel_pool ⟨"S", 0, 1 / 2, 0, ""⟩ =
      (.ok (PoolRef.structural "S"), structured_store) :=
  ⟨rfl, (get_voxel_pool_structural structured_store ⟨"S", 0, 1 / 2, 0, ""⟩ rfl).1⟩

/-- C20 fails as stated: in `structured_store` the species "S" is registered in
the structural map and `get_voxel_pool` returns its pool. -/
theorem get_voxel_pool_returns_structural :
    (map_find structured_store.voxel_pools "S").isSome = true ∧
    (structured_store.get_voxel_pool ⟨"S", 0, 1 / 2, 0, ""⟩).1 = .ok (PoolRef.structural "S") :=
  ⟨rfl, rfl⟩

end StoreContracts

section BaryBehaviour

variable {K : Type} [LinearOrderedField K]

/-! ### The failures of `force_put_inside` -/

theorem clamp_fold_spec (b : Barycentric K) :
    ((List.range 3).foldl clamp_step (b, fun _ => false)).1 =
      ⟨clamped b.v0, clamped b.v1, clamped b.v2⟩ ∧
    ((List.range 3).foldl clamp_step (b, fun _ => false)).2 0 = is_over b.v0 ∧
    ((List.range 3).foldl clamp_step (b, fun _ => false)).2 1 = is_over b.v1 ∧
    ((List.range 3).foldl clamp_step (b, fun _ => false)).2 2 = is_over b.v2 := by
  rw [clamp_fold]
  obtain ⟨x, y, z⟩ := b
  by_cases hx0 : x < 0 <;> by_cases hx1 : x > 1 <;> by_cases hy0 : y < 0 <;>
    by_cases hy1 : y > 1 <;> by_cases hz0 : z < 0 <;> by_cases hz1 : z > 1 <;>
    simp [clamp_step, Barycentric.set, Barycentric.val, Function.update, clamped, is_over,
      hx0, hx1, hy0, hy1, hz0, hz1]

/-- The body of `force_put_inside` after the two tests, in terms of the
clamped components. -/
theorem force_put_inside_outside (b : Barycentric K)
    (hplane : on_plane b default_tolerance = true) (hout : is_inside b = false) :
    force_put_inside b =
      if is_over b.v0 = false then
        .ok ⟨1 - clamped b.v1 - clamped b.v2, clamped b.v1, clamped b.v2⟩
      else if is_over b.v1 = false then
        .ok ⟨clamped b.v0, 1 - clamped b.v0 - clamped b.v2, clamped b.v2⟩
      else if is_over b.v2 = false then
        .ok ⟨clamped b.v0, clamped b.v1, 1 - clamped b.v0 - clamped b.v1⟩
      else .error Error.InvalidArgument := by
  obtain ⟨h1, h2, h3, h4⟩ := clamp_fold_spec b
  simp only [force_put_inside, hplane, hout, Bool.not_true, Bool.false_eq_true, if_false,
    h1, h2, h3, h4]
  cases is_over b.v0 <;> cases is_over b.v1 <;> cases is_over b.v2 <;>
    simp [Barycentric.set, Barycentric.val]

theorem is_over_iff (x : K) : is_over x = true ↔ x < 0 ∨ 1 < x := by
  simp [is_over]

theorem is_over_false_iff (x : K) : is_over x = false ↔ 0 ≤ x ∧ x ≤ 1 := by
  simp [is_over]

theorem forall_lt_three (P : Nat → Prop) : (∀ j, j < 3 → P j) ↔ P 0 ∧ P 1 ∧ P 2 := by
  constructor
  · intro h
    exact ⟨h 0 (by norm_num), h 1 (by norm_num), h 2 (by norm_num)⟩
  · rintro ⟨h0, h1, h2⟩ j hj
    rcases three_cases hj with rfl | rfl | rfl
    · exact h0
    · exact h1
    · exact h2

theorem exists_lt_three (P : Nat → Prop) : (∃ j, j < 3 ∧ P j) ↔ P 0 ∨ P 1 ∨ P 2 := by
  constructor
  · rintro ⟨j, hj, h⟩
    rcases three_cases hj with rfl | rfl | rfl
    · exact Or.inl h
    · exact Or.inr (Or.inl h)
    · exact Or.inr (Or.inr h)
  · rintro (h | h | h)
    · exact ⟨0, by norm_num, h⟩
    · exact ⟨1, by norm_num, h⟩
    · exact ⟨2, by norm_num, h⟩

/-- C21 (as the code has it): for an on-plane point that is not inside the
triangle, `force_put_inside` throws `InvalidArgument` exactly when each of the
three components lies outside `[0, 1]`, and returns a value exactly when some
component lies in `[0, 1]`.  The value: when `j` is the first component in
`[0, 1]`, each other component is clamped into `[0, 1]` (0 below 0, 1 above 1,
itself otherwise) and the component `j` is recomputed so that the three sum to
1. -/
theorem force_put_inside_fails_iff (b : Barycentric K)
    (hplane : on_plane b default_tolerance = true) (hout : is_inside b = false) :
    (force_put_inside b = .error Error.InvalidArgument ↔
      ∀ j, j < 3 → b.val j < 0 ∨ 1 < b.val j) ∧
    ((∃ r, force_put_inside b = .ok r) ↔ ∃ j, j < 3 ∧ 0 ≤ b.val j ∧ b.val j ≤ 1) ∧
    (∀ j, j < 3 → 0 ≤ b.val j → b.val j ≤ 1 →
      (∀ i, i < j → b.val i < 0 ∨ 1 < b.val i) →
      ∃ r, force_put_inside b = .ok r ∧
        (∀ i, i < 3 → i ≠ j →
          r.val i = if b.val i < 0 then 0 else if b.val i > 1 then 1 else b.val i) ∧
        r.val 0 + r.val 1 + r.val 2 = 1) := by
  refine ⟨?_, ?_, ?_⟩
  · rw [force_put_inside_outside b hplane hout, forall_lt_three]
    simp only [val_zero, val_one, val_two, ← is_over_iff]
    cases is_over b.v0 <;> cases is_over b.v1 <;> cases is_over b.v2 <;> simp
  · rw [force_put_inside_outside b hplane hout, exists_lt_three]
    simp only [val_zero, val_one, val_two, ← is_over_false_iff]
    cases is_over b.v0 <;> cases is_over b.v1 <;> cases is_over b.v2 <;> simp
  · intro j hj h0 h1 hfirst
    rw [force_put_inside_outside b hplane hout]
    rcases three_cases hj with rfl | rfl | rfl
    · have e0 : is_over b.v0 = false := (is_over_false_iff _).mpr ⟨h0, h1⟩
      rw [if_pos e0]
      refine ⟨_, rfl, ?_, ?_⟩
      · intro i hi hne
        rcases three_cases hi with rfl | rfl | rfl
        · exact absurd rfl hne
        · rfl
        · rfl
      · simp only [val_zero, val_one, val_two]
        ring
    · have e0 : is_over b.v0 = true := (is_over_iff _).mpr (hfirst 0 (by norm_num))
      have e1 : is_over b.v1 = false := (is_over_false_iff _).mpr ⟨h0, h1⟩
      rw [if_neg (by rw [e0]; decide), if_pos e1]
      refine ⟨_, rfl, ?_, ?_⟩
      · intro i hi hne
        rcases three_cases hi with rfl | rfl | rfl
        · rfl
        · exact absurd rfl hne
        · rfl
      · simp only [val_zero, val_one, val_two]
        ring
    · have e0 : is_over b.v0 = true := (is_over_iff _).mpr (hfirst 0 (by norm_num))
      have e1 : is_over b.v1 = true := (is_over_iff _).mpr (hfirst 1 (by norm_num))
      have e2 : is_over b.v2 = false := (is_over_false_iff _).mpr ⟨h0, h1⟩
      rw [if_neg (by rw [e0]; decide), if_neg (by rw [e1]; decide), if_pos e2]
      refine ⟨_, rfl, ?_, ?_⟩
      · intro i hi hne
        rcases three_cases hi with rfl | rfl | rfl
        · rfl
        · rfl
        · exact absurd rfl hne
      · simp only [val_zero, val_one, val_two]
        ring

/-- Instances of C21 (as the code has it): at (2, -1/2, -1/2) no component lies
in `[0, 1]` and the call throws; at (3/2, 1/4, -3/4) the component 1 is the
first in `[0, 1]` and the call returns (1, 0, 0). -/
theorem force_put_inside_fails_iff_witness :
    on_plane (⟨2, -1 / 2, -1 / 2⟩ : Barycentric ℚ) default_tolerance = true ∧
    is_inside (⟨2, -1 / 2, -1 / 2⟩ : Barycentric ℚ) = false ∧
    force_put_inside (⟨2, -1 / 2, -1 / 2⟩ : Barycentric ℚ) = .error Error.InvalidArgument ∧
    force_put_inside (⟨3 / 2, 1 / 4, -3 / 4⟩ : Barycentric ℚ) = .ok ⟨1, 0, 0⟩ ∧
    ∃ r, force_put_inside (⟨3 / 2, 1 / 4, -3 / 4⟩ : Barycentric ℚ) = .ok r ∧
      (∀ i, i < 3 → i ≠ 1 →
        r.val i = if (⟨3 / 2, 1 / 4, -3 / 4⟩ : Barycentric ℚ).val i < 0 then 0
          else if (⟨3 / 2, 1 / 4, -3 / 4⟩ : Barycentric ℚ).val i > 1 then 1
          else (⟨3 / 2, 1 / 4, -3 / 4⟩ : Barycentric ℚ).val i) ∧
      r.val 0 + r.val 1 + r.val 2 = 1 :=
  ⟨by norm_num [on_plane, default_tolerance, Barycentric.val],
   by norm_num [is_inside, on_plane, default_tolerance, Barycentric.val],
   (force_put_inside_fails_iff ⟨2, -1 / 2, -1 / 2⟩
    (by norm_num [on_plane, default_tolerance, Barycentric.val])
    (by norm_num [is_inside, on_plane, default_tolerance, Barycentric.val])).1.mpr
    (by
      intro j hj
      rcases three_cases hj with rfl | rfl | rfl <;> norm_num [Barycentric.val]),
   by norm_num [force_put_inside, on_plane, default_tolerance, is_inside, clamp_fold,
      clamp_step, Barycentric.set, Barycentric.val, Function.update],
   (force_put_inside_fails_iff ⟨3 / 2, 1 / 4, -3 / 4⟩
    (by norm_num [on_plane, default_tolerance, Barycentric.val])
    (by norm_num [is_inside, on_plane, default_tolerance, Barycentric.val])).2.2 1
    (by norm_num) (by norm_num [Barycentric.val]) (by norm_num [Barycentric.val])
    (by
      intro i hi
      have h0 : i = 0 := by omega
      subst h0
      norm_num [Barycentric.val])⟩

/-- C21 fails as stated: the point (-1e-6, 0.5 + 1e-6, 0.5) is on the plane and
not inside the triangle, two of its components lie in `[0, 1]`, and
`force_put_inside` returns (0, 0.5, 0.5). -/
theorem force_put_inside_two_unclamped :
    on_plane example_outside default_tolerance = true ∧
    is_inside example_outside = false ∧
    (0 ≤ example_outside.val 1 ∧ example_outside.val 1 ≤ 1) ∧
    (0 ≤ example_outside.val 2 ∧ example_outside.val 2 ≤ 1) ∧
    force_put_inside example_outside = .ok ⟨0, 1 / 2, 1 / 2⟩ :=
  ⟨by norm_num [on_plane, default_tolerance, example_outside, Barycentric.val],
   by norm_num [is_inside, on_plane, default_tolerance, example_outside, Barycentric.val],
   by norm_num [example_outside, Barycentric.val],
   by norm_num [example_outside, Barycentric.val],
   by norm_num [force_put_inside, on_plane, default_tolerance, is_inside, clamp_fold,
      clamp_step, Barycentric.set, Barycentric.val, Function.update, example_outside]⟩

/-! ### The first exit of a trajectory -/

/-- The fraction `-p / d` at which a positive component `p` with `p + d ≤ 0`
reaches zero. -/
theorem crossing_fraction (p d : K) (hp : 0 < p) (hn : p + d ≤ 0) :
    d < 0 ∧ 0 < -p / d ∧ -p / d ≤ 1 ∧ p + -p / d * d = 0 ∧ (p + d < 0 → -p / d < 1) := by
  have hd : d < 0 := by linarith
  have hd0 : d ≠ 0 := ne_of_lt hd
  refine ⟨hd, div_pos_of_neg_of_neg (by linarith) hd, ?_, ?_, ?_⟩
  · rw [div_le_one_of_neg hd]
    linarith
  · rw [div_mul_cancel₀ _ hd0]
    ring
  · intro h
    rw [div_lt_one_of_neg hd]
    linarith

theorem before_crossing (p d s : K) (hd : d < 0) (hs : s ≤ -p / d) : 0 ≤ p + s * d := by
  have h1 : -p / d * d ≤ s * d := mul_le_mul_of_nonpos_right hs hd.le
  rw [div_mul_cancel₀ _ (ne_of_lt hd)] at h1
  linarith

theorem after_crossing (p d s : K) (hd : d < 0) (hs : -p / d < s) : p + s * d < 0 := by
  have h1 : s * d < -p / d * d := mul_lt_mul_of_neg_right hs hd
  rw [div_mul_cancel₀ _ (ne_of_lt hd)] at h1
  linarith

theorem between_inside (p d s : K) (hp : 0 < p) (hn : 0 ≤ p + d) (hs0 : 0 ≤ s) (hs1 : s ≤ 1) :
    0 ≤ p + s * d := by
  have h1 := mul_nonneg (sub_nonneg.mpr hs1) hp.le
  have h2 := mul_nonneg hs0 hn
  have e : p + s * d = (1 - s) * p + s * (p + d) := by ring
  rw [e]
  linarith

/-- The exit through the component `a`: it reaches zero at `t = -pa / da`, no
later than the component `b` does if that one turns negative at all, and the
component `k` stays non-negative. -/
theorem exit_through (pa pb pk da db dk : K) (hpa : 0 < pa) (hpb : 0 < pb) (hpk : 0 < pk)
    (hna : pa + da ≤ 0) (hnk : 0 ≤ pk + dk)
    (hnb : 0 ≤ pb + db ∨ (pb + db ≤ 0 ∧ -pa / da ≤ -pb / db))
    (hneg : pa + da < 0 ∨ (pb + db < 0 ∧ pb + db ≤ 0 ∧ -pa / da ≤ -pb / db)) :
    0 < -pa / da ∧ -pa / da < 1 ∧ pa + -pa / da * da = 0 ∧
    (∀ s, 0 ≤ s → s ≤ -pa / da → 0 ≤ pa + s * da ∧ 0 ≤ pb + s * db ∧ 0 ≤ pk + s * dk) ∧
    ∀ s, -pa / da < s → pa + s * da < 0 := by
  obtain ⟨hda, ht0, ht1, hzero, hlt⟩ := crossing_fraction pa da hpa hna
  have htlt : -pa / da < 1 := by
    rcases hneg with h | ⟨h1, h2, h3⟩
    · exact hlt h
    · exact lt_of_le_of_lt h3 ((crossing_fraction pb db hpb h2).2.2.2.2 h1)
  refine ⟨ht0, htlt, hzero, ?_, fun s hs => after_crossing pa da s hda hs⟩
  intro s hs0 hst
  refine ⟨before_crossing pa da s hda hst, ?_, between_inside pk dk s hpk hnk hs0 (by linarith)⟩
  rcases hnb with h | ⟨h1, h2⟩
  · exact between_inside pb db s hpb h hs0 (by linarith)
  · exact before_crossing pb db s (crossing_fraction pb db hpb h1).1 (le_trans hst h2)

/-- The conclusion of C24 for the edge `e` opposite to the component `a`, the
other two components being `b` and `k`. -/
theorem exit_edge (pos disp : Barycentric K) (e a b k : Nat)
    (hperm : ∀ j, j < 3 → j = a ∨ j = b ∨ j = k) (he : e < 3) (hopp : opposite_index e = a)
    (hfce : first_cross_edge pos disp = .ok (e, -(pos.val a) / disp.val a))
    (hpa : 0 < pos.val a) (hpb : 0 < pos.val b) (hpk : 0 < pos.val k)
    (hna : pos.val a + disp.val a ≤ 0) (hnk : 0 ≤ pos.val k + disp.val k)
    (hnb : 0 ≤ pos.val b + disp.val b ∨ (pos.val b + disp.val b ≤ 0 ∧
      -(pos.val a) / disp.val a ≤ -(pos.val b) / disp.val b))
    (hneg : pos.val a + disp.val a < 0 ∨ (pos.val b + disp.val b < 0 ∧
      pos.val b + disp.val b ≤ 0 ∧ -(pos.val a) / disp.val a ≤ -(pos.val b) / disp.val b)) :
    ∃ (e : Nat) (t : K), first_cross_edge pos disp = .ok (e, t) ∧ e < 3 ∧ 0 < t ∧ t < 1 ∧
      pos.val (opposite_index e) + t * disp.val (opposite_index e) = 0 ∧
      (∀ j, j < 3 → 0 ≤ pos.val j + t * disp.val j) ∧
      (∀ s, 0 ≤ s → s ≤ t → ∀ j, j < 3 → 0 ≤ pos.val j + s * disp.val j) ∧
      (∀ s, t < s → pos.val (opposite_index e) + s * disp.val (opposite_index e) < 0) := by
  obtain ⟨h1, h2, h3, h4, h5⟩ := exit_through (pos.val a) (pos.val b) (pos.val k)
    (disp.val a) (disp.val b) (disp.val k) hpa hpb hpk hna hnk hnb hneg
  have hall : ∀ s, 0 ≤ s → s ≤ -(pos.val a) / disp.val a → ∀ j, j < 3 →
      0 ≤ pos.val j + s * disp.val j := by
    intro s hs0 hst j hj
    obtain ⟨g1, g2, g3⟩ := h4 s hs0 hst
    rcases hperm j hj with rfl | rfl | rfl
    · exact g1
    · exact g2
    · exact g3
  refine ⟨e, -(pos.val a) / disp.val a, hfce, he, h1, h2, ?_, ?_, hall, ?_⟩
  · rw [hopp]; exact h3
  · exact hall _ h1.le (le_refl _)
  · rw [hopp]; exact h5

theorem perm_021 (j : Nat) (hj : j < 3) : j = 0 ∨ j = 2 ∨ j = 1 := by omega

theorem perm_102 (j : Nat) (hj : j < 3) : j = 1 ∨ j = 0 ∨ j = 2 := by omega

theorem perm_120 (j : Nat) (hj : j < 3) : j = 1 ∨ j = 2 ∨ j = 0 := by omega

theorem perm_201 (j : Nat) (hj : j < 3) : j = 2 ∨ j = 0 ∨ j = 1 := by omega

theorem perm_210 (j : Nat) (hj : j < 3) : j = 2 ∨ j = 1 ∨ j = 0 := by omega

/-- The first branch of `first_cross_edge`: only the component 0 of `pos + disp` is negative. -/
theorem first_exit_single_zero (pos disp : Barycentric K)
    (hp0 : 0 < pos.val 0) (hp1 : 0 < pos.val 1) (hp2 : 0 < pos.val 2)
    (hprod : (pos.add disp).val 0 * (pos.add disp).val 1 * (pos.add disp).val 2 < 0)
    (h0 : (pos.add disp).val 0 < 0) (h1 : 0 < (pos.add disp).val 1)
    (h2 : 0 < (pos.add disp).val 2) :
    ∃ (e : Nat) (t : K), first_cross_edge pos disp = .ok (e, t) ∧ e < 3 ∧ 0 < t ∧ t < 1 ∧
      pos.val (opposite_index e) + t * disp.val (opposite_index e) = 0 ∧
      (∀ j, j < 3 → 0 ≤ pos.val j + t * disp.val j) ∧
      (∀ s, 0 ≤ s → s ≤ t → ∀ j, j < 3 → 0 ≤ pos.val j + s * disp.val j) ∧
      (∀ s, t < s → pos.val (opposite_index e) + s * disp.val (opposite_index e) < 0) := by
  have a0 := h0
  have a1 := h1
  have a2 := h2
  rw [val_add] at a0 a1 a2
  refine exit_edge pos disp 1 0 1 2 (fun j hj => three_cases hj) (by norm_num) rfl ?_ hp0 hp1 hp2
    (le_of_lt a0) (le_of_lt a2) (Or.inl (le_of_lt a1)) (Or.inl a0)
  simp only [first_cross_edge, if_pos hprod, if_pos h0]
  rfl


/-- The first branch of `first_cross_edge`: only the component 1 of `pos + disp` is negative. -/
theorem first_exit_single_one (pos disp : Barycentric K)
    (hp0 : 0 < pos.val 0) (hp1 : 0 < pos.val 1) (hp2 : 0 < pos.val 2)
    (hprod : (pos.add disp).val 0 * (pos.add disp).val 1 * (pos.add disp).val 2 < 0)
    (h0 : 0 < (pos.add disp).val 0) (h1 : (pos.add disp).val 1 < 0)
    (h2 : 0 < (pos.add disp).val 2) :
    ∃ (e : Nat) (t : K), first_cross_edge pos disp = .ok (e, t) ∧ e < 3 ∧ 0 < t ∧ t < 1 ∧
      pos.val (opposite_index e) + t * disp.val (opposite_index e) = 0 ∧
      (∀ j, j < 3 → 0 ≤ pos.val j + t * disp.val j) ∧
      (∀ s, 0 ≤ s → s ≤ t → ∀ j, j < 3 → 0 ≤ pos.val j + s * disp.val j) ∧
      (∀ s, t < s → pos.val (opposite_index e) + s * disp.val (opposite_index e) < 0) := by
  have a0 := h0
  have a1 := h1
  have a2 := h2
  rw [val_add] at a0 a1 a2
  refine exit_edge pos disp 2 1 0 2 perm_102 (by norm_num) rfl ?_ hp1 hp0 hp2
    (le_of_lt a1) (le_of_lt a2) (Or.inl (le_of_lt a0)) (Or.inl a1)
  simp only [first_cross_edge, if_pos hprod, if_neg (not_lt.mpr h0.le), if_pos h1]
  rfl


/-- The first branch of `first_cross_edge`: only the component 2 of `pos + disp` is negative. -/
theorem first_exit_single_two (pos disp : Barycentric K)
    (hp0 : 0 < pos.val 0) (hp1 : 0 < pos.val 1) (hp2 : 0 < pos.val 2)
    (hprod : (pos.add disp).val 0 * (pos.add disp).val 1 * (pos.add disp).val 2 < 0)
    (h0 : 0 < (pos.add disp).val 0) (h1 : 0 < (pos.add disp).val 1)
    (h2 : (pos.add disp).val 2 < 0) :
    ∃ (e : Nat) (t : K), first_cross_edge pos disp = .ok (e, t) ∧ e < 3 ∧ 0 < t ∧ t < 1 ∧
      pos.val (opposite_index e) + t * disp.val (opposite_index e) = 0 ∧
      (∀ j, j < 3 → 0 ≤ pos.val j + t * disp.val j) ∧
      (∀ s, 0 ≤ s → s ≤ t → ∀ j, j < 3 → 0 ≤ pos.val j + s * disp.val j) ∧
      (∀ s, t < s → pos.val (opposite_index e) + s * disp.val (opposite_index e) < 0) := by
  have a0 := h0
  have a1 := h1
  have a2 := h2
  rw [val_add] at a0 a1 a2
  refine exit_edge pos disp 0 2 0 1 perm_201 (by norm_num) rfl ?_ hp2 hp0 hp1
    (le_of_lt a2) (le_of_lt a1) (Or.inl (le_of_lt a0)) (Or.inl a2)
  simp only [first_cross_edge, if_pos hprod, if_neg (not_lt.mpr h0.le),
      if_neg (not_lt.mpr h1.le), if_pos h2]
  rfl


/-- The second branch of `first_cross_edge` with the component 0 of `pos + disp` positive. -/
theorem first_exit_double_zero (pos disp : Barycentric K)
    (hp0 : 0 < pos.val 0) (hp1 : 0 < pos.val 1) (hp2 : 0 < pos.val 2)
    (hprod : ¬ (pos.add disp).val 0 * (pos.add disp).val 1 * (pos.add disp).val 2 < 0)
    (hk : 0 < (pos.add disp).val 0)
    (hx : (pos.add disp).val 1 ≤ 0) (hy : (pos.add disp).val 2 ≤ 0)
    (hneg : (pos.add disp).val 1 < 0 ∨ (pos.add disp).val 2 < 0) :
    ∃ (e : Nat) (t : K), first_cross_edge pos disp = .ok (e, t) ∧ e < 3 ∧ 0 < t ∧ t < 1 ∧
      pos.val (opposite_index e) + t * disp.val (opposite_index e) = 0 ∧
      (∀ j, j < 3 → 0 ≤ pos.val j + t * disp.val j) ∧
      (∀ s, 0 ≤ s → s ≤ t → ∀ j, j < 3 → 0 ≤ pos.val j + s * disp.val j) ∧
      (∀ s, t < s → pos.val (opposite_index e) + s * disp.val (opposite_index e) < 0) := by
  have hall : ¬ ((pos.add disp).val 0 > 0 ∧ (pos.add disp).val 1 > 0 ∧
      (pos.add disp).val 2 > 0) := by
    rintro ⟨c0, c1, c2⟩
    rcases hneg with h | h
    · exact absurd c1 (not_lt.mpr h.le)
    · exact absurd c2 (not_lt.mpr h.le)
  have hk0 : 0 ≤ (pos.add disp).val 0 := le_of_lt hk
  have qk := hk0
  have q1 := hx
  have q2 := hy
  have r := hneg
  rw [val_add] at qk q1 q2
  rw [val_add, val_add] at r
  by_cases hcmp : cross_section pos disp 0 > cross_section pos disp 2
  · have hcmp2 : -(pos.val 1) / disp.val 1 ≤ -(pos.val 2) / disp.val 2 :=
      le_of_lt hcmp
    refine exit_edge pos disp 2 1 2 0 perm_120 (by norm_num) rfl ?_ hp1 hp2 hp0
      q1 qk (Or.inr ⟨q2, hcmp2⟩) ?_
    · simp only [first_cross_edge, if_neg hprod, if_neg hall, if_pos hk, if_pos hcmp]
      rfl
    · rcases r with h | h
      · exact Or.inl h
      · exact Or.inr ⟨h, q2, hcmp2⟩
  · have hcmp2 : -(pos.val 2) / disp.val 2 ≤ -(pos.val 1) / disp.val 1 :=
      not_lt.mp hcmp
    refine exit_edge pos disp 0 2 1 0 perm_210 (by norm_num) rfl ?_ hp2 hp1 hp0
      q2 qk (Or.inr ⟨q1, hcmp2⟩) ?_
    · simp only [first_cross_edge, if_neg hprod, if_neg hall, if_pos hk, if_neg hcmp]
      rfl
    · rcases r with h | h
      · exact Or.inr ⟨h, q1, hcmp2⟩
      · exact Or.inl h


/-- The second branch of `first_cross_edge` with the component 1 of `pos + disp`
positive and the component 0 not. -/
theorem first_exit_double_one (pos disp : Barycentric K)
    (hp0 : 0 < pos.val 0) (hp1 : 0 < pos.val 1) (hp2 : 0 < pos.val 2)
    (hprod : ¬ (pos.add disp).val 0 * (pos.add disp).val 1 * (pos.add disp).val 2 < 0)
    (hk : 0 < (pos.add disp).val 1)
    (hx : (pos.add disp).val 0 ≤ 0) (hy : (pos.add disp).val 2 ≤ 0)
    (hneg : (pos.add disp).val 0 < 0 ∨ (pos.add disp).val 2 < 0) :
    ∃ (e : Nat) (t : K), first_cross_edge pos disp = .ok (e, t) ∧ e < 3 ∧ 0 < t ∧ t < 1 ∧
      pos.val (opposite_index e) + t * disp.val (opposite_index e) = 0 ∧
      (∀ j, j < 3 → 0 ≤ pos.val j + t * disp.val j) ∧
      (∀ s, 0 ≤ s → s ≤ t → ∀ j, j < 3 → 0 ≤ pos.val j + s * disp.val j) ∧
      (∀ s, t < s → pos.val (opposite_index e) + s * disp.val (opposite_index e) < 0) := by
  have hall : ¬ ((pos.add disp).val 0 > 0 ∧ (pos.add disp).val 1 > 0 ∧
      (pos.add disp).val 2 > 0) := by
    rintro ⟨c0, c1, c2⟩
    rcases hneg with h | h
    · exact absurd c0 (not_lt.mpr h.le)
    · exact absurd c2 (not_lt.mpr h.le)
  have hk0 : 0 ≤ (pos.add disp).val 1 := le_of_lt hk
  have qk := hk0
  have q0 := hx
  have q2 := hy
  have r := hneg
  rw [val_add] at qk q0 q2
  rw [val_add, val_add] at r
  by_cases hcmp : cross_section pos disp 1 > cross_section pos disp 0
  · have hcmp2 : -(pos.val 2) / disp.val 2 ≤ -(pos.val 0) / disp.val 0 :=
      le_of_lt hcmp
    refine exit_edge pos disp 0 2 0 1 perm_201 (by norm_num) rfl ?_ hp2 hp0 hp1
      q2 qk (Or.inr ⟨q0, hcmp2⟩) ?_
    · simp only [first_cross_edge, if_neg hprod, if_neg hall, if_neg (not_lt.mpr hx), if_pos hk,
        if_pos hcmp]
      rfl
    · rcases r with h | h
      · exact Or.inr ⟨h, q0, hcmp2⟩
      · exact Or.inl h
  · have hcmp2 : -(pos.val 0) / disp.val 0 ≤ -(pos.val 2) / disp.val 2 :=
      not_lt.mp hcmp
    refine exit_edge pos disp 1 0 2 1 perm_021 (by norm_num) rfl ?_ hp0 hp2 hp1
      q0 qk (Or.inr ⟨q2, hcmp2⟩) ?_
    · simp only [first_cross_edge, if_neg hprod, if_neg hall, if_neg (not_lt.mpr hx), if_pos hk,
        if_neg hcmp]
      rfl
    · rcases r with h | h
      · exact Or.inl h
      · exact Or.inr ⟨h, q2, hcmp2⟩


/-- The second branch of `first_cross_edge` with neither the component 0 nor the
component 1 of `pos + disp` positive. -/
theorem first_exit_double_two (pos disp : Barycentric K)
    (hp0 : 0 < pos.val 0) (hp1 : 0 < pos.val 1) (hp2 : 0 < pos.val 2)
    (hprod : ¬ (pos.add disp).val 0 * (pos.add disp).val 1 * (pos.add disp).val 2 < 0)
    (hk : 0 ≤ (pos.add disp).val 2)
    (hx : (pos.add disp).val 0 ≤ 0) (hy : (pos.add disp).val 1 ≤ 0)
    (hneg : (pos.add disp).val 0 < 0 ∨ (pos.add disp).val 1 < 0) :
    ∃ (e : Nat) (t : K), first_cross_edge pos disp = .ok (e, t) ∧ e < 3 ∧ 0 < t ∧ t < 1 ∧
      pos.val (opposite_index e) + t * disp.val (opposite_index e) = 0 ∧
      (∀ j, j < 3 → 0 ≤ pos.val j + t * disp.val j) ∧
      (∀ s, 0 ≤ s → s ≤ t → ∀ j, j < 3 → 0 ≤ pos.val j + s * disp.val j) ∧
      (∀ s, t < s → pos.val (opposite_index e) + s * disp.val (opposite_index e) < 0) := by
  have hall : ¬ ((pos.add disp).val 0 > 0 ∧ (pos.add disp).val 1 > 0 ∧
      (pos.add disp).val 2 > 0) := by
    rintro ⟨c0, c1, c2⟩
    rcases hneg with h | h
    · exact absurd c0 (not_lt.mpr h.le)
    · exact absurd c1 (not_lt.mpr h.le)

  have qk := hk
  have q0 := hx
  have q1 := hy
  have r := hneg
  rw [val_add] at qk q0 q1
  rw [val_add, val_add] at r
  by_cases hcmp : cross_section pos disp 2 > cross_section pos disp 1
  · have hcmp2 : -(pos.val 0) / disp.val 0 ≤ -(pos.val 1) / disp.val 1 :=
      le_of_lt hcmp
    refine exit_edge pos disp 1 0 1 2 (fun j hj => three_cases hj) (by norm_num) rfl ?_ hp0 hp1 hp2
      q0 qk (Or.inr ⟨q1, hcmp2⟩) ?_
    · simp only [first_cross_edge, if_neg hprod, if_neg hall, if_neg (not_lt.mpr hx),
        if_neg (not_lt.mpr hy), if_pos hcmp]
      rfl
    · rcases r with h | h
      · exact Or.inl h
      · exact Or.inr ⟨h, q1, hcmp2⟩
  · have hcmp2 : -(pos.val 1) / disp.val 1 ≤ -(pos.val 0) / disp.val 0 :=
      not_lt.mp hcmp
    refine exit_edge pos disp 2 1 0 2 perm_102 (by norm_num) rfl ?_ hp1 hp0 hp2
      q1 qk (Or.inr ⟨q0, hcmp2⟩) ?_
    · simp only [first_cross_edge, if_neg hprod, if_neg hall, if_neg (not_lt.mpr hx),
        if_neg (not_lt.mpr hy), if_neg hcmp]
      rfl
    · rcases r with h | h
      · exact Or.inr ⟨h, q0, hcmp2⟩
      · exact Or.inl h


/-- C24: for a position with three positive components summing to 1 and a
displacement summing to 0 such that `pos + disp` has a negative component,
`first_cross_edge` returns an edge `e` and a fraction `t` with `0 < t < 1`; at
`pos + t * disp` the component opposite to `e` is 0 and the three components
are non-negative; the components are non-negative on the whole of `[0, t]` and
the component opposite to `e` is negative after `t`. -/
theorem first_cross_edge_first_exit (pos disp : Barycentric K)
    (hpos : ∀ j, j < 3 → 0 < pos.val j)
    (hsum : pos.val 0 + pos.val 1 + pos.val 2 = 1)
    (hdisp : disp.val 0 + disp.val 1 + disp.val 2 = 0)
    (hout : ∃ j, j < 3 ∧ (pos.add disp).val j < 0) :
    ∃ (e : Nat) (t : K), first_cross_edge pos disp = .ok (e, t) ∧ e < 3 ∧ 0 < t ∧ t < 1 ∧
      pos.val (opposite_index e) + t * disp.val (opposite_index e) = 0 ∧
      (∀ j, j < 3 → 0 ≤ pos.val j + t * disp.val j) ∧
      (∀ s, 0 ≤ s → s ≤ t → ∀ j, j < 3 → 0 ≤ pos.val j + s * disp.val j) ∧
      (∀ s, t < s → pos.val (opposite_index e) + s * disp.val (opposite_index e) < 0) := by
  have hp0 := hpos 0 (by norm_num)
  have hp1 := hpos 1 (by norm_num)
  have hp2 := hpos 2 (by norm_num)
  have hnsum : (pos.add disp).val 0 + (pos.add disp).val 1 + (pos.add disp).val 2 = 1 := by
    simp only [val_add]; linear_combination hsum + hdisp
  have hsome : (pos.add disp).val 0 < 0 ∨ (pos.add disp).val 1 < 0 ∨
      (pos.add disp).val 2 < 0 := by
    obtain ⟨j, hj, hneg⟩ := hout
    rcases three_cases hj with rfl | rfl | rfl
    · exact Or.inl hneg
    · exact Or.inr (Or.inl hneg)
    · exact Or.inr (Or.inr hneg)
  obtain ⟨n0, hn0⟩ : ∃ n, (pos.add disp).val 0 = n := ⟨_, rfl⟩
  obtain ⟨n1, hn1⟩ : ∃ n, (pos.add disp).val 1 = n := ⟨_, rfl⟩
  obtain ⟨n2, hn2⟩ : ∃ n, (pos.add disp).val 2 = n := ⟨_, rfl⟩
  have key : ∀ (P : Prop),
      (n0 * n1 * n2 < 0 → n0 < 0 → 0 < n1 → 0 < n2 → P) →
      (n0 * n1 * n2 < 0 → 0 < n0 → n1 < 0 → 0 < n2 → P) →
      (n0 * n1 * n2 < 0 → 0 < n0 → 0 < n1 → n2 < 0 → P) →
      (¬ n0 * n1 * n2 < 0 → 0 < n0 → n1 ≤ 0 → n2 ≤ 0 → (n1 < 0 ∨ n2 < 0) → P) →
      (¬ n0 * n1 * n2 < 0 → 0 < n1 → n0 ≤ 0 → n2 ≤ 0 → (n0 < 0 ∨ n2 < 0) → P) →
      (¬ n0 * n1 * n2 < 0 → 0 ≤ n2 → n0 ≤ 0 → n1 ≤ 0 → (n0 < 0 ∨ n1 < 0) → P) → P := by
    rw [hn0, hn1, hn2] at hnsum hsome
    clear hn0 hn1 hn2 hpos hsum hdisp hout hp0 hp1 hp2
    intro P c1 c2 c3 c4 c5 c6
    by_cases hprod : n0 * n1 * n2 < 0
    · have z0 : n0 ≠ 0 := by rintro h; rw [h] at hprod; simp at hprod
      have z1 : n1 ≠ 0 := by rintro h; rw [h] at hprod; simp at hprod
      have z2 : n2 ≠ 0 := by rintro h; rw [h] at hprod; simp at hprod
      rcases lt_or_gt_of_ne z0 with h0 | h0 <;> rcases lt_or_gt_of_ne z1 with h1 | h1 <;>
        rcases lt_or_gt_of_ne z2 with h2 | h2
      · exfalso; linarith
      · exact absurd hprod (not_lt.mpr (le_of_lt (mul_pos (mul_pos_of_neg_of_neg h0 h1) h2)))
      · exact absurd hprod (not_lt.mpr (le_of_lt
          (mul_pos_of_neg_of_neg (mul_neg_of_neg_of_pos h0 h1) h2)))
      · exact c1 hprod h0 h1 h2
      · exact absurd hprod (not_lt.mpr (le_of_lt
          (mul_pos_of_neg_of_neg (mul_neg_of_pos_of_neg h0 h1) h2)))
      · exact c2 hprod h0 h1 h2
      · exact c3 hprod h0 h1 h2
      · exact absurd hprod (not_lt.mpr (le_of_lt (mul_pos (mul_pos h0 h1) h2)))
    · by_cases h0 : 0 < n0
      · have hn1le : n1 ≤ 0 := by
          by_contra hc
          have hc := not_le.mp hc
          have h2 : n2 < 0 := by
            rcases hsome with h | h | h
            · linarith
            · linarith
            · exact h
          exact hprod (mul_neg_of_pos_of_neg (mul_pos h0 hc) h2)
        have hn2le : n2 ≤ 0 := by
          by_contra hc
          have hc := not_le.mp hc
          have h1 : n1 < 0 := by
            rcases hsome with h | h | h
            · linarith
            · exact h
            · linarith
          exact hprod (mul_neg_of_neg_of_pos (mul_neg_of_pos_of_neg h0 h1) hc)
        refine c4 hprod h0 hn1le hn2le ?_
        rcases hsome with h | h | h
        · linarith
        · exact Or.inl h
        · exact Or.inr h
      · have hn0le : n0 ≤ 0 := not_lt.mp h0
        by_cases h1 : 0 < n1
        · have hn2le : n2 ≤ 0 := by
            by_contra hc
            have hc := not_le.mp hc
            have h00 : n0 < 0 := by
              rcases hsome with h | h | h
              · exact h
              · linarith
              · linarith
            exact hprod (mul_neg_of_neg_of_pos (mul_neg_of_neg_of_pos h00 h1) hc)
          refine c5 hprod h1 hn0le hn2le ?_
          rcases hsome with h | h | h
          · exact Or.inl h
          · linarith
          · exact Or.inr h
        · have hn1le : n1 ≤ 0 := not_lt.mp h1
          refine c6 hprod (by linarith) hn0le hn1le ?_
          rcases hsome with h | h | h
          · exact Or.inl h
          · exact Or.inr h
          · linarith
  rw [← hn0, ← hn1, ← hn2] at key
  apply key
  · exact fun a b c d => first_exit_single_zero pos disp hp0 hp1 hp2 a b c d
  · exact fun a b c d => first_exit_single_one pos disp hp0 hp1 hp2 a b c d
  · exact fun a b c d => first_exit_single_two pos disp hp0 hp1 hp2 a b c d
  · exact fun a b c d e => first_exit_double_zero pos disp hp0 hp1 hp2 a b c d e
  · exact fun a b c d e => first_exit_double_one pos disp hp0 hp1 hp2 a b c d e
  · exact fun a b c d e => first_exit_double_two pos disp hp0 hp1 hp2 a b c d e

/-- An instance of C24 at the worked example: from (0.5, 0.3, 0.2) with the
displacement (0.6, -0.1, -0.5) the edge 0 is crossed at `t = 2/5`. -/
theorem first_cross_edge_first_exit_witness :
    first_cross_edge example_pos example_disp = .ok (0, 2 / 5) ∧
    ∃ (e : Nat) (t : ℚ), first_cross_edge example_pos example_disp = .ok (e, t) ∧ e < 3 ∧
      0 < t ∧ t < 1 ∧
      example_pos.val (opposite_index e) + t * example_disp.val (opposite_index e) = 0 ∧
      (∀ j, j < 3 → 0 ≤ example_pos.val j + t * example_disp.val j) ∧
      (∀ s, 0 ≤ s → s ≤ t → ∀ j, j < 3 → 0 ≤ example_pos.val j + s * example_disp.val j) ∧
      (∀ s, t < s →
        example_pos.val (opposite_index e) + s * example_disp.val (opposite_index e) < 0) :=
  ⟨by norm_num [first_cross_edge, Barycentric.add, Barycentric.val, cross_section,
      opposite_index, example_pos, example_disp],
   first_cross_edge_first_exit example_pos example_disp
    (by
      intro j hj
      rcases three_cases hj with rfl | rfl | rfl <;>
        norm_num [Barycentric.val, example_pos])
    (by norm_num [Barycentric.val, example_pos])
    (by norm_num [Barycentric.val, example_disp])
    ⟨2, by norm_num, by norm_num [Barycentric.add, Barycentric.val, example_pos, example_disp]⟩⟩

/-! ### The value of `force_put_inside` -/

theorem tolerance_bounds : (0 : K) < default_tolerance ∧ (default_tolerance : K) < 1 := by
  constructor
  · simp only [default_tolerance]
    positivity
  · simp only [default_tolerance]
    rw [div_lt_one (by positivity)]
    norm_num

theorem clamped_mem (x : K) : 0 ≤ clamped x ∧ clamped x ≤ 1 := by
  unfold clamped
  split_ifs with h1 h2
  · exact ⟨le_refl _, zero_le_one⟩
  · exact ⟨zero_le_one, le_refl _⟩
  · exact ⟨not_lt.mp h1, not_lt.mp h2⟩

theorem clamped_neg (x : K) (h : x < 0) : clamped x = 0 := by
  simp [clamped, h]

theorem clamped_above (x : K) (h : 1 < x) : clamped x = 1 := by
  have : ¬ x < 0 := by linarith
  simp [clamped, h, this]

theorem clamped_le (x : K) (h : 0 ≤ x) : clamped x ≤ x := by
  unfold clamped
  split_ifs with h1 h2
  · exact h
  · exact le_of_lt h2
  · exact le_refl _

/-- The component recomputed as `1 - clamped v - clamped w` when the third
component `u` is non-negative: it is at most 1, not below `-tol`, and
non-negative when the point is exactly on the plane. -/
theorem recomputed_bounds (u v w tol : K) (hplane : |u + v + w - 1| < tol) (hu : 0 ≤ u) :
    -tol ≤ 1 - clamped v - clamped w ∧ 1 - clamped v - clamped w ≤ 1 ∧
    (u + v + w = 1 → 0 ≤ 1 - clamped v - clamped w) := by
  obtain ⟨p1, p2⟩ := abs_lt.mp hplane
  have htol : 0 < tol := lt_of_le_of_lt (abs_nonneg _) hplane
  obtain ⟨v0, v1⟩ := clamped_mem v
  obtain ⟨w0, w1⟩ := clamped_mem w
  refine ⟨?_, by linarith, ?_⟩
  · rcases lt_or_le v 0 with hv | hv
    · rw [clamped_neg v hv]; linarith
    · rcases lt_or_le w 0 with hw | hw
      · rw [clamped_neg w hw]; linarith
      · have := clamped_le v hv
        have := clamped_le w hw
        linarith
  · intro hsum
    rcases lt_or_le v 0 with hv | hv
    · rw [clamped_neg v hv]; linarith
    · rcases lt_or_le w 0 with hw | hw
      · rw [clamped_neg w hw]; linarith
      · have := clamped_le v hv
        have := clamped_le w hw
        linarith

theorem is_inside_tol_of (r : Barycentric K) (hsum : r.v0 + r.v1 + r.v2 = 1)
    (h0 : -default_tolerance ≤ r.v0 ∧ r.v0 ≤ 1) (h1 : -default_tolerance ≤ r.v1 ∧ r.v1 ≤ 1)
    (h2 : -default_tolerance ≤ r.v2 ∧ r.v2 ≤ 1) :
    is_inside_tol r default_tolerance = true := by
  obtain ⟨t0, -⟩ := tolerance_bounds (K := K)
  have hp : |r.v0 + r.v1 + r.v2 - 1| < default_tolerance := by
    rw [hsum, sub_self, abs_zero]; exact t0
  simp only [is_inside_tol, on_plane, val_zero, val_one, val_two, Bool.and_eq_true,
    decide_eq_true_eq]
  refine ⟨⟨⟨hp, ?_, ?_⟩, ?_, ?_⟩, ?_, ?_⟩ <;> linarith [h0.1, h0.2, h1.1, h1.2, h2.1, h2.2]

theorem is_inside_of (r : Barycentric K) (hsum : r.v0 + r.v1 + r.v2 = 1)
    (h0 : 0 ≤ r.v0 ∧ r.v0 ≤ 1) (h1 : 0 ≤ r.v1 ∧ r.v1 ≤ 1) (h2 : 0 ≤ r.v2 ∧ r.v2 ≤ 1) :
    is_inside r = true := by
  obtain ⟨t0, -⟩ := tolerance_bounds (K := K)
  have hp : |r.v0 + r.v1 + r.v2 - 1| < default_tolerance := by
    rw [hsum, sub_self, abs_zero]; exact t0
  simp only [is_inside, on_plane, val_zero, val_one, val_two, Bool.and_eq_true,
    decide_eq_true_eq]
  exact ⟨⟨⟨hp, h0⟩, h1⟩, h2⟩

/-- C25 (as the code has it): a value `r` returned by `force_put_inside(b)` is
inside the triangle up to the tolerance `1e-10` of `on_plane`
(`is_inside(r, 1e-10)`), and it is inside the triangle (`is_inside(r)`) when the
components of `b` sum to exactly 1. -/
theorem force_put_inside_inside_tol (b r : Barycentric K) (h : force_put_inside b = .ok r) :
    is_inside_tol r default_tolerance = true ∧
    (b.val 0 + b.val 1 + b.val 2 = 1 → is_inside r = true) := by
  obtain ⟨t0, t1⟩ := tolerance_bounds (K := K)
  by_cases hplane : on_plane b default_tolerance = true
  swap
  · simp [force_put_inside, hplane] at h
  by_cases hin : is_inside b = true
  · have hr : r = b := by
      simp [force_put_inside, hplane, hin] at h
      exact h.symm
    subst hr
    refine ⟨?_, fun _ => hin⟩
    simp only [is_inside, Bool.and_eq_true, decide_eq_true_eq] at hin
    obtain ⟨⟨⟨a0, a1⟩, a2⟩, a3⟩ := hin
    simp only [is_inside_tol, a0, Bool.and_eq_true, decide_eq_true_eq, true_and]
    refine ⟨⟨⟨?_, ?_⟩, ?_, ?_⟩, ?_, ?_⟩ <;> linarith [a1.1, a1.2, a2.1, a2.2, a3.1, a3.2]
  · have hout : is_inside b = false := by simpa using hin
    rw [force_put_inside_outside b hplane hout] at h
    have hp : |b.v0 + b.v1 + b.v2 - 1| < default_tolerance := by
      simpa [on_plane] using hplane
    obtain ⟨x0, x1⟩ := clamped_mem b.v0
    obtain ⟨y0, y1⟩ := clamped_mem b.v1
    obtain ⟨z0, z1⟩ := clamped_mem b.v2
    simp only [val_zero, val_one, val_two]
    split_ifs at h with o0 o1 o2
    · injection h with h
      subst h
      obtain ⟨c1, c2, c3⟩ := recomputed_bounds b.v0 b.v1 b.v2 default_tolerance hp
        ((is_over_false_iff _).mp o0).1
      refine ⟨is_inside_tol_of _ (by ring) ⟨c1, c2⟩ ⟨by linarith, y1⟩ ⟨by linarith, z1⟩,
        fun hs => is_inside_of _ (by ring) ⟨c3 hs, c2⟩ ⟨y0, y1⟩ ⟨z0, z1⟩⟩
    · injection h with h
      subst h
      obtain ⟨c1, c2, c3⟩ := recomputed_bounds b.v1 b.v0 b.v2 default_tolerance
        (by rw [add_comm b.v1 b.v0]; exact hp) ((is_over_false_iff _).mp o1).1
      refine ⟨is_inside_tol_of _ (by ring) ⟨by linarith, x1⟩ ⟨c1, c2⟩ ⟨by linarith, z1⟩,
        fun hs => is_inside_of _ (by ring) ⟨x0, x1⟩ ⟨c3 (by linarith), c2⟩ ⟨z0, z1⟩⟩
    · injection h with h
      subst h
      obtain ⟨c1, c2, c3⟩ := recomputed_bounds b.v2 b.v0 b.v1 default_tolerance
        (by
          have e : b.v2 + b.v0 + b.v1 = b.v0 + b.v1 + b.v2 := by ring
          rw [e]; exact hp) ((is_over_false_iff _).mp o2).1
      refine ⟨is_inside_tol_of _ (by ring) ⟨by linarith, x1⟩ ⟨by linarith, y1⟩ ⟨c1, c2⟩,
        fun hs => is_inside_of _ (by ring) ⟨x0, x1⟩ ⟨y0, y1⟩ ⟨c3 (by linarith), c2⟩⟩

/-- An instance of C25 (as the code has it) at (-1e-6, 0.5 + 1e-6, 0.5). -/
theorem force_put_inside_inside_tol_witness :
    force_put_inside example_outside = .ok ⟨0, 1 / 2, 1 / 2⟩ ∧
    is_inside_tol (⟨0, 1 / 2, 1 / 2⟩ : Barycentric ℚ) default_tolerance = true :=
  have h : force_put_inside example_outside = .ok ⟨0, 1 / 2, 1 / 2⟩ := by
    norm_num [force_put_inside, on_plane, default_tolerance, is_inside, clamp_fold,
      clamp_step, Barycentric.set, Barycentric.val, Function.update, example_outside]
  ⟨h, (force_put_inside_inside_tol example_outside ⟨0, 1 / 2, 1 / 2⟩ h).1⟩

/-- C25 fails as stated: the point (1 + 4e-11, 0, 3e-11) is on the plane within
the tolerance, and `force_put_inside` returns (1, -3e-11, 3e-11), whose
component 1 is negative, so that `is_inside` does not hold for it. -/
theorem force_put_inside_negative_component :
    on_plane example_above default_tolerance = true ∧
    force_put_inside example_above = .ok ⟨1, -3 / 10 ^ 11, 3 / 10 ^ 11⟩ ∧
    is_inside (⟨1, -3 / 10 ^ 11, 3 / 10 ^ 11⟩ : Barycentric ℚ) = false :=
  ⟨by norm_num [on_plane, default_tolerance, example_above, Barycentric.val, abs_lt],
   by norm_num [force_put_inside, on_plane, default_tolerance, is_inside, clamp_fold,
      clamp_step, Barycentric.set, Barycentric.val, Function.update, example_above, abs_lt],
   by norm_num [is_inside, on_plane, default_tolerance, Barycentric.val]⟩

end BaryBehaviour

section StoreBehaviour

variable {K : Type}

open OffLatticeSpace

/-! ### The origin of a moved particle -/

/-- Where the move path of `update_voxel` leaves the origin: in a reachable
store, after `update_voxel(pid, v)` moved `pid` from `c0` to another
coordinate, `c0` is claimed by the pool that claimed `v.coordinate` before the
call, the location of the pool of `v.species`. -/
theorem update_voxel_origin [LinearOrderedField K] (s s2 : OffLatticeSpace K)
    (pid : ParticleID) (v : Voxel K) (c0 : Int) (hreach : reachable s)
    (hocc : s.get_coord pid = some c0) (hne : c0 ≠ v.coordinate)
    (hres : s.update_voxel pid v = (.ok false, s2)) :
    s2.get_voxel_pool_at c0 = s.get_voxel_pool_at v.coordinate := by
  obtain ⟨hwf, hu⟩ := reachable_wf hreach
  rcases update_voxel_cases hwf pid v with ⟨e, he, -⟩ | ⟨s1, a1, hext, hto1, hreg, hloc, hc⟩
  · rw [hres] at he
    cases he
  · have hu1 : pids_unique s1 := unique_of_pool_voxels hext.2.2.2.2.2 hu
    have hgc := get_coord_congr hwf a1 hu1 hext.2.2.2.2.2 pid
    have hv : s1.voxels = s.voxels := hext.1
    have hat : ∀ c, s1.get_voxel_pool_at c = s.get_voxel_pool_at c := by
      intro c
      simp only [get_voxel_pool_at, hv]
    rcases hc with ⟨hnone, hst⟩ | ⟨from_, psp, hsome, b1, b2, b3, hst⟩
    · rw [hst] at hres
      injection hres with e1 e2
      injection e1 with e1
      cases e1
    · rw [hst] at hres
      injection hres with e1 e2
      rw [hgc, hocc] at hsome
      injection hsome with hsome
      subst hsome
      obtain ⟨-, hat2, -⟩ := reattach_state s1 c0 v.coordinate psp v.species pid b1 hto1 hreg
      rw [e2] at hat2
      rw [hat2 c0 b1, if_neg hne, if_pos rfl, hat]

/-- C22 fails on the code: in `membrane_store` particle 1 of species "A", whose
location is the vacant pool, sits at coordinate 0 and coordinate 2 is claimed by
the pool "membrane"; `update_voxel` of particle 1 to the species "M" on
"membrane" at coordinate 2 returns `false` (moved) and leaves coordinate 0
claimed by the pool "membrane", not by the vacant pool. -/
theorem update_voxel_origin_claim :
    membrane_store.get_coord 1 = some 0 ∧
    membrane_store.get_voxel_pool_at 0 = PoolRef.molecular "A" ∧
    membrane_store.location (PoolRef.molecular "A") = PoolRef.vacant ∧
    membrane_store.get_voxel_pool_at 2 = PoolRef.molecular "membrane" ∧
    (membrane_store.update_voxel 1 ⟨"M", 2, 1 / 2, 1, "membrane"⟩).1 = .ok false ∧
    (membrane_store.update_voxel 1 ⟨"M", 2, 1 / 2, 1, "membrane"⟩).2.get_voxel_pool_at 0 =
      PoolRef.molecular "membrane" ∧
    (membrane_store.update_voxel 1 ⟨"M", 2, 1 / 2, 1, "membrane"⟩).2.get_voxel_pool_at 2 =
      PoolRef.molecular "M" ∧
    (membrane_store.update_voxel 1 ⟨"M", 2, 1 / 2, 1, "membrane"⟩).2.pool_voxels
      (PoolRef.molecular "membrane") = [(2, 0)] :=
  ⟨rfl, rfl, rfl, rfl, rfl, rfl, rfl, rfl⟩

/-! ### The pools created by `get_voxel_pool` -/

theorem find_voxel_pool_none (s : OffLatticeSpace K) (sp : Species)
    (h : s.find_voxel_pool sp = none) : map_find s.molecule_pools sp = none := by
  unfold find_voxel_pool at h
  cases h1 : map_find s.voxel_pools sp with
  | some p => rw [h1] at h; cases h
  | none =>
    rw [h1] at h
    cases h2 : map_find s.molecule_pools sp with
    | some p => rw [h2] at h; cases h
    | none => rfl

/-- C23 (as the code has it): when `get_voxel_pool` creates the pool of a
species registered in neither map, an empty location name gives the new pool
the vacant pool as its location; a location name that is not the species
itself and for which `find_voxel_pool` finds no pool is registered as a
molecular pool with the radius `voxel_radius_` of the store, diffusion
coefficient 0 and the vacant pool as its location, and the new pool has that
pool as its location. -/
theorem get_voxel_pool_creates [LinearOrderedField K] (s : OffLatticeSpace K) (v : Voxel K)
    (hnew1 : map_find s.voxel_pools v.species = none)
    (hnew2 : map_find s.molecule_pools v.species = none) :
    (v.loc = "" →
      (s.get_voxel_pool v).1 = .ok (PoolRef.molecular v.species) ∧
      map_find (s.get_voxel_pool v).2.molecule_pools v.species =
        some ⟨PoolRef.vacant, v.radius, v.D, []⟩) ∧
    (v.loc ≠ "" → v.loc ≠ v.species → s.find_voxel_pool v.loc = none →
      (s.get_voxel_pool v).1 = .ok (PoolRef.molecular v.species) ∧
      map_find (s.get_voxel_pool v).2.molecule_pools v.loc =
        some ⟨PoolRef.vacant, s.voxel_radius, 0, []⟩ ∧
      map_find (s.get_voxel_pool v).2.molecule_pools v.species =
        some ⟨PoolRef.molecular v.loc, v.radius, v.D, []⟩) := by
  constructor
  · intro hloc
    have hm : s.make_molecular_pool v.species v.radius v.D v.loc =
        (.ok true, { s with molecule_pools :=
          s.molecule_pools ++ [(v.species, ⟨PoolRef.vacant, v.radius, v.D, []⟩)] }) := by
      simp [make_molecular_pool, hnew1, hnew2, hloc, insert_molecule_pool]
    have hf : map_find (s.molecule_pools ++ [(v.species,
        (⟨PoolRef.vacant, v.radius, v.D, []⟩ : MoleculePool K))]) v.species =
        some ⟨PoolRef.vacant, v.radius, v.D, []⟩ := by
      rw [map_find_append, hnew2]
      simp
    have hg : s.get_voxel_pool v = (.ok (PoolRef.molecular v.species), { s with molecule_pools :=
        s.molecule_pools ++ [(v.species, ⟨PoolRef.vacant, v.radius, v.D, []⟩)] }) := by
      simp only [get_voxel_pool, hnew1, hnew2, hm, hf, Option.isSome_none, Option.isNone_some,
        Bool.not_true, Bool.false_eq_true, if_false]
    rw [hg]
    exact ⟨rfl, hf⟩
  · intro hloc hne hfind
    have hl := find_voxel_pool_none s v.loc hfind
    have hl2 : map_find (s.molecule_pools ++ [(v.loc,
        (⟨PoolRef.vacant, s.voxel_radius, 0, []⟩ : MoleculePool K))]) v.species = none := by
      rw [map_find_append, hnew2]
      simp [hne]
    have hm : s.make_molecular_pool v.species v.radius v.D v.loc =
        (.ok true, { s with molecule_pools :=
          (s.molecule_pools ++ [(v.loc, ⟨PoolRef.vacant, s.voxel_radius, 0, []⟩)]) ++
            [(v.species, ⟨PoolRef.molecular v.loc, v.radius, v.D, []⟩)] }) := by
      simp [make_molecular_pool, hnew1, hnew2, hloc, hfind, insert_molecule_pool, hl, hl2]
    have hf1 : map_find ((s.molecule_pools ++ [(v.loc,
        (⟨PoolRef.vacant, s.voxel_radius, 0, []⟩ : MoleculePool K))]) ++
        [(v.species, ⟨PoolRef.molecular v.loc, v.radius, v.D, []⟩)]) v.loc =
        some ⟨PoolRef.vacant, s.voxel_radius, 0, []⟩ := by
      rw [map_find_append, map_find_append, hl]
      simp
    have hf2 : map_find ((s.molecule_pools ++ [(v.loc,
        (⟨PoolRef.vacant, s.voxel_radius, 0, []⟩ : MoleculePool K))]) ++
        [(v.species, ⟨PoolRef.molecular v.loc, v.radius, v.D, []⟩)]) v.species =
        some ⟨PoolRef.molecular v.loc, v.radius, v.D, []⟩ := by
      rw [map_find_append, hl2]
      simp
    have hg : s.get_voxel_pool v = (.ok (PoolRef.molecular v.species), { s with molecule_pools :=
        (s.molecule_pools ++ [(v.loc, ⟨PoolRef.vacant, s.voxel_radius, 0, []⟩)]) ++
          [(v.species, ⟨PoolRef.molecular v.loc, v.radius, v.D, []⟩)] }) := by
      simp only [get_voxel_pool, hnew1, hnew2, hm, hf2, Option.isSome_none, Option.isNone_some,
        Bool.not_true, Bool.false_eq_true, if_false]
    rw [hg]
    exact ⟨rfl, hf1, hf2⟩

/-- An instance of C23 (as the code has it) on `square_store`, whose voxel
radius is 1/2: the species "M" on the location "membrane". -/
theorem get_voxel_pool_creates_witness :
    map_find square_store.voxel_pools "M" = none ∧
    map_find square_store.molecule_pools "M" = none ∧
    (square_store.get_voxel_pool ⟨"M", 2, 1 / 2, 1, "membrane"⟩).1 =
      .ok (PoolRef.molecular "M") ∧
    map_find (square_store.get_voxel_pool ⟨"M", 2, 1 / 2, 1, "membrane"⟩).2.molecule_pools
      "membrane" = some ⟨PoolRef.vacant, 1 / 2, 0, []⟩ :=
  have h := (get_voxel_pool_creates square_store ⟨"M", 2, 1 / 2, 1, "membrane"⟩ rfl rfl).2
    (by decide) (by decide) rfl
  ⟨rfl, rfl, h.1, h.2.1⟩

/-- C23 fails as stated: on `square_store`, whose voxel radius is 1/2, the
placeholder pool that `get_voxel_pool` registers for the location "membrane" of
the species "M" has the radius 1/2, not 0. -/
theorem placeholder_radius_is_voxel_radius :
    square_store.find_voxel_pool "membrane" = none ∧
    (map_find (square_store.get_voxel_pool ⟨"M", 2, 1 / 2, 1, "membrane"⟩).2.molecule_pools
      "membrane").map (fun p => p.radius) = some (1 / 2) ∧
    ((1 / 2 : ℚ) ≠ 0) :=
  ⟨rfl, rfl, by norm_num⟩

end StoreBehaviour

end Ecell4
